import Mathlib

/-!
# Aris proof document model: sentences, index paths, renumbering, undo

A shallow embedding of `src/sentence.c` and `src/undo.c`.

Conventions of the embedding.

* A C `int` is an unbounded `Int`; a `short` slot of the persisted reference
  array holds `to_short` of the value stored into it.
* `Option` results: `none` stands for a run that leaves defined behaviour
  (a NULL dereference, or an access outside an allocated buffer).  Failed
  allocations and failed rendering of a text (the error returns guarded by
  `CHECK_ALLOC` and by the return code of `sentence_paste_text`) are not
  modelled: allocation and rendering always succeed.
* A `sentence *` that is stored in a list (`references`) is the `id` of the
  sentence, its address.  An `item_t *` of the `everything` list is the
  position of the item in that list.
* Widgets, labels, fonts and colours are presentation; only the `bg_color`
  field written by `sentence_set_bg` is kept.
-/

namespace Aris

/-- Modelled from the spec: the document kind stored in `sen_parent.type`
(`SEN_PARENT_TYPE_PROOF`, `SEN_PARENT_TYPE_GOAL`), declared in sen-parent.h,
which is not among the sources. -/
inductive SEN_PARENT_TYPE where
  | PROOF
  | GOAL
deriving DecidableEq, Repr

/-- Modelled from the spec: the background colour indices `BG_COLOR_*` used by
`sentence_set_bg`, declared in a header that is not among the sources. -/
inductive BG_COLOR where
  | DEFAULT
  | CONC
  | REF
  | SEL
  | GOOD
  | BAD
deriving DecidableEq, Repr

/-- Modelled from the spec: the verification marker `VALUE_TYPE_BLANK`, declared
in a header that is not among the sources; it indexes the first icon of
`sen_values`. -/
def VALUE_TYPE_BLANK : Int := 0

/-- Modelled from the spec: the record `sen_data` of sen-data.h (not among the
sources), with the fields that `sentence.c` and `undo.c` read and write:
`line_num`, `rule`, `text` (NULL is `none`), `refs` (NULL is `none`, otherwise
the raw `short` array with its `-1` terminator), `premise`, `subproof`, `depth`
and the `indices` buffer. -/
structure sen_data where
  line_num : Int
  rule : Int
  text : Option String
  refs : Option (List Int)
  premise : Bool
  subproof : Bool
  depth : Nat
  indices : List Int
deriving DecidableEq, Repr

/-- Modelled from the spec: the record `sentence` of sentence.h (not among the
sources), with the fields that `sentence.c` and `undo.c` read and write: its
address `id`, the embedded `sen_data` (the `SD (sen)` view), `value_type`,
`selected`, `font_resizing`, `reference`, `bg_color`, and `references`, the
addresses of the cited sentences in citation order. -/
structure sentence where
  id : Nat
  sd : sen_data
  value_type : Int
  selected : Int
  font_resizing : Int
  references : List Nat
  reference : Int
  bg_color : BG_COLOR
deriving DecidableEq, Repr

/-- Modelled from the spec: the container `sen_parent` of sen-parent.h (not
among the sources): its kind, the ordered `everything` list, the `focused` item
(a position in `everything`, `none` for NULL) and the `undo` replay flag. -/
structure sen_parent where
  type : SEN_PARENT_TYPE
  everything : List sentence
  focused : Option Nat
  undo : Int
deriving DecidableEq, Repr

/-- Conversion of an `int` to the `short` slot it is stored into (16 bit two's
complement wrap). -/
def to_short (n : Int) : Int := (n + 32768) % 65536 - 32768

/-- Modelled from the spec: the macro `SEN_PREM` of sentence.h (not among the
sources), the `isPremise` flag of the record. -/
def SEN_PREM (sen : sentence) : Bool := sen.sd.premise

/-- Modelled from the spec: the macro `SEN_SUB` of sentence.h (not among the
sources), the `isSubproofOpener` flag of the record. -/
def SEN_SUB (sen : sentence) : Bool := sen.sd.subproof

/-- Modelled from the spec: the macro `SEN_DEPTH` of sentence.h (not among the
sources), the nesting `depth` of the record. -/
def SEN_DEPTH (sen : sentence) : Nat := sen.sd.depth

/-- Modelled from the spec: the macro `SEN_IND (sen, i)` of sentence.h (not among
the sources), a read of `indices[i]`; `none` outside the buffer. -/
def SEN_IND (sen : sentence) (i : Nat) : Option Int := sen.sd.indices[i]?

/-- Returns the line number of a sentence. -/
def sentence_get_line_no (sen : sentence) : Int := sen.sd.line_num

/-- Returns the rule of a sentence. -/
def sentence_get_rule (sen : sentence) : Int := sen.sd.rule

/-- Returns the text of a sentence. -/
def sentence_get_text (sen : sentence) : Option String := sen.sd.text

/-- Sets the text of a sentence: `strdup (text)`, which needs a non-NULL
argument. -/
def sentence_set_text (sen : sentence) (text : Option String) : Option (Int × sentence) :=
  match text with
  | none => none
  | some t => some (0, { sen with sd := { sen.sd with text := some t } })

/-- Sets the rule of a sentence. -/
def sentence_set_rule (sen : sentence) (rule : Int) : sentence :=
  { sen with sd := { sen.sd with rule := rule } }

/-- Sets an index of a sentence: the write `indices[i] = index`; `none` outside
the buffer. -/
def sentence_set_index (sen : sentence) (i : Nat) (index : Int) : Option sentence :=
  if i < sen.sd.indices.length then
    some { sen with sd := { sen.sd with indices := sen.sd.indices.set i index } }
  else none

/-- Sets the background colour of a sentence. -/
def sentence_set_bg (sen : sentence) (bg : BG_COLOR) : sentence :=
  { sen with bg_color := bg }

/-- Sets the evaluation value of a sentence. -/
def sentence_set_value (sen : sentence) (value_type : Int) : sentence :=
  { sen with value_type := value_type }

/-- Sets the font of a sentence: raises `font_resizing`, resizes the rendered
connectives and the labels, then lowers `font_resizing` again. -/
def sentence_set_font (sen : sentence) : sentence :=
  { sen with font_resizing := 0 }

/-- Sets the line number of a sentence. The result code is `-2` when the line is
not meant to be set and `0` on success; the label of a positive line number has
`(int) log10 (n) + 1` characters, so the print check passes. -/
def sentence_set_line_no (sen : sentence) (new_line_no : Int) : Int × sentence :=
  let cur_line := sentence_get_line_no sen
  if new_line_no < 1 then
    if cur_line = -1 then (-2, sen)
    else (0, { sen with sd := { sen.sd with line_num := -1 } })
  else (0, { sen with sd := { sen.sd with line_num := new_line_no } })

/-- The loop `for (i = 0; i < SEN_DEPTH (sen); i++)` of
`sentence_update_line_no`, with `k` iterations left and the counter at `i`. -/
def update_indices (old line_mod : Int) : Nat → Nat → sentence → Option sentence
  | 0, _, sen => some sen
  | k + 1, i, sen =>
    match SEN_IND sen i with
    | none => none
    | some v =>
      if v ≥ old then
        match sentence_set_index sen i (v + line_mod) with
        | none => none
        | some sen1 => update_indices old line_mod k (i + 1) sen1
      else update_indices old line_mod k (i + 1) sen

/-- Updates the line number and label of a sentence. The relabelling of the
rules menu for a lemma line (`RULE_LM`) is presentation and is left out. -/
def sentence_update_line_no (sp : sen_parent) (sen : sentence) (new : Int) :
    Option (Int × sentence) :=
  let old := sen.sd.line_num
  let r := sentence_set_line_no sen new
  if r.1 = -1 then some (-1, r.2)
  else if old = 0 then some (0, r.2)
  else if sp.type = SEN_PARENT_TYPE.GOAL then some (0, r.2)
  else (update_indices old (new - old) (SEN_DEPTH r.2) 0 r.2).map (fun s => (0, s))

/-- The dereference of a sentence address: the live sentence of `everything`
stored at that address; `none` for an address that no live sentence has. -/
def deref (everything : List sentence) (p : Nat) : Option sentence :=
  everything.find? (fun s => s.id == p)

/-- The serialisation loop shared by `sentence_add_ref` and `sentence_rem_ref`:
one `short` slot per reference, holding the line number of the cited sentence,
then the terminator `-1`. -/
def serialize_refs (everything : List sentence) : List Nat → Option (List Int)
  | [] => some [-1]
  | p :: ps =>
    match deref everything p with
    | none => none
    | some r => (serialize_refs everything ps).map (fun l => to_short r.sd.line_num :: l)

/-- Add a reference to the proof: `ls_push_obj` appends the address of `ref` to
`sen->references`, and the persisted array is rebuilt. -/
def sentence_add_ref (everything : List sentence) (sen : sentence) (ref : sentence) :
    Option (Int × sentence) :=
  let refs := sen.references ++ [ref.id]
  (serialize_refs everything refs).map
    (fun l => (0, { sen with references := refs, sd := { sen.sd with refs := some l } }))

/-- Modelled from the spec: `ls_rem_obj_value` of list.c (not among the
sources): unlinks the item holding the given address. -/
def ls_rem_obj_value (l : List Nat) (p : Nat) : List Nat := l.erase p

/-- Remove a reference from the proof. -/
def sentence_rem_ref (everything : List sentence) (sen : sentence) (ref : sentence) :
    Option (Int × sentence) :=
  let refs := ls_rem_obj_value sen.references ref.id
  (serialize_refs everything refs).map
    (fun l => (0, { sen with references := refs, sd := { sen.sd with refs := some l } }))

/-- The outer loop of `sentence_update_refs` over the persisted array: stops at
the terminator, skips a line number greater than the line of the sentence, and
appends the first sentence of `everything` with the persisted line number. A
scan that leaves the array without meeting `-1` is `none`. -/
def update_refs_loop (ln : Int) (everything : List sentence) :
    List Int → List Nat → Option (List Nat)
  | [], _ => none
  | cur_line :: rest, acc =>
    if cur_line = -1 then some acc
    else if cur_line > ln then update_refs_loop ln everything rest acc
    else
      match everything.find? (fun r => sentence_get_line_no r == cur_line) with
      | some ref_sen => update_refs_loop ln everything rest (acc ++ [ref_sen.id])
      | none => update_refs_loop ln everything rest acc

/-- Update the references of a sentence from data. -/
def sentence_update_refs (sp : sen_parent) (sen : sentence) : Option (Int × sentence) :=
  let ln := sentence_get_line_no sen
  match sen.sd.refs with
  | none => some (0, sen)
  | some refs =>
    (update_refs_loop ln sp.everything refs sen.references).map
      (fun l => (0, { sen with references := l }))

/-- The copy loop `for (i = 0; i < index_copy_end; i++)` of `sentence_init`,
with `k` iterations left and the counter at `i`. -/
def copy_indices (fcs_sen : sentence) : Nat → Nat → sentence → Option sentence
  | 0, _, sen => some sen
  | k + 1, i, sen =>
    match SEN_IND fcs_sen i with
    | none => none
    | some v =>
      match sentence_set_index sen i v with
      | none => none
      | some sen1 => copy_indices fcs_sen k (i + 1) sen1

/-- The block "Set the indices" of `sentence_init` (from the `calloc` of
`depth + 1` slots to the write of the sentinel), on the sentence whose data has
been copied from `sd`. -/
def sentence_init_indices (sd : sen_data) (fcs : Option sentence) (ln : Int)
    (sen : sentence) : Option sentence :=
  let depth := sen.sd.depth
  let sen0 : sentence := { sen with sd := { sen.sd with indices := List.replicate (depth + 1) 0 } }
  if !SEN_PREM sen0 then
    match fcs with
    | none => none
    | some fcs_sen =>
      let index_copy_end := if SEN_DEPTH fcs_sen < depth then SEN_DEPTH fcs_sen else depth
      match copy_indices fcs_sen index_copy_end 0 sen0 with
      | none => none
      | some sen1 =>
        if sd.subproof then
          match sentence_set_index sen1 index_copy_end ln with
          | none => none
          | some sen2 => sentence_set_index sen2 (index_copy_end + 1) (-1)
        else sentence_set_index sen1 index_copy_end (-1)
  else sentence_set_index sen0 0 (-1)

/-- The part "Set the data components" of `sentence_init`, after the line
number: rule, text (a NULL text becomes the empty string), the reference list
rebuilt from the persisted array, the reference flag, font and background. -/
def sentence_init_data (sd : sen_data) (sp : sen_parent) (sen : sentence) : Option sentence :=
  let sen3 := sentence_set_rule sen sd.rule
  let sen4 : sentence :=
    match sd.text with
    | some _ => sen3
    | none => { sen3 with sd := { sen3.sd with text := some "" } }
  match sentence_update_refs sp { sen4 with references := [] } with
  | none => none
  | some r =>
    some (sentence_set_bg (sentence_set_font { r.2 with reference := 0 }) BG_COLOR.CONC)

/-- Initializes a sentence from `sd` in the container `sp`, after the item
`fcs` (NULL is `none`); `addr` is the address of the new object. -/
def sentence_init (sd : sen_data) (sp : sen_parent) (fcs : Option sentence) (addr : Nat) :
    Option sentence :=
  let ln : Int :=
    if sp.type = SEN_PARENT_TYPE.PROOF then
      match fcs with
      | some f => sentence_get_line_no f + 1
      | none => 1
    else 0
  let sen : sentence :=
    { id := addr, sd := { sd with line_num := 0 }, value_type := VALUE_TYPE_BLANK,
      selected := 0, font_resizing := 0, references := [], reference := 0,
      bg_color := BG_COLOR.DEFAULT }
  match sentence_init_indices sd fcs ln sen with
  | none => none
  | some sen1 =>
    match sentence_update_line_no sp sen1 ln with
    | none => none
    | some r => if r.1 = -1 then none else sentence_init_data sd sp r.2

/-! ### Vocabulary of the statements -/

/-- The sentence `sen` with its index buffer replaced by `l`. -/
def set_indices (sen : sentence) (l : List Int) : sentence :=
  { sen with sd := { sen.sd with indices := l } }

/-- The effect of one iteration of the renumbering loop on a slot holding `v`. -/
def shift_slot (old line_mod v : Int) : Int := if v ≥ old then v + line_mod else v

/-- The first `k` slots of a buffer renumbered, the others kept. -/
def shift_first (old line_mod : Int) : Nat → List Int → List Int
  | 0, l => l
  | _ + 1, [] => []
  | k + 1, v :: l => shift_slot old line_mod v :: shift_first old line_mod k l

/-- The persisted reference array is NULL or holds its terminator `-1`. -/
def refs_terminated (refs : Option (List Int)) : Bool :=
  match refs with
  | none => true
  | some l => l.contains (-1)

/-- The line number `ln` that `sentence_init` computes for the new sentence. -/
def init_ln (sp : sen_parent) (fcs : Option sentence) : Int :=
  if sp.type = SEN_PARENT_TYPE.PROOF then
    match fcs with
    | some f => sentence_get_line_no f + 1
    | none => 1
  else 0

/-- The sentence of `sentence_init` right after `sen_data_copy` and the reset of
`line_num`, before its index buffer is allocated. -/
def init_blank (sd : sen_data) (addr : Nat) : sentence :=
  { id := addr, sd := { sd with line_num := 0 }, value_type := VALUE_TYPE_BLANK,
    selected := 0, font_resizing := 0, references := [], reference := 0,
    bg_color := BG_COLOR.DEFAULT }

/-- The number of index slots that `sentence_init` copies from the preceding
sentence: `index_copy_end`. -/
def index_copy_end (sd : sen_data) (fcs_sen : sentence) : Nat :=
  if SEN_DEPTH fcs_sen < sd.depth then SEN_DEPTH fcs_sen else sd.depth

/-- The slot at which `sentence_init` writes the sentinel for a sentence that is
not a premise. -/
def sentinel_slot (sd : sen_data) (fcs_sen : sentence) : Nat :=
  index_copy_end sd fcs_sen + (if sd.subproof then 1 else 0)

/-- A conclusion line of depth 2 to be inserted. -/
def c2_sd : sen_data :=
  { line_num := -1, rule := -1, text := none, refs := none, premise := false,
    subproof := false, depth := 2, indices := [] }

/-- A premise at line 1, depth 0: the preceding record. -/
def c2_prev : sentence :=
  { id := 1,
    sd := { line_num := 1, rule := -1, text := some "P", refs := none, premise := true,
            subproof := false, depth := 0, indices := [-1] },
    value_type := 0, selected := 0, font_resizing := 0, references := [], reference := 0,
    bg_color := BG_COLOR.DEFAULT }

/-- A proof container holding the premise `c2_prev`. -/
def c2_sp : sen_parent :=
  { type := SEN_PARENT_TYPE.PROOF, everything := [c2_prev], focused := some 0, undo := 0 }

/-- An interior line of a subproof: line 5, depth 1, in the subproof opened at
line 3. -/
def c3_rec : sentence :=
  { id := 5,
    sd := { line_num := 5, rule := -1, text := some "Q", refs := none, premise := false,
            subproof := false, depth := 1, indices := [3, -1] },
    value_type := 0, selected := 0, font_resizing := 0, references := [], reference := 0,
    bg_color := BG_COLOR.DEFAULT }

/-- Modelled from the spec: the batch kinds `UIT_MOD_TEXT`, `UIT_ADD_SEN`,
`UIT_REM_SEN` (Modify, Add, Remove), an enumeration of undo.h, which is not
among the sources; the three are distinct case labels of one `switch`. -/
def UIT_MOD_TEXT : Int := 0

/-- Modelled from the spec: see `UIT_MOD_TEXT`. -/
def UIT_ADD_SEN : Int := 1

/-- Modelled from the spec: see `UIT_MOD_TEXT`. -/
def UIT_REM_SEN : Int := 2

/-- Modelled from the spec: the function pointer type `undo_op` of undo.h (not
among the sources), as the three operations of `undo.c` it can point to. -/
inductive undo_op where
  | undo_op_mod
  | undo_op_add
  | undo_op_remove
deriving DecidableEq, Repr

/-- Modelled from the spec: the undo batch `undo_info` of undo.h (not among the
sources): its kind and the list of snapshots (the time stamp is left out). -/
structure undo_info where
  type : Int
  ls : List sen_data
deriving DecidableEq, Repr

/-- The operation that undoes (`undo` non-zero) or redoes (`undo` zero) a batch
of kind `type`. The `switch` has no default: for another kind the returned
pointer is uninitialised, which is `none`. -/
def undo_determine_op (undo : Int) (type : Int) : Option undo_op :=
  if type = UIT_MOD_TEXT then some undo_op.undo_op_mod
  else if type = UIT_ADD_SEN then
    some (if undo ≠ 0 then undo_op.undo_op_remove else undo_op.undo_op_add)
  else if type = UIT_REM_SEN then
    some (if undo ≠ 0 then undo_op.undo_op_add else undo_op.undo_op_remove)
  else none

/-- The scan `for (itm = everything->head; itm; itm = itm->next)` shared by
`undo_op_add` and `undo_op_mod`: it stops at the first sentence whose line
number is at least `line_num`. The result is the item `itm` at which the loop
ended (NULL is `none`) and the sentence last assigned to `sen` (`none` while
`sen` is uninitialised), both as positions; `pos` is the position of the head of
the remaining list. -/
def undo_scan (line_num : Int) : List sentence → Nat → Option Nat → Option Nat × Option Nat
  | [], _, sen => (none, sen)
  | s :: rest, pos, _ =>
    if sentence_get_line_no s ≥ line_num then (some pos, some pos)
    else undo_scan line_num rest (pos + 1) (some pos)

/-- One iteration of the loop of `undo_op_mod` over the snapshots: the scan,
then the exchange of the text of `sen` with the text of the snapshot. The two
text buffer calls re-render the stored text; the change notification they raise
reaches `sentence_text_changed` while `undo` is 1, where it returns at once. -/
def undo_op_mod_one (sp : sen_parent) (sd : sen_data) : Option (sen_parent × sen_data) :=
  match (undo_scan sd.line_num sp.everything 0 none).2 with
  | none => none
  | some k =>
    match sp.everything[k]? with
    | none => none
    | some sen =>
      match sentence_get_text sen with
      | none => none
      | some old_text =>
        match sentence_set_text sen sd.text with
        | none => none
        | some r =>
          some ({ sp with everything := sp.everything.set k r.2, undo := 0 },
                { sd with text := some old_text })

/-- The loop of `undo_op_mod` over the snapshots of the batch. -/
def undo_op_mod_loop (sp : sen_parent) : List sen_data → Option (sen_parent × List sen_data)
  | [] => some (sp, [])
  | sd :: rest =>
    match undo_op_mod_one sp sd with
    | none => none
    | some r => (undo_op_mod_loop r.1 rest).map (fun q => (q.1, r.2 :: q.2))

/-- The operation `undo_op_mod`: for each snapshot, exchange its text with the
text of the live sentence found by the scan. Returns the result code, the
container and the batch. -/
def undo_op_mod (sp : sen_parent) (ui : undo_info) : Option (Int × sen_parent × undo_info) :=
  (undo_op_mod_loop sp ui.ls).map (fun r => (0, r.1, { ui with ls := r.2 }))

/-- The sentence `s` with its stored text replaced by `t`. -/
def with_text (s : sentence) (t : Option String) : sentence :=
  { s with sd := { s.sd with text := t } }

/-- The snapshot `sd` with its text replaced by `t`. -/
def snapshot_with_text (sd : sen_data) (t : Option String) : sen_data :=
  { sd with text := t }

/-- The live sentence `s` after a text swap with the batch: it takes the text of
the first snapshot that carries its line number, if there is one. -/
def restore_text (batch : List sen_data) (s : sentence) : sentence :=
  match batch.find? (fun sd => sd.line_num == s.sd.line_num) with
  | some sd => with_text s sd.text
  | none => s

/-- The snapshot `sd` after a text swap with the document: it takes the text of
the first live sentence that carries its line number, if there is one. -/
def stash_text (everything : List sentence) (sd : sen_data) : sen_data :=
  match everything.find? (fun s => s.sd.line_num == sd.line_num) with
  | some s => snapshot_with_text sd s.sd.text
  | none => sd

/-- A conclusion at line 2, depth 0, with the text "Q". -/
def c7_line2 : sentence :=
  { id := 2,
    sd := { line_num := 2, rule := -1, text := some "Q", refs := some [-1], premise := false,
            subproof := false, depth := 0, indices := [-1] },
    value_type := 0, selected := 0, font_resizing := 0, references := [], reference := 0,
    bg_color := BG_COLOR.DEFAULT }

/-- A proof with the premise at line 1 and the conclusion at line 2. -/
def c7_sp : sen_parent :=
  { type := SEN_PARENT_TYPE.PROOF, everything := [c2_prev, c7_line2], focused := some 1,
    undo := 0 }

/-- A Modify batch: the snapshot of line 2 taken while its text was "R". -/
def c7_ui : undo_info :=
  { type := UIT_MOD_TEXT, ls := [{ c7_line2.sd with text := some "R" }] }

/-- Lines 1 and 3 of a proof; no record has line number 2. -/
def c9_sp : sen_parent :=
  { type := SEN_PARENT_TYPE.PROOF,
    everything := [c2_prev, { c7_line2 with sd := { c7_line2.sd with line_num := 3 } }],
    focused := some 1, undo := 0 }

/-- A Modify batch whose snapshot carries line number 2 and the text "R". -/
def c9_ui : undo_info :=
  { type := UIT_MOD_TEXT, ls := [{ c7_line2.sd with text := some "R" }] }

/-- Modelled from the spec: `ls_nth` of list.c (not among the sources): the item
at position `n` of the list, counted from 0, and NULL when the list has no such
position. -/
def ls_nth (everything : List sentence) (n : Int) : Option Nat :=
  if 0 ≤ n ∧ n.toNat < everything.length then some n.toNat else none

/-- The loop of `sentence_set_reference` over the items after the sentence: it
colours each sentence and stops at the first one whose depth is smaller than
`depth`. -/
def set_reference_run (bg : BG_COLOR) (depth : Nat) : List sentence → List sentence
  | [] => []
  | sub_sen :: rest =>
    if SEN_DEPTH sub_sen < depth then sub_sen :: rest
    else sentence_set_bg sub_sen bg :: set_reference_run bg depth rest

/-- Sets the reference state of the sentence at position `pos` of `everything`
(`ls_find` returns that position for a sentence that is listed once). -/
def sentence_set_reference (everything : List sentence) (pos : Nat) (reference : Int)
    (entire_subproof : Int) : Option (List sentence) :=
  match everything[pos]? with
  | none => none
  | some sen =>
    let bg := if reference ≠ 0 then BG_COLOR.REF else BG_COLOR.DEFAULT
    let sen1 := sentence_set_bg sen bg
    let after :=
      if SEN_SUB sen ∧ entire_subproof ≠ 0 then
        set_reference_run bg (SEN_DEPTH sen) (everything.drop (pos + 1))
      else everything.drop (pos + 1)
    some (everything.take pos ++ { sen1 with reference := reference } :: after)

/-- Selects a sentence as a reference of the focused sentence. The helper
`sen_data_can_select_as_ref` of sen-data.c (not among the sources) is the
parameter `can_select`. The final `aris_proof_set_changed` call with an empty
undo record only marks the document as changed. -/
def select_reference (can_select : sen_data → sen_data → Int) (sp : sen_parent)
    (sen : sentence) : Option (Int × sen_parent) :=
  match sp.focused with
  | none => some (-1, sp)
  | some f =>
    match sp.everything[f]? with
    | none => none
    | some fcs_sen =>
      if SEN_PREM fcs_sen then some (-1, sp)
      else if sentence_get_line_no sen ≥ sentence_get_line_no fcs_sen then some (-1, sp)
      else
        let ret0 := can_select fcs_sen.sd sen.sd
        let entire : Int := if ret0 < 0 then 1 else 0
        let ret : Int := if ret0 < 0 then ret0 * -1 else ret0
        match ls_nth sp.everything (ret - 1) with
        | none => none
        | some r =>
          match sp.everything[r]? with
          | none => none
          | some ref_sen =>
            if ref_sen.reference ≠ 0 then
              match sentence_rem_ref sp.everything fcs_sen ref_sen with
              | none => none
              | some q =>
                (sentence_set_reference (sp.everything.set f q.2) r 0 entire).map
                  (fun ev => (0, { sp with everything := ev }))
            else
              match sentence_add_ref sp.everything fcs_sen ref_sen with
              | none => none
              | some q =>
                (sentence_set_reference (sp.everything.set f q.2) r 1 entire).map
                  (fun ev => (0, { sp with everything := ev }))

/-- The address of a freshly allocated sentence: one that no live sentence
has. -/
def fresh_addr (everything : List sentence) : Nat :=
  (everything.map (fun s => s.id)).foldr max 0 + 1

/-- Modelled from the spec: the renumbering `renumberFrom` applied to the records
after an insertion point (`aris_proof_adjust_lines` of aris-proof.c, not among
the sources): in a proof container every record with an assigned line number
(at least 1) is renumbered by `sentence_update_line_no (rec, line + delta)`;
unassigned records and goal containers are skipped. -/
def renumber_records (sp : sen_parent) (delta : Int) : List sentence → Option (List sentence)
  | [] => some []
  | s :: rest =>
    let s1 : Option sentence :=
      if sp.type = SEN_PARENT_TYPE.PROOF ∧ 1 ≤ s.sd.line_num then
        (sentence_update_line_no sp s (s.sd.line_num + delta)).map (fun r => r.2)
      else some s
    match s1 with
    | none => none
    | some s2 => (renumber_records sp delta rest).map (fun l => s2 :: l)

/-- Modelled from the spec: `aris_proof_create_sentence` of aris-proof.c (not
among the sources), the insert path of the document: the new record is built by
`sentence_init` from `sd` with the focused item as the item it comes after, it
is linked into `everything` right after the focused item (at the head when no
item is focused), and the records after it are renumbered by `+1`. The
resynchronisation of references and the undo bookkeeping of the same path move
no record and are left out. -/
def aris_proof_create_sentence (sp : sen_parent) (sd : sen_data) (_undo : Int) :
    Option sen_parent :=
  let at_pos : Nat :=
    match sp.focused with
    | none => 0
    | some j => j + 1
  let fcs : Option sentence :=
    match sp.focused with
    | none => none
    | some j => sp.everything[j]?
  match sentence_init sd sp fcs (fresh_addr sp.everything) with
  | none => none
  | some sen =>
    match renumber_records sp 1 (sp.everything.drop at_pos) with
    | none => none
    | some after => some { sp with everything := sp.everything.take at_pos ++ sen :: after }

/-- The focus that `undo_op_add` computes from the item `itm` at which its scan
ended: `itm->prev`, or the tail of `everything` when `itm` is NULL. -/
def undo_op_add_focus (everything : List sentence) (itm : Option Nat) : Option Nat :=
  match itm with
  | some k => if k = 0 then none else some (k - 1)
  | none => if everything.length = 0 then none else some (everything.length - 1)

/-- One iteration of the loop of `undo_op_add` over the snapshots: the scan, the
focus, and the call of the create path with the snapshot. -/
def undo_op_add_one (sp : sen_parent) (sd : sen_data) : Option sen_parent :=
  let itm := (undo_scan sd.line_num sp.everything 0 none).1
  aris_proof_create_sentence
    { sp with focused := undo_op_add_focus sp.everything itm } sd 0

/-- The loop of `undo_op_add` over the snapshots of the batch. -/
def undo_op_add_loop (sp : sen_parent) : List sen_data → Option sen_parent
  | [] => some sp
  | sd :: rest =>
    match undo_op_add_one sp sd with
    | none => none
    | some sp1 => undo_op_add_loop sp1 rest

/-- The operation `undo_op_add`: re-inserts the snapshots of the batch. -/
def undo_op_add (sp : sen_parent) (ui : undo_info) : Option (Int × sen_parent) :=
  (undo_op_add_loop sp ui.ls).map (fun r => (0, r))

/-- The position of the first sentence whose line number is at least `line_num`,
or the length of the list when there is none. -/
def first_at_least (line_num : Int) : List sentence → Nat
  | [] => 0
  | s :: rest => if s.sd.line_num ≥ line_num then 0 else first_at_least line_num rest + 1

/-- The focus that precedes position `k`: the item before it, or NULL at the
head. -/
def focus_before (k : Nat) : Option Nat := if k = 0 then none else some (k - 1)

/-- The fields of a sentence that colouring and the reference flag leave alone:
address, sentence data and reference list. -/
def core_of (s : sentence) : Nat × sen_data × List Nat := (s.id, s.sd, s.references)

/-- The sentence at position `pos` after `sentence_set_reference`: coloured, with
its reference flag set to `reference`. -/
def mark_reference (sen : sentence) (reference : Int) : sentence :=
  { sentence_set_bg sen (if reference ≠ 0 then BG_COLOR.REF else BG_COLOR.DEFAULT) with
    reference := reference }

/-- Line 2 of the proof `c12_sp`: a conclusion that already cites line 1, as
`sentence_update_refs` leaves it (the reference flag of line 1 is not set). -/
def c12_line2 : sentence :=
  { c7_line2 with references := [1], sd := { c7_line2.sd with refs := some [1, -1] } }

/-- A proof with the premise at line 1 and the conclusion `c12_line2` focused. -/
def c12_sp : sen_parent :=
  { type := SEN_PARENT_TYPE.PROOF, everything := [c2_prev, c12_line2], focused := some 1,
    undo := 0 }

/-- The line that `select_reference` resolves from the result of the can-select
check: its magnitude. -/
def resolved_line (ret : Int) : Int := if ret < 0 then ret * -1 else ret

/-- A record of the four-line example: line `ln`, depth `d`, index path `ind`. -/
def ex4_line (ln : Int) (d : Nat) (ind : List Int) (prem sub : Bool) (refs : List Nat) :
    sentence :=
  { id := ln.toNat,
    sd := { line_num := ln, rule := -1, text := some "", refs := none, premise := prem,
            subproof := sub, depth := d, indices := ind },
    value_type := 0, selected := 0, font_resizing := 0, references := refs, reference := 0,
    bg_color := BG_COLOR.DEFAULT }

/-- The four-line example: line 1 a premise of depth 0, line 2 a subproof opener
of depth 1, line 3 of depth 1 inside that subproof, line 4 of depth 0, which
closes the subproof and cites line 2. The index paths are those that
`sentence_init` assigns. -/
def ex4_sp : sen_parent :=
  { type := SEN_PARENT_TYPE.PROOF,
    everything := [ex4_line 1 0 [-1] true false [], ex4_line 2 1 [2, -1] false true [],
                   ex4_line 3 1 [2, -1] false false [], ex4_line 4 0 [-1] false false [2]],
    focused := none, undo := 0 }

/-- The loop `for (i = 0; i < SEN_DEPTH (ref); i++)` of `sentence_check_entire`,
with `k` iterations left and the counter at `i`: the value of `i` when the loop
is left, at the first slot where the two index paths differ. -/
def check_entire_loop (sen ref : sentence) : Nat → Nat → Option Nat
  | 0, i => some i
  | k + 1, i =>
    match SEN_IND ref i, SEN_IND sen i with
    | some a, some b => if a ≠ b then some i else check_entire_loop sen ref k (i + 1)
    | _, _ => none

/-- Checks if only the subproof premise or the entire subproof should be
selected: 0 if only the premise should be selected, 1 otherwise. -/
def sentence_check_entire (sen ref : sentence) : Option Int :=
  if !SEN_SUB ref then some 0
  else if SEN_DEPTH ref > SEN_DEPTH sen then some 1
  else
    match check_entire_loop sen ref (SEN_DEPTH ref) 0 with
    | none => none
    | some i =>
      match SEN_IND ref i with
      | none => none
      | some v => some (if v = -1 then 0 else 1)

/-- Modelled from the spec: `ls_find` of list.c (not among the sources) on
`everything`: the position of the first item that holds the sentence with
address `p`, NULL when there is none. -/
def ls_find (everything : List sentence) (p : Nat) : Option Nat :=
  everything.findIdx? (fun s => s.id == p)

/-- The loop of `sentence_in` over the references of the sentence at position
`pos`: each cited sentence gets the reference state, for the entire subproof
when `sentence_check_entire` says so. -/
def sentence_in_refs (pos : Nat) : List Nat → List sentence → Option (List sentence)
  | [], ev => some ev
  | p :: rest, ev =>
    match ev[pos]?, ls_find ev p with
    | some sen, some rp =>
      match ev[rp]? with
      | none => none
      | some ref =>
        match sentence_check_entire sen ref with
        | none => none
        | some entire =>
          match sentence_set_reference ev rp 1 entire with
          | none => none
          | some ev1 => sentence_in_refs pos rest ev1
    | _, _ => none

/-- Selects the references and rule of the sentence at position `pos` when it is
selected. The toggling of the rule buttons is presentation and is left out. -/
def sentence_in (sp : sen_parent) (pos : Nat) : Option (Int × sen_parent) :=
  match sp.everything[pos]? with
  | none => none
  | some sen =>
    let ev := sp.everything.set pos (sentence_set_bg sen BG_COLOR.CONC)
    if !SEN_PREM sen then
      (sentence_in_refs pos sen.references ev).map
        (fun ev1 => (0, { sp with focused := some pos, everything := ev1 }))
    else some (0, { sp with focused := some pos, everything := ev })

/-- A well-formed index path: `depth + 1` slots, the sentinel `-1` at slot
`depth`, and line numbers (at least 1) before it. -/
def wf_path (s : sentence) : Prop :=
  s.sd.indices.length = s.sd.depth + 1 ∧ s.sd.indices[s.sd.depth]? = some (-1) ∧
    ∀ v ∈ s.sd.indices.take s.sd.depth, (1 : Int) ≤ v

/-- Well-formedness of an index path can be checked. -/
instance wf_path_decidable (s : sentence) : Decidable (wf_path s) := by
  unfold wf_path
  infer_instance

/-- A long proof: the conclusion at line 40000 and the conclusion at line 40001,
which cites nothing yet. -/
def c15_sp : sen_parent :=
  { type := SEN_PARENT_TYPE.PROOF,
    everything := [{ c7_line2 with id := 1, sd := { c7_line2.sd with line_num := 40000 } },
                   { c7_line2 with id := 2, sd := { c7_line2.sd with line_num := 40001 } }],
    focused := some 1, undo := 0 }

/-- The entries of a persisted reference array: what stands before the first
`-1`. -/
def persisted_entries (refs : List Int) : List Int := refs.takeWhile (fun c => c ≠ -1)

/-- The sentence that one iteration of `sentence_update_refs` attaches for the
persisted line number `c`: none when `c` is greater than the line `ln` of the
citing sentence, otherwise the first live sentence with line number `c`. -/
def attached_for (ln : Int) (everything : List sentence) (c : Int) : Option Nat :=
  if c > ln then none
  else (everything.find? (fun r => sentence_get_line_no r == c)).map (fun r => r.id)

/-- Line 2 with the persisted reference list `[2, -1]`: it names its own line. -/
def c17_sd : sen_data := { c7_line2.sd with refs := some [2, -1] }

/-- The sentence attached for the persisted line number `c` when it is smaller
than the line `ln` of the citing sentence: the first live sentence with line
number `c`. -/
def attached_below (ln : Int) (everything : List sentence) (c : Int) : Option Nat :=
  if c < ln then (everything.find? (fun r => r.sd.line_num == c)).map (fun r => r.id)
  else none

/-- Modelled from the spec: `sen_data_copy` of sen-data.c (not among the
sources): a deep copy of the record, field by field. -/
def sen_data_copy (sd : sen_data) : sen_data := sd

/-- Copies the elements of a sentence into a `sen_data` structure. -/
def sentence_copy_to_data (sen : sentence) : sen_data := sen_data_copy sen.sd

/-- Initialize an undo information object: the snapshots of `sens` are pushed
in order onto the list of the batch, which gets the kind `type`. -/
def undo_info_init (sens : List sen_data) (type : Int) : undo_info :=
  { type := type, ls := sens }

/-- Initialize an undo information object from a single sentence: a copy of the
sentence data that carries a copy of the stored text (`strdup` of a NULL text
is `none`). -/
def undo_info_init_one (sen : sentence) (type : Int) : Option undo_info :=
  match sentence_get_text sen with
  | none => none
  | some text =>
    let sd := sentence_copy_to_data sen
    some (undo_info_init [{ sd with text := some text }] type)

/-- Modelled from the spec: the record `aris_proof` of aris-proof.h (not among
the sources): the proof container (its `sen_parent` part), the goal container
and the list of selected sentences (NULL is `none`). -/
structure aris_proof where
  sp : sen_parent
  goal : sen_parent
  selected : Option (List Nat)
deriving DecidableEq, Repr

/-- Gets the text of the text view of a sentence: the characters of the buffer
`buffer` (connectives as their codes) up to the first semicolon, where a
comment starts. -/
def sentence_copy_text (buffer : String) : String :=
  String.mk (buffer.toList.takeWhile (fun c => c ≠ ';'))

/-- The loop of `sentence_text_changed` over `everything`: every sentence whose
references hold the sentence with address `p` gets the blank value. -/
def blank_citing (p : Nat) (everything : List sentence) : List sentence :=
  everything.map
    (fun e => if p ∈ e.references then sentence_set_value e VALUE_TYPE_BLANK else e)

/-- The loop of `sentence_text_changed` over the goal lines: the first goal whose
line number is `ln` loses its line number and gets the blank value. -/
def blank_goal_line (goal : sen_parent) (ln : Int) : List sentence → Option (List sentence)
  | [] => some []
  | g :: rest =>
    if sentence_get_line_no g = ln then
      match sentence_update_line_no goal g (-1) with
      | none => none
      | some r => some (sentence_set_value r.2 VALUE_TYPE_BLANK :: rest)
    else (blank_goal_line goal ln rest).map (fun l => g :: l)

/-- Processes a text change in the sentence at position `pos` of the proof
container (`in_goal` false) or of the goal container (`in_goal` true) of `ap`;
`buffer` is the content of the text view. The batch built by
`undo_info_init_one` is handed to `aris_proof_set_changed` of aris-proof.c (not
among the sources); the model returns it as the third component (`none` when
the call returns before a batch is built). -/
def sentence_text_changed (ap : aris_proof) (in_goal : Bool) (pos : Nat) (buffer : String) :
    Option (Int × aris_proof × Option undo_info) :=
  let sp := if in_goal then ap.goal else ap.sp
  match sp.everything[pos]? with
  | none => none
  | some sen =>
    if sen.font_resizing ≠ 0 ∨ sp.undo ≠ 0 then some (0, ap, none)
    else
      let ln := sentence_get_line_no sen
      let ev1 := blank_citing sen.id
        (sp.everything.set pos (sentence_set_value sen VALUE_TYPE_BLANK))
      let text := sentence_copy_text buffer
      match ev1[pos]? with
      | none => none
      | some sen1 =>
        match undo_info_init_one sen1 UIT_MOD_TEXT with
        | none => none
        | some ui =>
          if sp.type = SEN_PARENT_TYPE.PROOF then
            if in_goal then none
            else
              match blank_goal_line ap.goal ln ap.goal.everything with
              | none => none
              | some goals =>
                match sentence_set_text sen1 (some text) with
                | none => none
                | some r =>
                  some (0, { ap with
                    sp := { sp with everything := ev1.set pos r.2 },
                    goal := { ap.goal with everything := goals } }, some ui)
          else
            if !in_goal then none
            else
              let sen2 :=
                match ls_nth ap.sp.everything ln with
                | some _ => (sentence_set_line_no sen1 (-1)).2
                | none => sen1
              match sentence_set_text sen2 (some text) with
              | none => none
              | some r =>
                some (0, { ap with goal := { sp with everything := ev1.set pos r.2 } },
                  some ui)

/-- A proof with lines 1 and 2 and an empty goal container. -/
def c19_ap : aris_proof :=
  { sp := c7_sp,
    goal := { type := SEN_PARENT_TYPE.GOAL, everything := [], focused := none, undo := 0 },
    selected := some [] }

/-- The first loop of `undo_op_remove`: for each snapshot of the batch, in
order, every live sentence whose line number is the line number of the snapshot
is pushed onto the list of sentences to remove (the scan does not stop at a
match). -/
def undo_op_remove_collect (everything : List sentence) : List sen_data → List Nat
  | [] => []
  | sd :: rest =>
    (everything.filter (fun sen => sentence_get_line_no sen == sd.line_num)).map
        (fun sen => sen.id)
      ++ undo_op_remove_collect everything rest

/-- Modelled from the spec: `aris_proof_remove_sentence` of aris-proof.c (not
among the sources), the remove path of the document: the record with address
`p` is unlinked from `everything` and the records after it are renumbered by
`-1`. The removal of a sentence that is not in the document is `none`. -/
def aris_proof_remove_sentence (sp : sen_parent) (p : Nat) : Option sen_parent :=
  match ls_find sp.everything p with
  | none => none
  | some pos =>
    match renumber_records sp (-1) (sp.everything.drop (pos + 1)) with
    | none => none
    | some after => some { sp with everything := sp.everything.take pos ++ after }

/-- The second loop of `undo_op_remove`: the collected sentences are removed one
after the other. -/
def undo_op_remove_loop (sp : sen_parent) : List Nat → Option sen_parent
  | [] => some sp
  | p :: rest =>
    match aris_proof_remove_sentence sp p with
    | none => none
    | some sp1 => undo_op_remove_loop sp1 rest

/-- The operation `undo_op_remove`: removes the live sentences that carry the
line numbers of the snapshots of the batch. -/
def undo_op_remove (sp : sen_parent) (ui : undo_info) : Option (Int × sen_parent) :=
  (undo_op_remove_loop sp (undo_op_remove_collect sp.everything ui.ls)).map
    (fun r => (0, r))

/-- The index buffer of every record covers its `depth` slots. -/
def buffers_cover (l : List sentence) : Prop :=
  ∀ s ∈ l, s.sd.depth ≤ s.sd.indices.length

/-- Whether the index buffers cover the depths can be checked. -/
instance buffers_cover_decidable (l : List sentence) : Decidable (buffers_cover l) := by
  unfold buffers_cover
  infer_instance

/-- A subproof of three lines (2, 3 and 4) between line 1 and line 5. -/
def c20_sp : sen_parent :=
  { type := SEN_PARENT_TYPE.PROOF,
    everything := [ex4_line 1 0 [-1] true false [], ex4_line 2 1 [2, -1] false true [],
                   ex4_line 3 1 [2, -1] false false [], ex4_line 4 1 [2, -1] false false [],
                   ex4_line 5 0 [-1] false false []],
    focused := none, undo := 0 }

/-- An Add batch with the snapshots of lines 2 and 3. -/
def c20_ui : undo_info :=
  { type := UIT_ADD_SEN,
    ls := [(ex4_line 2 1 [2, -1] false true []).sd, (ex4_line 3 1 [2, -1] false false []).sd] }

/-- The loop of `sentence_set_selected` over the items after the sentence: it
colours each sentence and stops at the first one whose depth is smaller than
`depth`. -/
def set_selected_run (bg : BG_COLOR) (depth : Nat) : List sentence → List sentence
  | [] => []
  | sub_sen :: rest =>
    if SEN_DEPTH sub_sen < depth then sub_sen :: rest
    else sentence_set_bg sub_sen bg :: set_selected_run bg depth rest

/-- Sets the selection state of the sentence at position `pos` of `everything`
(`ls_find` returns that position for a sentence that is listed once). -/
def sentence_set_selected (everything : List sentence) (pos : Nat) (selected : Int) :
    Option (List sentence) :=
  match everything[pos]? with
  | none => none
  | some sen =>
    let bg := if selected ≠ 0 then BG_COLOR.SEL else BG_COLOR.DEFAULT
    let sen1 := sentence_set_bg sen bg
    let after :=
      if SEN_SUB sen then set_selected_run bg (SEN_DEPTH sen) (everything.drop (pos + 1))
      else everything.drop (pos + 1)
    some (everything.take pos ++ { sen1 with selected := selected } :: after)

/-- The loop of `select_sentence` that adds the entire subproof: every sentence
met is pushed onto the selected list, up to the first one whose depth is smaller
than `sen_depth`. -/
def select_run (sen_depth : Nat) : List sentence → List Nat → List Nat
  | [], selected => selected
  | ev_sen :: rest, selected =>
    if SEN_DEPTH ev_sen < sen_depth then selected
    else select_run sen_depth rest (selected ++ [ev_sen.id])

/-- The loop of `select_sentence` that removes the entire subproof: every
sentence met is taken off the selected list, up to the first one whose depth is
smaller than `depth`. -/
def deselect_run (depth : Nat) : List sentence → List Nat → List Nat
  | [], selected => selected
  | ev_sen :: rest, selected =>
    if SEN_DEPTH ev_sen < depth then selected
    else deselect_run depth rest (ls_rem_obj_value selected ev_sen.id)

/-- Selects or deselects the sentence at position `pos` of the proof container
(`in_goal` false) or of the goal container (`in_goal` true) of `ap`. The cast
`ARIS_PROOF (sp)` needs the container of the sentence to be the proof. The
select loop starts at the item after the sentence, the deselect loop at the
item of the sentence itself. -/
def select_sentence (ap : aris_proof) (in_goal : Bool) (pos : Nat) :
    Option (Int × aris_proof) :=
  let sp := if in_goal then ap.goal else ap.sp
  match sp.everything[pos]? with
  | none => none
  | some sen =>
    if sp.type = SEN_PARENT_TYPE.GOAL then some (0, ap)
    else if in_goal then none
    else
      match ap.selected with
      | none => some (0, ap)
      | some selected =>
        if sen.selected ≠ 0 then
          let sel1 := ls_rem_obj_value selected sen.id
          let sel2 :=
            if SEN_SUB sen then deselect_run (SEN_DEPTH sen) (sp.everything.drop pos) sel1
            else sel1
          match sentence_set_selected sp.everything pos 0 with
          | none => none
          | some ev =>
            some (0, { ap with sp := { sp with everything := ev }, selected := some sel2 })
        else
          let sel1 := selected ++ [sen.id]
          let sel2 :=
            if SEN_SUB sen then
              select_run (SEN_DEPTH sen) (sp.everything.drop (pos + 1)) sel1
            else sel1
          match sentence_set_selected sp.everything pos 1 with
          | none => none
          | some ev =>
            some (0, { ap with sp := { sp with everything := ev }, selected := some sel2 })

/-- The sentences after position `pos` that belong to the subproof opened there:
the longest run of sentences whose depth is at least `depth`. -/
def subproof_run (everything : List sentence) (pos depth : Nat) : List sentence :=
  (everything.drop (pos + 1)).takeWhile (fun s => decide (depth ≤ s.sd.depth))

/-- The sentences after the subproof opened at position `pos`. -/
def subproof_rest (everything : List sentence) (pos depth : Nat) : List sentence :=
  (everything.drop (pos + 1)).dropWhile (fun s => decide (depth ≤ s.sd.depth))

/-- The list `everything` with the sentence at position `pos` replaced by `head`
and the run of its subproof coloured `bg`; the sentences before and after the
subproof are as they were. -/
def paint_unit (everything : List sentence) (pos : Nat) (head : sentence) (bg : BG_COLOR)
    (depth : Nat) : List sentence :=
  everything.take pos ++ head ::
    ((subproof_run everything pos depth).map (fun s => sentence_set_bg s bg)
      ++ subproof_rest everything pos depth)

/-- The sentence at position `pos` after `sentence_set_selected`: coloured, with
its selection flag set to `selected`. -/
def mark_selected (sen : sentence) (selected : Int) : sentence :=
  { sentence_set_bg sen (if selected ≠ 0 then BG_COLOR.SEL else BG_COLOR.DEFAULT) with
    selected := selected }

/-- The four-line example as a proof with nothing selected and an empty goal
container. -/
def c21_ap : aris_proof :=
  { sp := ex4_sp,
    goal := { type := SEN_PARENT_TYPE.GOAL, everything := [], focused := none, undo := 0 },
    selected := some [] }

/-- An interior line of a subproof: line 5, depth 1, in the subproof opened at
line 4. -/
def c22_rec : sentence := ex4_line 5 1 [4, -1] false false []

/-- A subproof opener of depth 1 to be inserted. -/
def c23_sd : sen_data :=
  { line_num := -1, rule := -1, text := none, refs := none, premise := false,
    subproof := true, depth := 1, indices := [] }

/-- The last line of a subproof of depth 1 opened at line 2: line 3, the record
that precedes the new opener. -/
def c23_prev : sentence := ex4_line 3 1 [2, -1] false false []

/-- Line 1 of the example of a text change: a premise with a verdict. -/
def c24_line1 : sentence := { c2_prev with value_type := 1 }

/-- A proof with three lines that all carry a verdict; line 2 cites line 1,
line 3 cites nothing. The goal container is empty. -/
def c24_ap : aris_proof :=
  { sp := { type := SEN_PARENT_TYPE.PROOF,
            everything := [c24_line1, { c12_line2 with value_type := 1 },
              { c7_line2 with id := 3, value_type := 1,
                              sd := { c7_line2.sd with line_num := 3 } }],
            focused := some 0, undo := 0 },
    goal := { type := SEN_PARENT_TYPE.GOAL, everything := [], focused := none, undo := 0 },
    selected := some [] }

/-! ## Theorems -/

theorem getElem?_append_length (pre suf : List Int) (v : Int) :
    (pre ++ v :: suf)[pre.length]? = some v := by
  rw [List.getElem?_append_right (Nat.le_refl _)]
  simp

theorem sentence_set_index_append (sen : sentence) (pre suf : List Int) (v x : Int) :
    sentence_set_index (set_indices sen (pre ++ v :: suf)) pre.length x
      = some (set_indices sen (pre ++ x :: suf)) := by
  simp [sentence_set_index, set_indices]

theorem SEN_IND_append (sen : sentence) (pre suf : List Int) (v : Int) :
    SEN_IND (set_indices sen (pre ++ v :: suf)) pre.length = some v := by
  simp only [SEN_IND, set_indices]
  exact getElem?_append_length pre suf v

theorem update_indices_append (old line_mod : Int) (k : Nat) :
    ∀ (sen : sentence) (pre suf : List Int), k ≤ suf.length →
      update_indices old line_mod k pre.length (set_indices sen (pre ++ suf))
        = some (set_indices sen (pre ++ shift_first old line_mod k suf)) := by
  induction k with
  | zero => intro sen pre suf _; simp [update_indices, shift_first]
  | succ k ih =>
    intro sen pre suf h
    cases suf with
    | nil => simp at h
    | cons v suf =>
      have hk : k ≤ suf.length := by simpa using h
      have h1 := ih sen (pre ++ [v + line_mod]) suf hk
      have h2 := ih sen (pre ++ [v]) suf hk
      simp only [List.length_append, List.length_singleton, List.append_assoc,
        List.singleton_append] at h1 h2
      unfold update_indices
      rw [SEN_IND_append]
      by_cases hv : v ≥ old
      · simp only [hv, if_true, sentence_set_index_append, h1, shift_first, shift_slot]
      · simp only [hv, if_false, h2, shift_first, shift_slot]

theorem copy_indices_append (fcs_sen : sentence) (k : Nat) :
    ∀ (sen : sentence) (pre suf : List Int), k ≤ suf.length →
      pre.length + k ≤ fcs_sen.sd.indices.length →
      copy_indices fcs_sen k pre.length (set_indices sen (pre ++ suf))
        = some (set_indices sen
            (pre ++ (fcs_sen.sd.indices.drop pre.length).take k ++ suf.drop k)) := by
  induction k with
  | zero => intro sen pre suf _ _; simp [copy_indices]
  | succ k ih =>
    intro sen pre suf h hf
    cases suf with
    | nil => simp at h
    | cons v suf =>
      have hk : k ≤ suf.length := by simpa using h
      have hlt : pre.length < fcs_sen.sd.indices.length := by omega
      have h1 := ih sen (pre ++ [fcs_sen.sd.indices[pre.length]]) suf hk
        (by simp; omega)
      simp only [List.length_append, List.length_singleton, List.append_assoc,
        List.singleton_append] at h1
      unfold copy_indices
      have hr : SEN_IND fcs_sen pre.length = some fcs_sen.sd.indices[pre.length] := by
        simp [SEN_IND, hlt]
      rw [hr]
      simp only [sentence_set_index_append, h1]
      rw [List.drop_eq_getElem_cons hlt]
      simp only [List.take_succ_cons, List.cons_append, List.append_assoc, List.drop_succ_cons]

/-- The copy loop started at slot 0 on a fresh buffer of `n` zero slots. -/
theorem copy_indices_fresh (fcs_sen sen : sentence) (k n : Nat) (hk : k ≤ n)
    (hf : k ≤ fcs_sen.sd.indices.length) :
    copy_indices fcs_sen k 0 (set_indices sen (List.replicate n 0))
      = some (set_indices sen (fcs_sen.sd.indices.take k ++ List.replicate (n - k) 0)) := by
  have h := copy_indices_append fcs_sen k sen [] (List.replicate n 0) (by simpa using hk)
    (by simpa using hf)
  simpa using h

theorem update_refs_loop_terminated (ln : Int) (everything : List sentence) :
    ∀ (refs : List Int) (acc : List Nat), (-1 : Int) ∈ refs →
      ∃ l, update_refs_loop ln everything refs acc = some l := by
  intro refs
  induction refs with
  | nil => intro acc h; simp at h
  | cons c rest ih =>
    intro acc h
    unfold update_refs_loop
    by_cases hc : c = -1
    · exact ⟨acc, by simp [hc]⟩
    · have hr : (-1 : Int) ∈ rest := by
        rcases List.mem_cons.mp h with h1 | h1
        · exact absurd h1.symm hc
        · exact h1
      simp only [hc, if_false]
      by_cases hg : c > ln
      · simp only [hg, if_true]; exact ih acc hr
      · simp only [hg, if_false]
        cases everything.find? (fun r => sentence_get_line_no r == c) with
        | none => exact ih acc hr
        | some r => exact ih _ hr

theorem sentence_init_data_some (sd : sen_data) (sp : sen_parent) (sen : sentence)
    (hrefs : refs_terminated sen.sd.refs = true) :
    ∃ sen1, sentence_init_data sd sp sen = some sen1 ∧ sen1.sd.indices = sen.sd.indices
      ∧ sen1.sd.depth = sen.sd.depth ∧ sen1.id = sen.id
      ∧ sen1.sd.line_num = sen.sd.line_num := by
  simp only [sentence_init_data, sentence_update_refs, sentence_set_rule,
    sentence_get_line_no, sentence_set_bg, sentence_set_font]
  cases hr : sen.sd.refs with
  | none => cases ht : sd.text <;> simp [hr]
  | some refs =>
    have hmem : (-1 : Int) ∈ refs := by
      simpa [refs_terminated, hr] using hrefs
    obtain ⟨l2, hl2⟩ := update_refs_loop_terminated sen.sd.line_num sp.everything refs [] hmem
    cases ht : sd.text <;> simp [hr, hl2]

/-- The tail of `sentence_init` after the index block: it succeeds when the
persisted references are terminated, and keeps the index buffer. -/
theorem sentence_init_of_indices (sd : sen_data) (sp : sen_parent) (fcs : Option sentence)
    (addr : Nat) (l : List Int) (hrefs : refs_terminated sd.refs = true)
    (h : sentence_init_indices sd fcs (init_ln sp fcs) (init_blank sd addr)
      = some (set_indices (init_blank sd addr) l)) :
    ∃ sen, sentence_init sd sp fcs addr = some sen ∧ sen.sd.indices = l
      ∧ sen.sd.depth = sd.depth ∧ sen.id = addr
      ∧ sen.sd.line_num = (if init_ln sp fcs < 1 then -1 else init_ln sp fcs) := by
  have hinit : sentence_init sd sp fcs addr =
      (match sentence_init_indices sd fcs (init_ln sp fcs) (init_blank sd addr) with
        | none => none
        | some sen1 =>
          match sentence_update_line_no sp sen1 (init_ln sp fcs) with
          | none => none
          | some r => if r.1 = -1 then none else sentence_init_data sd sp r.2) := rfl
  have hupd : sentence_update_line_no sp (set_indices (init_blank sd addr) l) (init_ln sp fcs)
      = some (0, { set_indices (init_blank sd addr) l with
          sd := { (set_indices (init_blank sd addr) l).sd with
            line_num := if init_ln sp fcs < 1 then -1 else init_ln sp fcs } }) := by
    simp only [sentence_update_line_no, sentence_set_line_no, sentence_get_line_no,
      set_indices, init_blank]
    by_cases hl : init_ln sp fcs < 1 <;> simp [hl]
  rw [hinit]
  simp only [h, hupd]
  obtain ⟨s1, hs1, hi, hd, hid, hln⟩ := sentence_init_data_some sd sp
    { set_indices (init_blank sd addr) l with
          sd := { (set_indices (init_blank sd addr) l).sd with
            line_num := if init_ln sp fcs < 1 then -1 else init_ln sp fcs } }
    (by simpa [set_indices, init_blank] using hrefs)
  refine ⟨s1, ?_, ?_, ?_, ?_, ?_⟩
  · simpa using hs1
  · simpa [set_indices] using hi
  · simpa [set_indices, init_blank] using hd
  · simpa [set_indices, init_blank] using hid
  · simpa using hln

theorem sentence_set_index_at (sen : sentence) (pre suf : List Int) (v x : Int) (i : Nat)
    (hi : pre.length = i) :
    sentence_set_index (set_indices sen (pre ++ v :: suf)) i x
      = some (set_indices sen (pre ++ x :: suf)) := by
  subst hi
  exact sentence_set_index_append sen pre suf v x

theorem sentence_init_indices_premise (sd : sen_data) (fcs : Option sentence) (ln : Int)
    (addr : Nat) (hprem : sd.premise = true) :
    sentence_init_indices sd fcs ln (init_blank sd addr)
      = some (set_indices (init_blank sd addr) (-1 :: List.replicate sd.depth 0)) := by
  simp [sentence_init_indices, SEN_PREM, init_blank, hprem, sentence_set_index, set_indices,
    List.replicate_succ]

theorem sentence_init_indices_nonpremise (sd : sen_data) (f : sentence) (ln : Int)
    (addr : Nat) (hprem : sd.premise = false)
    (hread : index_copy_end sd f ≤ f.sd.indices.length)
    (hfit : sentinel_slot sd f ≤ sd.depth) :
    sentence_init_indices sd (some f) ln (init_blank sd addr)
      = some (set_indices (init_blank sd addr)
          (f.sd.indices.take (index_copy_end sd f)
            ++ (if sd.subproof then [ln, -1] else [-1])
            ++ List.replicate (sd.depth - sentinel_slot sd f) 0)) := by
  have hm : index_copy_end sd f ≤ sd.depth := by
    unfold index_copy_end; split <;> omega
  have hlen : (f.sd.indices.take (index_copy_end sd f)).length = index_copy_end sd f := by
    simp [List.length_take, hread]
  have hcopy := copy_indices_fresh f (init_blank sd addr) (index_copy_end sd f) (sd.depth + 1)
    (by omega) hread
  have hunf : sentence_init_indices sd (some f) ln (init_blank sd addr)
      = (match copy_indices f (index_copy_end sd f) 0
            (set_indices (init_blank sd addr) (List.replicate (sd.depth + 1) 0)) with
        | none => none
        | some sen1 =>
          if sd.subproof then
            match sentence_set_index sen1 (index_copy_end sd f) ln with
            | none => none
            | some sen2 => sentence_set_index sen2 (index_copy_end sd f + 1) (-1)
          else sentence_set_index sen1 (index_copy_end sd f) (-1)) := by
    simp [sentence_init_indices, SEN_PREM, init_blank, hprem, set_indices, index_copy_end]
  rw [hunf, hcopy]
  simp only []
  cases hsub : sd.subproof with
  | false =>
    have hs : sentinel_slot sd f = index_copy_end sd f := by simp [sentinel_slot, hsub]
    have hrep : List.replicate (sd.depth + 1 - index_copy_end sd f) (0 : Int)
        = 0 :: List.replicate (sd.depth - index_copy_end sd f) 0 := by
      rw [← List.replicate_succ]; congr 1; omega
    rw [hrep, hs]
    simp only [Bool.false_eq_true, if_false]
    rw [sentence_set_index_at _ _ _ _ _ _ hlen]
    simp
  | true =>
    have hs : sentinel_slot sd f = index_copy_end sd f + 1 := by simp [sentinel_slot, hsub]
    have hlt : index_copy_end sd f + 1 ≤ sd.depth := by rw [← hs]; exact hfit
    have hrep : List.replicate (sd.depth + 1 - index_copy_end sd f) (0 : Int)
        = 0 :: 0 :: List.replicate (sd.depth - (index_copy_end sd f + 1)) 0 := by
      rw [← List.replicate_succ, ← List.replicate_succ]; congr 1; omega
    rw [hrep, hs]
    simp only [if_true]
    rw [sentence_set_index_at _ _ _ _ _ _ hlen]
    simp only []
    have h2 := sentence_set_index_at (init_blank sd addr)
      (f.sd.indices.take (index_copy_end sd f) ++ [ln])
      (List.replicate (sd.depth - (index_copy_end sd f + 1)) 0) 0 (-1)
      (index_copy_end sd f + 1) (by simp [hlen])
    simp only [List.append_assoc, List.singleton_append] at h2
    rw [h2]
    simp

theorem index_copy_end_eq_min (sd : sen_data) (p : sentence) :
    index_copy_end sd p = min sd.depth p.sd.depth := by
  unfold index_copy_end SEN_DEPTH
  split <;> omega

/-- Slot `d` of a buffer padded with zeros is `-1` only when there is no padding. -/
theorem getElem?_append_replicate_zero (l : List Int) (n d : Nat) (h : l.length + n = d + 1) :
    (l ++ List.replicate n (0 : Int))[d]? = some (-1) ↔ (n = 0 ∧ l[d]? = some (-1)) := by
  by_cases hn : n = 0
  · subst hn; simp
  · have hd : l.length ≤ d := by omega
    rw [List.getElem?_append_right hd]
    have : d - l.length < n := by omega
    simp [List.getElem?_replicate, this, hn]

/-- C1. In a proof container, `sentence_init` on a non-premise record after a
preceding record `p` (whose buffer covers the copied slots, and with the sentinel
slot inside the new buffer) returns a record whose index path is the first
`min (depth, p.depth)` slots of `p`, then, exactly when the record opens a
subproof, one slot holding its own line number `p.line_num + 1`, then the
sentinel `-1`; the remaining slots of the buffer keep the zero of `calloc`.
For a premise the path is the sentinel at slot 0. -/
theorem sentence_init_index_path (sd : sen_data) (sp : sen_parent) (addr : Nat)
    (hrefs : refs_terminated sd.refs = true) (hproof : sp.type = SEN_PARENT_TYPE.PROOF) :
    (∀ p : sentence, sd.premise = false →
        min sd.depth p.sd.depth ≤ p.sd.indices.length →
        min sd.depth p.sd.depth + (if sd.subproof then 1 else 0) ≤ sd.depth →
        ∃ sen, sentence_init sd sp (some p) addr = some sen ∧
          sen.sd.indices = p.sd.indices.take (min sd.depth p.sd.depth)
            ++ (if sd.subproof then [p.sd.line_num + 1, -1] else [-1])
            ++ List.replicate
                (sd.depth - (min sd.depth p.sd.depth + (if sd.subproof then 1 else 0))) 0 ∧
          sen.sd.line_num = (if p.sd.line_num + 1 < 1 then -1 else p.sd.line_num + 1)) ∧
    (∀ fcs : Option sentence, sd.premise = true →
        ∃ sen, sentence_init sd sp fcs addr = some sen ∧
          sen.sd.indices = -1 :: List.replicate sd.depth 0) := by
  constructor
  · intro p hprem hread hfit
    have hln : init_ln sp (some p) = p.sd.line_num + 1 := by
      simp [init_ln, hproof, sentence_get_line_no]
    have hi := sentence_init_indices_nonpremise sd p (init_ln sp (some p)) addr hprem
      (by rw [index_copy_end_eq_min]; exact hread)
      (by unfold sentinel_slot; rw [index_copy_end_eq_min]; exact hfit)
    obtain ⟨sen, hs, hidx, _, _, hline⟩ :=
      sentence_init_of_indices sd sp (some p) addr _ hrefs hi
    refine ⟨sen, hs, ?_, ?_⟩
    · rw [hidx, hln]; unfold sentinel_slot; rw [index_copy_end_eq_min]
    · rw [hline, hln]
  · intro fcs hprem
    have hi := sentence_init_indices_premise sd fcs (init_ln sp fcs) addr hprem
    obtain ⟨sen, hs, hidx, _, _, _⟩ := sentence_init_of_indices sd sp fcs addr _ hrefs hi
    exact ⟨sen, hs, hidx⟩

/-- C1 at a subproof opener of depth 1 inserted after the premise at line 1. -/
theorem sentence_init_index_path_witness :
    ∃ sen, sentence_init { c2_sd with subproof := true, depth := 1 } c2_sp (some c2_prev) 7
        = some sen ∧
      sen.sd.indices = [2, -1] ∧ sen.sd.line_num = 2 := by
  obtain ⟨sen, h1, h2, h3⟩ := (sentence_init_index_path { c2_sd with subproof := true, depth := 1 }
    c2_sp 7 (by decide) (by decide)).1 c2_prev (by decide) (by decide) (by decide)
  exact ⟨sen, h1, by simpa [c2_sd, c2_prev] using h2, by simpa [c2_sd, c2_prev] using h3⟩

/-- C2 fails as stated: a non-opener of depth 2 placed after a record of depth 0
gets the sentinel at slot 0, and slot `depth` keeps the zero of `calloc`. -/
theorem sentence_init_sentinel_counterexample :
    ∃ sen, sentence_init c2_sd c2_sp (some c2_prev) 7 = some sen ∧
      sen.sd.indices = [-1, 0, 0] ∧ sen.sd.depth = 2 ∧
      sen.sd.indices[sen.sd.depth]? ≠ some (-1) := by
  refine ⟨_, rfl, ?_, ?_, ?_⟩ <;> decide

/-- C2, amended. Every record returned by `sentence_init` has `depth + 1` index
slots, and slot `depth` holds the sentinel `-1` exactly when the sentinel slot
`min (depth, p.depth) + (1 if opener)` equals `depth` (for a premise: exactly
when `depth = 0`). -/
theorem sentence_init_sentinel_at_depth (sd : sen_data) (sp : sen_parent) (addr : Nat)
    (hrefs : refs_terminated sd.refs = true) :
    (∀ p : sentence, sd.premise = false →
        min sd.depth p.sd.depth ≤ p.sd.indices.length →
        min sd.depth p.sd.depth + (if sd.subproof then 1 else 0) ≤ sd.depth →
        ∃ sen, sentence_init sd sp (some p) addr = some sen ∧
          sen.sd.depth = sd.depth ∧
          sen.sd.indices.length = sd.depth + 1 ∧
          (sen.sd.indices[sd.depth]? = some (-1) ↔
            min sd.depth p.sd.depth + (if sd.subproof then 1 else 0) = sd.depth)) ∧
    (∀ fcs : Option sentence, sd.premise = true →
        ∃ sen, sentence_init sd sp fcs addr = some sen ∧
          sen.sd.depth = sd.depth ∧
          sen.sd.indices.length = sd.depth + 1 ∧
          (sen.sd.indices[sd.depth]? = some (-1) ↔ sd.depth = 0)) := by
  constructor
  · intro p hprem hread hfit
    have hi := sentence_init_indices_nonpremise sd p (init_ln sp (some p)) addr hprem
      (by rw [index_copy_end_eq_min]; exact hread)
      (by unfold sentinel_slot; rw [index_copy_end_eq_min]; exact hfit)
    obtain ⟨sen, hs, hidx, hdep, _, _⟩ :=
      sentence_init_of_indices sd sp (some p) addr _ hrefs hi
    have hss : sentinel_slot sd p = min sd.depth p.sd.depth + (if sd.subproof then 1 else 0) := by
      unfold sentinel_slot; rw [index_copy_end_eq_min]
    rw [index_copy_end_eq_min, hss] at hidx
    have hlen : (List.take (min sd.depth p.sd.depth) p.sd.indices
        ++ (if sd.subproof then [init_ln sp (some p), -1] else [-1])).length
          = min sd.depth p.sd.depth + (if sd.subproof then 1 else 0) + 1 := by
      rw [List.length_append, List.length_take, Nat.min_eq_left hread]
      split <;> simp
    refine ⟨sen, hs, hdep, ?_, ?_⟩
    · rw [hidx, List.length_append, hlen, List.length_replicate]; omega
    · rw [hidx, getElem?_append_replicate_zero _ _ _ (by rw [hlen]; omega)]
      constructor
      · rintro ⟨h0, _⟩; omega
      · intro he
        refine ⟨by omega, ?_⟩
        have hd : sd.depth = (List.take (min sd.depth p.sd.depth) p.sd.indices).length
            + (if sd.subproof then 1 else 0) := by
          rw [List.length_take, Nat.min_eq_left hread]; exact he.symm
        rw [List.getElem?_append_right (by omega)]
        cases hsub : sd.subproof with
        | false =>
          rw [hsub] at hd
          simp only [Bool.false_eq_true, if_false] at hd ⊢
          have : sd.depth - (List.take (min sd.depth p.sd.depth) p.sd.indices).length = 0 := by
            omega
          rw [this]
          rfl
        | true =>
          rw [hsub] at hd
          simp only [if_true] at hd ⊢
          have : sd.depth - (List.take (min sd.depth p.sd.depth) p.sd.indices).length = 1 := by
            omega
          rw [this]
          rfl
  · intro fcs hprem
    have hi := sentence_init_indices_premise sd fcs (init_ln sp fcs) addr hprem
    obtain ⟨sen, hs, hidx, hdep, _, _⟩ := sentence_init_of_indices sd sp fcs addr _ hrefs hi
    refine ⟨sen, hs, hdep, by simp [hidx], ?_⟩
    rw [hidx]
    cases hd : sd.depth with
    | zero => simp
    | succ n => simp [List.getElem?_replicate]

/-- C2, amended, at a conclusion line of depth 0 after the premise at line 1. -/
theorem sentence_init_sentinel_at_depth_witness :
    ∃ sen, sentence_init { c2_sd with depth := 0 } c2_sp (some c2_prev) 7 = some sen ∧
      sen.sd.indices.length = 1 ∧ sen.sd.indices[0]? = some (-1) := by
  obtain ⟨sen, h1, _, h3, h4⟩ := (sentence_init_sentinel_at_depth { c2_sd with depth := 0 }
    c2_sp 7 (by decide)).1 c2_prev (by decide) (by decide) (by decide)
  exact ⟨sen, h1, h3, h4.mpr (by decide)⟩

theorem shift_first_length (old line_mod : Int) (k : Nat) :
    ∀ l : List Int, (shift_first old line_mod k l).length = l.length := by
  induction k with
  | zero => intro l; rfl
  | succ k ih =>
    intro l
    cases l with
    | nil => rfl
    | cons v l => simp [shift_first, ih]

theorem shift_first_zero (old : Int) (k : Nat) :
    ∀ l : List Int, shift_first old 0 k l = l := by
  induction k with
  | zero => intro l; rfl
  | succ k ih =>
    intro l
    cases l with
    | nil => rfl
    | cons v l => simp [shift_first, shift_slot, ih]

theorem shift_first_up_down (n d : Int) (hd : 0 < d) (k : Nat) :
    ∀ l : List Int,
      shift_first (n + d) (n - (n + d)) k (shift_first n (n + d - n) k l) = l := by
  induction k with
  | zero => intro l; rfl
  | succ k ih =>
    intro l
    cases l with
    | nil => rfl
    | cons v l =>
      simp only [shift_first, ih, List.cons.injEq, and_true]
      unfold shift_slot
      by_cases hv : v ≥ n
      · rw [if_pos hv, if_pos (by omega)]; omega
      · rw [if_neg hv, if_neg (by omega)]

/-- The renumbering of a record of a proof container whose line number is not
the 0 of a record under construction: the line number is set and the first
`depth` slots are shifted. -/
theorem sentence_update_line_no_proof (sp : sen_parent) (sen : sentence) (new : Int)
    (hproof : sp.type = SEN_PARENT_TYPE.PROOF) (hold : sen.sd.line_num ≠ 0)
    (hlen : sen.sd.depth ≤ sen.sd.indices.length) :
    sentence_update_line_no sp sen new
      = some (0, set_indices (sentence_set_line_no sen new).2
          (shift_first sen.sd.line_num (new - sen.sd.line_num) sen.sd.depth
            sen.sd.indices)) := by
  have hrc : (sentence_set_line_no sen new).1 ≠ -1 := by
    unfold sentence_set_line_no
    simp only []
    split
    · split <;> simp
    · simp
  have hdep : SEN_DEPTH (sentence_set_line_no sen new).2 = sen.sd.depth := by
    unfold sentence_set_line_no SEN_DEPTH
    simp only []
    split
    · split <;> rfl
    · rfl
  have hind : (sentence_set_line_no sen new).2
      = set_indices (sentence_set_line_no sen new).2 ([] ++ sen.sd.indices) := by
    unfold sentence_set_line_no set_indices
    simp only []
    split
    · split <;> rfl
    · rfl
  have hloop := update_indices_append sen.sd.line_num (new - sen.sd.line_num) sen.sd.depth
    (sentence_set_line_no sen new).2 [] sen.sd.indices hlen
  rw [← hind] at hloop
  simp only [List.length_nil, List.nil_append] at hloop
  unfold sentence_update_line_no
  simp only [hrc, if_false, hold, hproof, hdep, hloop, Option.map_some']
  simp

/-- C3, the code at the failing input. A line is inserted before line 2 of a
proof (boundary 2, delta 1); the record at line 5, inside the subproof opened at
line 3, is renumbered by `sentence_update_line_no (rec, 5 + 1)`. Its line number
becomes 6, but its index slot 3, which is at least the boundary, stays 3: the
loop compares each slot with the old line number 5 of the record, not with the
boundary. -/
theorem sentence_update_line_no_keeps_enclosing_slot :
    sentence_update_line_no c2_sp c3_rec (5 + 1)
        = some (0, { c3_rec with sd := { c3_rec.sd with line_num := 6, indices := [3, -1] } }) ∧
      c3_rec.sd.indices = [3, -1] ∧ (2 : Int) ≤ 3 ∧ 2 ≤ c3_rec.sd.line_num := by
  decide

/-- C4. Renumber idempotence: for a record whose line number is unassigned
(`-1`) or assigned (at least 1) and whose buffer covers its `depth` slots,
`sentence_update_line_no (rec, rec.line_num)` succeeds and leaves the record, so
its line number and every index slot, unchanged. -/
theorem sentence_update_line_no_same (sp : sen_parent) (sen : sentence)
    (hline : sen.sd.line_num = -1 ∨ 1 ≤ sen.sd.line_num)
    (hlen : sen.sd.depth ≤ sen.sd.indices.length) :
    sentence_update_line_no sp sen sen.sd.line_num = some (0, sen) := by
  have hset : (sentence_set_line_no sen sen.sd.line_num).2 = sen := by
    unfold sentence_set_line_no sentence_get_line_no
    simp only []
    rcases hline with h | h
    · rw [if_pos (by omega), if_pos h]
    · rw [if_neg (by omega)]
  have hrc : (sentence_set_line_no sen sen.sd.line_num).1 ≠ -1 := by
    unfold sentence_set_line_no
    simp only []
    split
    · split <;> simp
    · simp
  have hold : sen.sd.line_num ≠ 0 := by omega
  cases ht : sp.type with
  | GOAL =>
    unfold sentence_update_line_no
    simp only [hrc, if_false, hold, ht, hset, if_true]
  | PROOF =>
    rw [sentence_update_line_no_proof sp sen _ ht hold hlen, hset, Int.sub_self,
      shift_first_zero]
    rfl

/-- C4 at the record of line 5 inside the subproof opened at line 3. -/
theorem sentence_update_line_no_same_witness :
    sentence_update_line_no c2_sp c3_rec 5 = some (0, c3_rec) :=
  sentence_update_line_no_same c2_sp c3_rec (by decide) (by decide)

/-- C5. Insert and delete symmetry at record level: in a proof container, a
record with line number `n ≥ 1` renumbered to `n + d` with `d > 0` (a record
inserted before it) and then back to `n` (that record deleted) ends as it
started: both calls of `sentence_update_line_no` succeed, the first gives line
number `n + d`, and the second returns the original record, line number and
every index slot included. -/
theorem sentence_update_line_no_insert_delete (sp : sen_parent) (sen : sentence) (d : Int)
    (hproof : sp.type = SEN_PARENT_TYPE.PROOF) (hn : 1 ≤ sen.sd.line_num) (hd : 0 < d)
    (hlen : sen.sd.depth ≤ sen.sd.indices.length) :
    ∃ mid, sentence_update_line_no sp sen (sen.sd.line_num + d) = some (0, mid) ∧
      mid.sd.line_num = sen.sd.line_num + d ∧
      sentence_update_line_no sp mid sen.sd.line_num = some (0, sen) := by
  have hset1 : (sentence_set_line_no sen (sen.sd.line_num + d)).2
      = { sen with sd := { sen.sd with line_num := sen.sd.line_num + d } } := by
    unfold sentence_set_line_no
    simp only []
    rw [if_neg (by omega)]
  refine ⟨_, sentence_update_line_no_proof sp sen _ hproof (by omega) hlen, ?_, ?_⟩
  · rw [hset1]; rfl
  · rw [hset1]
    rw [sentence_update_line_no_proof sp _ _ hproof
      (by simp only [set_indices]; omega)
      (by simp only [set_indices, shift_first_length]; exact hlen)]
    have hset2 : ∀ l, (sentence_set_line_no
        (set_indices { sen with sd := { sen.sd with line_num := sen.sd.line_num + d } } l)
          sen.sd.line_num).2 = set_indices sen l := by
      intro l
      unfold sentence_set_line_no
      simp only []
      rw [if_neg (by omega)]
      rfl
    rw [hset2]
    simp only [set_indices]
    rw [shift_first_up_down sen.sd.line_num d hd]

/-- C5 at the record of line 5 inside the subproof opened at line 3, with two
lines inserted before it and deleted again. -/
theorem sentence_update_line_no_insert_delete_witness :
    ∃ mid, sentence_update_line_no c2_sp c3_rec (5 + 2) = some (0, mid) ∧
      mid.sd.line_num = 5 + 2 ∧ sentence_update_line_no c2_sp mid 5 = some (0, c3_rec) :=
  sentence_update_line_no_insert_delete c2_sp c3_rec 2 (by decide) (by decide) (by decide)
    (by decide)

/-- C6. `undo_determine_op` implements the undo and redo table: a Modify batch
gets the text swap for undo and for redo; an Add batch gets the removal on undo
and the addition on redo; a Remove batch gets the addition on undo and the
removal on redo; so Add under undo is Remove under redo, and conversely. -/
theorem undo_determine_op_table (undo : Int) :
    undo_determine_op undo UIT_MOD_TEXT = some undo_op.undo_op_mod ∧
    undo_determine_op 0 UIT_ADD_SEN = some undo_op.undo_op_add ∧
    undo_determine_op 0 UIT_REM_SEN = some undo_op.undo_op_remove ∧
    (undo ≠ 0 →
      undo_determine_op undo UIT_ADD_SEN = some undo_op.undo_op_remove ∧
      undo_determine_op undo UIT_REM_SEN = some undo_op.undo_op_add ∧
      undo_determine_op undo UIT_ADD_SEN = undo_determine_op 0 UIT_REM_SEN ∧
      undo_determine_op undo UIT_REM_SEN = undo_determine_op 0 UIT_ADD_SEN) := by
  refine ⟨by simp [undo_determine_op], by decide, by decide, ?_⟩
  intro h
  simp [undo_determine_op, UIT_MOD_TEXT, UIT_ADD_SEN, UIT_REM_SEN, h]

/-- C6 at `undo = 1`. -/
theorem undo_determine_op_table_witness :
    undo_determine_op 1 UIT_ADD_SEN = some undo_op.undo_op_remove ∧
    undo_determine_op 1 UIT_REM_SEN = some undo_op.undo_op_add :=
  ⟨((undo_determine_op_table 1).2.2.2 (by decide)).1,
   ((undo_determine_op_table 1).2.2.2 (by decide)).2.1⟩

theorem undo_scan_found (ln : Int) (s : sentence) (suf : List sentence)
    (hs : s.sd.line_num ≥ ln) :
    ∀ (pre : List sentence) (pos : Nat) (init : Option Nat),
      (∀ x ∈ pre, x.sd.line_num < ln) →
      undo_scan ln (pre ++ s :: suf) pos init
        = (some (pos + pre.length), some (pos + pre.length)) := by
  intro pre
  induction pre with
  | nil =>
    intro pos init _
    simp [undo_scan, sentence_get_line_no, hs]
  | cons x pre ih =>
    intro pos init hpre
    have hx : ¬ x.sd.line_num ≥ ln := by
      have := hpre x (List.mem_cons_self _ _); omega
    have := ih (pos + 1) (some pos) (fun y hy => hpre y (List.mem_cons_of_mem _ hy))
    have e : pos + 1 + pre.length = pos + (pre.length + 1) := by omega
    rw [e] at this
    rw [List.cons_append]
    unfold undo_scan
    simp only [sentence_get_line_no, hx, if_false, List.length_cons]
    exact this

theorem undo_op_mod_one_found (sp : sen_parent) (sd : sen_data) (pre : List sentence)
    (s : sentence) (suf : List sentence) (t u : String)
    (hev : sp.everything = pre ++ s :: suf)
    (hpre : ∀ x ∈ pre, x.sd.line_num < sd.line_num) (hs : s.sd.line_num ≥ sd.line_num)
    (ht : s.sd.text = some t) (hu : sd.text = some u) :
    undo_op_mod_one sp sd
      = some ({ sp with everything := pre ++ with_text s (some u) :: suf, undo := 0 },
              snapshot_with_text sd (some t)) := by
  unfold undo_op_mod_one
  rw [hev, undo_scan_found sd.line_num s suf hs pre 0 none hpre]
  simp only [Nat.zero_add]
  have hget : (pre ++ s :: suf)[pre.length]? = some s := by
    rw [List.getElem?_append_right (Nat.le_refl _)]; simp
  rw [hget]
  simp only [sentence_get_text, ht, hu, sentence_set_text, with_text, snapshot_with_text]
  simp

theorem with_text_line (s : sentence) (t : Option String) :
    (with_text s t).sd.line_num = s.sd.line_num := rfl

theorem restore_text_cons_ne (sd : sen_data) (rest : List sen_data) (x : sentence)
    (h : sd.line_num ≠ x.sd.line_num) :
    restore_text (sd :: rest) x = restore_text rest x := by
  unfold restore_text
  rw [List.find?_cons_of_neg _ (by simpa using h)]

theorem restore_text_none (batch : List sen_data) (x : sentence)
    (h : ∀ sd ∈ batch, sd.line_num ≠ x.sd.line_num) :
    restore_text batch x = x := by
  unfold restore_text
  have : batch.find? (fun sd => sd.line_num == x.sd.line_num) = none := by
    rw [List.find?_eq_none]; intro sd hsd; simpa using h sd hsd
  rw [this]

theorem restore_text_line (batch : List sen_data) (x : sentence) :
    (restore_text batch x).sd.line_num = x.sd.line_num := by
  unfold restore_text
  split <;> rfl

theorem stash_text_line (ev : List sentence) (sd : sen_data) :
    (stash_text ev sd).line_num = sd.line_num := by
  unfold stash_text
  split <;> rfl

/-- The first sentence with a given line number in a list split around a
sentence that has another line number. -/
theorem find_line_skip (pre suf : List sentence) (x : sentence) (ln : Int)
    (h : x.sd.line_num ≠ ln) :
    (pre ++ x :: suf).find? (fun s => s.sd.line_num == ln)
      = (pre.find? (fun s => s.sd.line_num == ln)).or
          (suf.find? (fun s => s.sd.line_num == ln)) := by
  rw [List.find?_append, List.find?_cons_of_neg _ (by simpa using h)]

theorem find_line_here (pre suf : List sentence) (x : sentence) (ln : Int)
    (hpre : ∀ y ∈ pre, y.sd.line_num ≠ ln) (h : x.sd.line_num = ln) :
    (pre ++ x :: suf).find? (fun s => s.sd.line_num == ln) = some x := by
  have : pre.find? (fun s => s.sd.line_num == ln) = none := by
    rw [List.find?_eq_none]; intro y hy; simpa using hpre y hy
  rw [List.find?_append, this, List.find?_cons_of_pos _ (by simpa using h)]
  rfl

theorem undo_op_mod_loop_swap :
    ∀ (batch : List sen_data) (sp : sen_parent),
      sp.everything.Pairwise (fun a b => a.sd.line_num < b.sd.line_num) →
      (∀ s ∈ sp.everything, s.sd.text ≠ none) →
      (∀ sd ∈ batch, sd.text ≠ none) →
      (∀ sd ∈ batch, ∃ s ∈ sp.everything, s.sd.line_num = sd.line_num) →
      batch.Pairwise (fun a b => a.line_num ≠ b.line_num) →
      ∃ u, undo_op_mod_loop sp batch
        = some ({ sp with everything := sp.everything.map (restore_text batch), undo := u },
                batch.map (stash_text sp.everything)) := by
  intro batch
  induction batch with
  | nil =>
    intro sp _ _ _ _ _
    refine ⟨sp.undo, ?_⟩
    have : sp.everything.map (restore_text []) = sp.everything :=
      List.map_id'' (fun x => rfl) _
    simp [undo_op_mod_loop, this]
  | cons sd rest ih =>
    intro sp hsorted hlive hsnap hnames hnodup
    obtain ⟨s, hs_mem, hs_line⟩ := hnames sd (List.mem_cons_self _ _)
    obtain ⟨pre, suf, hev⟩ := List.append_of_mem hs_mem
    rw [hev] at hsorted
    obtain ⟨hp_pre, hp_suf, hcross⟩ := List.pairwise_append.mp hsorted
    obtain ⟨hs_suf, hp_suf⟩ := List.pairwise_cons.mp hp_suf
    have hpre : ∀ x ∈ pre, x.sd.line_num < sd.line_num := fun x hx => by
      rw [← hs_line]; exact hcross x hx s (List.mem_cons_self _ _)
    have hsuf : ∀ x ∈ suf, sd.line_num < x.sd.line_num := fun x hx => by
      rw [← hs_line]; exact hs_suf x hx
    obtain ⟨t, ht⟩ := Option.ne_none_iff_exists'.mp (hlive s hs_mem)
    obtain ⟨u, hu⟩ := Option.ne_none_iff_exists'.mp (hsnap sd (List.mem_cons_self _ _))
    obtain ⟨hhead, hnodup_rest⟩ := List.pairwise_cons.mp hnodup
    have hstep := undo_op_mod_one_found sp sd pre s suf t u hev hpre (by omega) ht hu
    -- the hypotheses for the rest of the batch on the new document
    have hsorted1 : (pre ++ with_text s (some u) :: suf).Pairwise
        (fun a b => a.sd.line_num < b.sd.line_num) := by
      rw [List.pairwise_append]
      refine ⟨hp_pre, List.pairwise_cons.mpr ⟨fun x hx => hs_suf x hx, hp_suf⟩, ?_⟩
      intro a ha b hb
      rcases List.mem_cons.mp hb with hb | hb
      · rw [hb, with_text_line]; exact hcross a ha s (List.mem_cons_self _ _)
      · exact hcross a ha b (List.mem_cons_of_mem _ hb)
    have hlive1 : ∀ x ∈ pre ++ with_text s (some u) :: suf, x.sd.text ≠ none := by
      intro x hx
      rcases List.mem_append.mp hx with hx | hx
      · exact hlive x (by rw [hev]; exact List.mem_append_left _ hx)
      · rcases List.mem_cons.mp hx with hx | hx
        · rw [hx]; simp [with_text]
        · exact hlive x (by rw [hev]; exact List.mem_append_right _ (List.mem_cons_of_mem _ hx))
    have hnames1 : ∀ sd1 ∈ rest, ∃ x ∈ pre ++ with_text s (some u) :: suf,
        x.sd.line_num = sd1.line_num := by
      intro sd1 hsd1
      obtain ⟨x, hx, hxl⟩ := hnames sd1 (List.mem_cons_of_mem _ hsd1)
      rw [hev] at hx
      rcases List.mem_append.mp hx with hx | hx
      · exact ⟨x, List.mem_append_left _ hx, hxl⟩
      · rcases List.mem_cons.mp hx with hx | hx
        · exact ⟨with_text s (some u), List.mem_append_right _ (List.mem_cons_self _ _),
            by rw [with_text_line, ← hx]; exact hxl⟩
        · exact ⟨x, List.mem_append_right _ (List.mem_cons_of_mem _ hx), hxl⟩
    obtain ⟨u1, hrest⟩ := ih
      { sp with everything := pre ++ with_text s (some u) :: suf, undo := 0 }
      hsorted1 hlive1 (fun sd1 h1 => hsnap sd1 (List.mem_cons_of_mem _ h1)) hnames1
      hnodup_rest
    refine ⟨u1, ?_⟩
    unfold undo_op_mod_loop
    rw [hstep]
    simp only [hrest, Option.map_some']
    -- the document
    have hA : (pre ++ with_text s (some u) :: suf).map (restore_text rest)
        = sp.everything.map (restore_text (sd :: rest)) := by
      rw [hev, List.map_append, List.map_append, List.map_cons, List.map_cons]
      congr 1
      · exact List.map_congr_left (fun x hx =>
          (restore_text_cons_ne sd rest x (by have := hpre x hx; omega)).symm)
      · congr 1
        · rw [restore_text_none rest _ (fun sd1 h1 => by
            rw [with_text_line, hs_line]; exact fun e => hhead sd1 h1 e.symm)]
          unfold restore_text
          rw [List.find?_cons_of_pos _ (by simpa using hs_line.symm)]
          simp only [hu]
        · exact List.map_congr_left (fun x hx =>
            (restore_text_cons_ne sd rest x (by have := hsuf x hx; omega)).symm)
    -- the batch
    have hB : snapshot_with_text sd (some t)
          :: rest.map (stash_text (pre ++ with_text s (some u) :: suf))
        = (sd :: rest).map (stash_text sp.everything) := by
      rw [List.map_cons]
      congr 1
      · unfold stash_text
        rw [hev, find_line_here pre suf s sd.line_num
          (fun y hy => by have := hpre y hy; omega) hs_line]
        simp only [ht]
      · apply List.map_congr_left
        intro sd1 h1
        have hne : sd.line_num ≠ sd1.line_num := hhead sd1 h1
        unfold stash_text
        rw [hev, find_line_skip pre suf _ sd1.line_num (by rw [with_text_line, hs_line]; exact hne),
          find_line_skip pre suf s sd1.line_num (by rw [hs_line]; exact hne)]
    rw [← hA, ← hB]

/-- In a list whose keys are pairwise different, the first element with the key
of a member is that member. -/
theorem find_key_of_mem {α : Type} (f : α → Int) :
    ∀ (l : List α), l.Pairwise (fun a b => f a ≠ f b) → ∀ a ∈ l,
      l.find? (fun x => f x == f a) = some a := by
  intro l
  induction l with
  | nil => intro _ a ha; simp at ha
  | cons x l ih =>
    intro hp a ha
    obtain ⟨hx, hl⟩ := List.pairwise_cons.mp hp
    rcases List.mem_cons.mp ha with h | h
    · subst h; simp
    · rw [List.find?_cons_of_neg _ (by simpa using hx a h)]
      exact ih hl a h

theorem find_line_of_mem (ev : List sentence)
    (hsorted : ev.Pairwise (fun a b => a.sd.line_num < b.sd.line_num)) (s : sentence)
    (hs : s ∈ ev) : ev.find? (fun x => x.sd.line_num == s.sd.line_num) = some s :=
  find_key_of_mem (fun x : sentence => x.sd.line_num) ev
    (hsorted.imp (fun h => Int.ne_of_lt h)) s hs

theorem find_snapshot_of_mem (batch : List sen_data)
    (hnodup : batch.Pairwise (fun a b => a.line_num ≠ b.line_num)) (sd : sen_data)
    (hsd : sd ∈ batch) : batch.find? (fun x => x.line_num == sd.line_num) = some sd :=
  find_key_of_mem (fun x : sen_data => x.line_num) batch hnodup sd hsd

theorem restore_text_of_mem (batch : List sen_data)
    (hnodup : batch.Pairwise (fun a b => a.line_num ≠ b.line_num)) (sd : sen_data)
    (hsd : sd ∈ batch) (s : sentence) (hl : s.sd.line_num = sd.line_num) :
    restore_text batch s = with_text s sd.text := by
  unfold restore_text
  rw [hl, find_snapshot_of_mem batch hnodup sd hsd]

theorem stash_text_of_mem (ev : List sentence)
    (hsorted : ev.Pairwise (fun a b => a.sd.line_num < b.sd.line_num)) (s : sentence)
    (hs : s ∈ ev) (sd : sen_data) (hl : s.sd.line_num = sd.line_num) :
    stash_text ev sd = snapshot_with_text sd s.sd.text := by
  unfold stash_text
  rw [← hl, find_line_of_mem ev hsorted s hs]

/-- Swapping twice gives back the live sentence. -/
theorem restore_text_twice (ev : List sentence) (batch : List sen_data)
    (hsorted : ev.Pairwise (fun a b => a.sd.line_num < b.sd.line_num)) (s : sentence)
    (hs : s ∈ ev) :
    restore_text (batch.map (stash_text ev)) (restore_text batch s) = s := by
  have hfind : (batch.map (stash_text ev)).find?
        (fun sd => sd.line_num == (restore_text batch s).sd.line_num)
      = (batch.find? (fun sd => sd.line_num == s.sd.line_num)).map (stash_text ev) := by
    rw [List.find?_map, restore_text_line]
    have hp : ((fun sd : sen_data => sd.line_num == s.sd.line_num) ∘ stash_text ev)
        = (fun sd : sen_data => sd.line_num == s.sd.line_num) := by
      funext x
      simp [stash_text_line]
    rw [hp]
  cases hb : batch.find? (fun sd => sd.line_num == s.sd.line_num) with
  | none =>
    have h1 : restore_text batch s = s := by unfold restore_text; rw [hb]
    unfold restore_text at hfind ⊢
    rw [hfind, hb]
    simp only [Option.map_none']
  | some sd =>
    have hline : sd.line_num = s.sd.line_num := by
      simpa using List.find?_some hb
    have h1 : restore_text batch s = with_text s sd.text := by unfold restore_text; rw [hb]
    have h2 : stash_text ev sd = snapshot_with_text sd s.sd.text :=
      stash_text_of_mem ev hsorted s hs sd hline.symm
    rw [hb, Option.map_some', h2] at hfind
    rw [h1] at hfind ⊢
    unfold restore_text
    rw [hfind]
    rfl

/-- Swapping twice gives back the snapshot. -/
theorem stash_text_twice (ev : List sentence) (batch : List sen_data)
    (hnodup : batch.Pairwise (fun a b => a.line_num ≠ b.line_num)) (sd : sen_data)
    (hsd : sd ∈ batch) (hname : ∃ s ∈ ev, s.sd.line_num = sd.line_num) :
    stash_text (ev.map (restore_text batch)) (stash_text ev sd) = sd := by
  have hfind : (ev.map (restore_text batch)).find?
        (fun s => s.sd.line_num == (stash_text ev sd).line_num)
      = (ev.find? (fun s => s.sd.line_num == sd.line_num)).map (restore_text batch) := by
    rw [List.find?_map, stash_text_line]
    have hp : ((fun s : sentence => s.sd.line_num == sd.line_num) ∘ restore_text batch)
        = (fun s : sentence => s.sd.line_num == sd.line_num) := by
      funext x
      simp [restore_text_line]
    rw [hp]
  cases he : ev.find? (fun s => s.sd.line_num == sd.line_num) with
  | none =>
    obtain ⟨s, hs, hl⟩ := hname
    rw [List.find?_eq_none] at he
    exact absurd (by simpa using hl) (he s hs)
  | some s0 =>
    have hline : s0.sd.line_num = sd.line_num := by simpa using List.find?_some he
    have h1 : stash_text ev sd = snapshot_with_text sd s0.sd.text := by
      unfold stash_text; rw [he]
    have h2 : restore_text batch s0 = with_text s0 sd.text :=
      restore_text_of_mem batch hnodup sd hsd s0 hline
    rw [he, Option.map_some', h2] at hfind
    rw [h1] at hfind ⊢
    unfold stash_text
    rw [hfind]
    rfl

/-- C7. For a batch whose snapshots carry pairwise different line numbers, each
the line number of a live record, in a document with strictly increasing line
numbers (texts not NULL), `undo_op_mod` succeeds and swaps texts: the live
record at a snapshot's line takes the snapshot's former text and the snapshot
takes the live record's former text; records named by no snapshot are kept; no
field other than the text of any record changes (line numbers, index paths and
reference lists are those of before). Applying `undo_op_mod` again to the
result gives back the original batch and the original records. -/
theorem undo_op_mod_swaps_texts (sp : sen_parent) (ui : undo_info)
    (hsorted : sp.everything.Pairwise (fun a b => a.sd.line_num < b.sd.line_num))
    (hlive : ∀ s ∈ sp.everything, s.sd.text ≠ none)
    (hsnap : ∀ sd ∈ ui.ls, sd.text ≠ none)
    (hnames : ∀ sd ∈ ui.ls, ∃ s ∈ sp.everything, s.sd.line_num = sd.line_num)
    (hnodup : ui.ls.Pairwise (fun a b => a.line_num ≠ b.line_num)) :
    ∃ sp1 ui1, undo_op_mod sp ui = some (0, sp1, ui1) ∧
      (∀ (i j : Nat) (s : sentence) (sd : sen_data), sp.everything[i]? = some s → ui.ls[j]? = some sd →
          s.sd.line_num = sd.line_num →
          sp1.everything[i]? = some (with_text s sd.text) ∧
          ui1.ls[j]? = some (snapshot_with_text sd s.sd.text)) ∧
      (∀ (i : Nat) (s : sentence), sp.everything[i]? = some s → (∀ sd ∈ ui.ls, sd.line_num ≠ s.sd.line_num) →
          sp1.everything[i]? = some s) ∧
      sp1.everything.map (fun s => with_text s none)
        = sp.everything.map (fun s => with_text s none) ∧
      ∃ sp2, undo_op_mod sp1 ui1 = some (0, sp2, ui) ∧ sp2.everything = sp.everything := by
  obtain ⟨u1, h1⟩ := undo_op_mod_loop_swap ui.ls sp hsorted hlive hsnap hnames hnodup
  -- the hypotheses hold again after the first swap
  have hsorted1 : (sp.everything.map (restore_text ui.ls)).Pairwise
      (fun a b => a.sd.line_num < b.sd.line_num) := by
    rw [List.pairwise_map]
    exact hsorted.imp (fun h => by rw [restore_text_line, restore_text_line]; exact h)
  have hlive1 : ∀ x ∈ sp.everything.map (restore_text ui.ls), x.sd.text ≠ none := by
    intro x hx
    obtain ⟨s, hs, rfl⟩ := List.mem_map.mp hx
    unfold restore_text
    cases hb : ui.ls.find? (fun sd => sd.line_num == s.sd.line_num) with
    | none => exact hlive s hs
    | some sd => exact hsnap sd (List.mem_of_find?_eq_some hb)
  have hsnap1 : ∀ x ∈ ui.ls.map (stash_text sp.everything), x.text ≠ none := by
    intro x hx
    obtain ⟨sd, hsd, rfl⟩ := List.mem_map.mp hx
    unfold stash_text
    cases hb : sp.everything.find? (fun s => s.sd.line_num == sd.line_num) with
    | none => exact hsnap sd hsd
    | some s => exact hlive s (List.mem_of_find?_eq_some hb)
  have hnames1 : ∀ x ∈ ui.ls.map (stash_text sp.everything),
      ∃ s ∈ sp.everything.map (restore_text ui.ls), s.sd.line_num = x.line_num := by
    intro x hx
    obtain ⟨sd, hsd, rfl⟩ := List.mem_map.mp hx
    obtain ⟨s, hs, hl⟩ := hnames sd hsd
    exact ⟨restore_text ui.ls s, List.mem_map_of_mem _ hs,
      by rw [restore_text_line, stash_text_line]; exact hl⟩
  have hnodup1 : (ui.ls.map (stash_text sp.everything)).Pairwise
      (fun a b => a.line_num ≠ b.line_num) := by
    rw [List.pairwise_map]
    exact hnodup.imp (fun h => by rw [stash_text_line, stash_text_line]; exact h)
  obtain ⟨u2, h2⟩ := undo_op_mod_loop_swap (ui.ls.map (stash_text sp.everything))
    { sp with everything := sp.everything.map (restore_text ui.ls), undo := u1 }
    hsorted1 hlive1 hsnap1 hnames1 hnodup1
  have hback_doc : (sp.everything.map (restore_text ui.ls)).map
      (restore_text (ui.ls.map (stash_text sp.everything))) = sp.everything := by
    rw [List.map_map]
    conv => rhs; rw [← List.map_id sp.everything]
    exact List.map_congr_left (fun s hs => restore_text_twice sp.everything ui.ls hsorted s hs)
  have hback_batch : (ui.ls.map (stash_text sp.everything)).map
      (stash_text (sp.everything.map (restore_text ui.ls))) = ui.ls := by
    rw [List.map_map]
    conv => rhs; rw [← List.map_id ui.ls]
    exact List.map_congr_left (fun sd hsd =>
      stash_text_twice sp.everything ui.ls hnodup sd hsd (hnames sd hsd))
  refine ⟨{ sp with everything := sp.everything.map (restore_text ui.ls), undo := u1 },
    { ui with ls := ui.ls.map (stash_text sp.everything) }, ?_, ?_, ?_, ?_, ?_⟩
  · unfold undo_op_mod
    rw [h1]
    rfl
  · intro i j s sd hi hj hl
    have hs : s ∈ sp.everything := List.getElem?_mem hi
    have hsd : sd ∈ ui.ls := List.getElem?_mem hj
    constructor
    · simp only [List.getElem?_map, hi, Option.map_some']
      rw [restore_text_of_mem ui.ls hnodup sd hsd s hl]
    · simp only [List.getElem?_map, hj, Option.map_some']
      rw [stash_text_of_mem sp.everything hsorted s hs sd hl]
  · intro i s hi hno
    simp only [List.getElem?_map, hi, Option.map_some']
    rw [restore_text_none ui.ls s hno]
  · simp only [List.map_map]
    apply List.map_congr_left
    intro s _
    simp only [Function.comp]
    unfold restore_text
    split <;> rfl
  · refine ⟨{ sp with everything := sp.everything, undo := u2 }, ?_, rfl⟩
    unfold undo_op_mod
    simp only [h2, Option.map_some', hback_doc, hback_batch]

/-- C7 on the proof with lines 1 and 2 and the snapshot of line 2: the undo
puts "R" into line 2 and "Q" into the snapshot, and the redo puts them back. -/
theorem undo_op_mod_swaps_texts_witness :
    ∃ sp1 ui1, undo_op_mod c7_sp c7_ui = some (0, sp1, ui1) ∧
      sp1.everything[1]? = some (with_text c7_line2 (some "R")) ∧
      ui1.ls[0]? = some c7_line2.sd ∧
      ∃ sp2, undo_op_mod sp1 ui1 = some (0, sp2, c7_ui) ∧ sp2.everything = c7_sp.everything := by
  obtain ⟨sp1, ui1, h, hswap, _, _, hback⟩ := undo_op_mod_swaps_texts c7_sp c7_ui
    (by decide) (by decide) (by decide) (by decide) (by decide)
  have := hswap 1 0 c7_line2 { c7_line2.sd with text := some "R" } rfl rfl rfl
  exact ⟨sp1, ui1, h, this.1, this.2, hback⟩

theorem undo_scan_in_range (ln : Int) :
    ∀ (rest : List sentence) (s : sentence) (pos : Nat) (init : Option Nat),
      ∃ k, (undo_scan ln (s :: rest) pos init).2 = some k ∧ pos ≤ k
        ∧ k < pos + (s :: rest).length := by
  intro rest
  induction rest with
  | nil =>
    intro s pos init
    refine ⟨pos, ?_, Nat.le_refl _, by simp⟩
    unfold undo_scan
    split
    · rfl
    · rfl
  | cons x rest ih =>
    intro s pos init
    unfold undo_scan
    split
    · exact ⟨pos, rfl, Nat.le_refl _, by simp⟩
    · obtain ⟨k, hk, h1, h2⟩ := ih x (pos + 1) (some pos)
      refine ⟨k, hk, by omega, ?_⟩
      simp only [List.length_cons] at h2 ⊢
      omega

theorem map_set_same {α β : Type} (f : α → β) (l : List α) (k : Nat) (a b : α)
    (ha : l[k]? = some a) (hf : f b = f a) : (l.set k b).map f = l.map f := by
  apply List.ext_getElem?
  intro n
  rw [List.getElem?_map, List.getElem?_set, List.getElem?_map]
  by_cases hkn : k = n
  · subst hkn
    have hlt : k < l.length := by
      rcases List.getElem?_eq_some.mp ha with ⟨h, _⟩; exact h
    simp [hlt, ha, hf]
  · simp [hkn]

/-- One iteration of `undo_op_mod` on a non-empty document with texts: it
succeeds and rewrites the text of one live sentence. -/
theorem undo_op_mod_one_total (sp : sen_parent) (sd : sen_data) (u : String)
    (hne : sp.everything ≠ []) (hlive : ∀ s ∈ sp.everything, s.sd.text ≠ none)
    (hu : sd.text = some u) :
    ∃ k s t, sp.everything[k]? = some s ∧ s.sd.text = some t ∧
      undo_op_mod_one sp sd
        = some ({ sp with everything := sp.everything.set k (with_text s (some u)), undo := 0 },
                snapshot_with_text sd (some t)) := by
  cases hev : sp.everything with
  | nil => exact absurd hev hne
  | cons x rest =>
    obtain ⟨k, hk, _, hlt⟩ := undo_scan_in_range sd.line_num rest x 0 none
    have hlt2 : k < (x :: rest).length := by omega
    have hget : (x :: rest)[k]? = some (x :: rest)[k] := List.getElem?_eq_getElem hlt2
    have hmem : (x :: rest)[k] ∈ sp.everything := by
      rw [hev]; exact List.getElem_mem hlt2
    obtain ⟨t, ht⟩ := Option.ne_none_iff_exists'.mp (hlive _ hmem)
    refine ⟨k, (x :: rest)[k], t, hget, ht, ?_⟩
    unfold undo_op_mod_one
    rw [hev, hk]
    simp only [hget, sentence_get_text, ht, hu, sentence_set_text, with_text,
      snapshot_with_text]

theorem undo_op_mod_loop_total :
    ∀ (batch : List sen_data) (sp : sen_parent), sp.everything ≠ [] →
      (∀ s ∈ sp.everything, s.sd.text ≠ none) → (∀ sd ∈ batch, sd.text ≠ none) →
      ∃ sp1 batch1, undo_op_mod_loop sp batch = some (sp1, batch1) ∧
        sp1.everything.map (fun s => with_text s none)
          = sp.everything.map (fun s => with_text s none) ∧
        batch1.map (fun sd => snapshot_with_text sd none)
          = batch.map (fun sd => snapshot_with_text sd none) := by
  intro batch
  induction batch with
  | nil =>
    intro sp _ _ _
    exact ⟨sp, [], rfl, rfl, rfl⟩
  | cons sd rest ih =>
    intro sp hne hlive hsnap
    obtain ⟨u, hu⟩ := Option.ne_none_iff_exists'.mp (hsnap sd (List.mem_cons_self _ _))
    obtain ⟨k, s, t, hk, _, hstep⟩ := undo_op_mod_one_total sp sd u hne hlive hu
    have hframe : (sp.everything.set k (with_text s (some u))).map (fun s => with_text s none)
        = sp.everything.map (fun s => with_text s none) :=
      map_set_same _ _ k s _ hk rfl
    have hne1 : sp.everything.set k (with_text s (some u)) ≠ [] := by
      intro h
      have := congrArg List.length h
      simp only [List.length_set, List.length_nil] at this
      exact hne (List.length_eq_zero.mp this)
    have hlive1 : ∀ x ∈ sp.everything.set k (with_text s (some u)), x.sd.text ≠ none := by
      intro x hx
      rcases List.mem_or_eq_of_mem_set hx with h | h
      · exact hlive x h
      · rw [h]; simp [with_text]
    obtain ⟨sp1, batch1, hrest, hdoc, hbatch⟩ := ih
      { sp with everything := sp.everything.set k (with_text s (some u)), undo := 0 }
      hne1 hlive1 (fun sd1 h1 => hsnap sd1 (List.mem_cons_of_mem _ h1))
    refine ⟨sp1, snapshot_with_text sd (some t) :: batch1, ?_, ?_, ?_⟩
    · unfold undo_op_mod_loop
      rw [hstep]
      simp only [hrest, Option.map_some']
    · rw [hdoc]; exact hframe
    · rw [List.map_cons, List.map_cons, hbatch]
      rfl

/-- C9 fails as stated: no live record has line number 2, yet `undo_op_mod`
returns 0 and writes the snapshot text "R" into the record at line 3, the first
record whose line number is at least 2. -/
theorem undo_op_mod_missing_line_counterexample :
    (∀ s ∈ c9_sp.everything, ∀ sd ∈ c9_ui.ls, s.sd.line_num ≠ sd.line_num) ∧
    ∃ sp1 ui1, undo_op_mod c9_sp c9_ui = some (0, sp1, ui1) ∧
      (c9_sp.everything.map (fun s => s.sd.text) = [some "P", some "Q"]) ∧
      (sp1.everything.map (fun s => s.sd.text) = [some "P", some "R"]) := by
  refine ⟨by decide, _, _, rfl, ?_, ?_⟩ <;> decide

/-- C9, amended. `undo_op_mod` has no report of a failed match: on a non-empty
document (texts not NULL) it returns 0 for every batch, whether or not a
snapshot's line number is the line number of a live record; the texts apart, the
live records and the snapshots are unchanged (same records in the same order,
same line numbers, index paths and reference lists). -/
theorem undo_op_mod_never_reports_failure (sp : sen_parent) (ui : undo_info)
    (hne : sp.everything ≠ []) (hlive : ∀ s ∈ sp.everything, s.sd.text ≠ none)
    (hsnap : ∀ sd ∈ ui.ls, sd.text ≠ none) :
    ∃ sp1 ui1, undo_op_mod sp ui = some (0, sp1, ui1) ∧
      sp1.everything.map (fun s => with_text s none)
        = sp.everything.map (fun s => with_text s none) ∧
      ui1.ls.map (fun sd => snapshot_with_text sd none)
        = ui.ls.map (fun sd => snapshot_with_text sd none) := by
  obtain ⟨sp1, batch1, h, hdoc, hbatch⟩ := undo_op_mod_loop_total ui.ls sp hne hlive hsnap
  refine ⟨sp1, { ui with ls := batch1 }, ?_, hdoc, hbatch⟩
  unfold undo_op_mod
  rw [h]
  rfl

/-- C9, amended, on the document with lines 1 and 3 and the snapshot of the
missing line 2. -/
theorem undo_op_mod_never_reports_failure_witness :
    ∃ sp1 ui1, undo_op_mod c9_sp c9_ui = some (0, sp1, ui1) ∧
      sp1.everything.map (fun s => s.sd.line_num) = [1, 3] := by
  obtain ⟨sp1, ui1, h, hdoc, _⟩ := undo_op_mod_never_reports_failure c9_sp c9_ui
    (by decide) (by decide) (by decide)
  refine ⟨sp1, ui1, h, ?_⟩
  have := congrArg (List.map (fun s : sentence => s.sd.line_num)) hdoc
  simpa [List.map_map, Function.comp, with_text] using this

/-- C10. `select_reference` rejects with no state change: it returns `-1` and
the container it was called on, with every record (so the references of the
focused record, its persisted line number list and every reference flag)
unchanged, whenever no record is focused, the focused record is a premise, or
the line number of the candidate is not smaller than that of the focused
record. -/
theorem select_reference_rejects (can_select : sen_data → sen_data → Int) (sp : sen_parent)
    (sen : sentence)
    (h : sp.focused = none ∨
      ∃ f fcs_sen, sp.focused = some f ∧ sp.everything[f]? = some fcs_sen ∧
        (fcs_sen.sd.premise = true ∨ sen.sd.line_num ≥ fcs_sen.sd.line_num)) :
    select_reference can_select sp sen = some (-1, sp) := by
  unfold select_reference
  rcases h with h | ⟨f, fcs_sen, hf, hget, hp | hl⟩
  · rw [h]
  · rw [hf]
    simp only [hget, SEN_PREM, hp, if_true]
  · rw [hf]
    simp only [hget, sentence_get_line_no, hl, if_true]
    split <;> rfl

/-- C10 with the premise at line 1 focused, and with line 2 focused and line 2
itself as the candidate. -/
theorem select_reference_rejects_witness :
    select_reference (fun _ _ => 1) { c7_sp with focused := some 0 } c7_line2
        = some (-1, { c7_sp with focused := some 0 }) ∧
      select_reference (fun _ _ => 1) c7_sp c7_line2 = some (-1, c7_sp) :=
  ⟨select_reference_rejects _ _ _ (Or.inr ⟨0, c2_prev, rfl, rfl, Or.inl rfl⟩),
   select_reference_rejects _ _ _ (Or.inr ⟨1, c7_line2, rfl, rfl, Or.inr (by decide)⟩)⟩

theorem first_at_least_le (ln : Int) :
    ∀ l : List sentence, first_at_least ln l ≤ l.length := by
  intro l
  induction l with
  | nil => simp [first_at_least]
  | cons s rest ih =>
    unfold first_at_least
    split
    · omega
    · simp only [List.length_cons]; omega

theorem first_at_least_before (ln : Int) :
    ∀ (l : List sentence) (i : Nat) (s : sentence), i < first_at_least ln l →
      l[i]? = some s → s.sd.line_num < ln := by
  intro l
  induction l with
  | nil => intro i s h; simp [first_at_least] at h
  | cons x rest ih =>
    intro i s h hget
    unfold first_at_least at h
    split at h
    · omega
    · rename_i hx
      cases i with
      | zero =>
        simp only [List.getElem?_cons_zero, Option.some.injEq] at hget
        subst hget; omega
      | succ i =>
        simp only [List.getElem?_cons_succ] at hget
        exact ih i s (by omega) hget

theorem first_at_least_at (ln : Int) :
    ∀ (l : List sentence) (s : sentence), l[first_at_least ln l]? = some s →
      s.sd.line_num ≥ ln := by
  intro l
  induction l with
  | nil => intro s h; simp at h
  | cons x rest ih =>
    intro s hget
    unfold first_at_least at hget
    split at hget
    · simp only [List.getElem?_cons_zero, Option.some.injEq] at hget
      subst hget; assumption
    · simp only [List.getElem?_cons_succ] at hget
      exact ih s hget

theorem undo_scan_item (ln : Int) :
    ∀ (l : List sentence) (pos : Nat) (init : Option Nat),
      (undo_scan ln l pos init).1
        = if first_at_least ln l < l.length then some (pos + first_at_least ln l) else none := by
  intro l
  induction l with
  | nil => intro pos init; simp [undo_scan, first_at_least]
  | cons x rest ih =>
    intro pos init
    unfold undo_scan first_at_least
    by_cases hx : x.sd.line_num ≥ ln
    · simp [sentence_get_line_no, hx]
    · simp only [sentence_get_line_no, hx, if_false, ih, List.length_cons,
        Nat.add_lt_add_iff_right]
      split
      · congr 1; omega
      · rfl

theorem undo_op_add_focus_eq (ln : Int) (l : List sentence) :
    undo_op_add_focus l (undo_scan ln l 0 none).1
      = if first_at_least ln l = 0 then none else some (first_at_least ln l - 1) := by
  rw [undo_scan_item]
  have hle := first_at_least_le ln l
  unfold undo_op_add_focus
  by_cases h : first_at_least ln l < l.length
  · simp only [h, if_true, Nat.zero_add]
  · have he : first_at_least ln l = l.length := by omega
    rw [if_neg h, he]

theorem update_indices_id (old line_mod : Int) (k : Nat) :
    ∀ (i : Nat) (sen r : sentence), update_indices old line_mod k i sen = some r →
      r.id = sen.id := by
  induction k with
  | zero =>
    intro i sen r h
    simp only [update_indices, Option.some.injEq] at h
    rw [← h]
  | succ k ih =>
    intro i sen r h
    unfold update_indices at h
    cases hv : SEN_IND sen i with
    | none => simp [hv] at h
    | some v =>
      simp only [hv] at h
      split at h
      · cases hs : sentence_set_index sen i (v + line_mod) with
        | none => simp [hs] at h
        | some sen1 =>
          simp only [hs] at h
          have h1 := ih (i + 1) sen1 r h
          unfold sentence_set_index at hs
          split at hs
          · simp only [Option.some.injEq] at hs
            rw [h1, ← hs]
          · exact absurd hs (by simp)
      · exact ih (i + 1) sen r h

theorem sentence_update_line_no_id (sp : sen_parent) (sen : sentence) (new : Int)
    (r : Int × sentence) (h : sentence_update_line_no sp sen new = some r) :
    r.2.id = sen.id := by
  have hset : (sentence_set_line_no sen new).2.id = sen.id := by
    unfold sentence_set_line_no
    simp only []
    split
    · split <;> rfl
    · rfl
  unfold sentence_update_line_no at h
  simp only [] at h
  split at h
  · simp only [Option.some.injEq] at h; rw [← h]; exact hset
  · split at h
    · simp only [Option.some.injEq] at h; rw [← h]; exact hset
    · split at h
      · simp only [Option.some.injEq] at h; rw [← h]; exact hset
      · cases hu : update_indices sen.sd.line_num (new - sen.sd.line_num)
            (SEN_DEPTH (sentence_set_line_no sen new).2) 0 (sentence_set_line_no sen new).2 with
        | none => simp [hu] at h
        | some s1 =>
          simp only [hu, Option.map_some', Option.some.injEq] at h
          rw [← h]
          simp only []
          rw [update_indices_id _ _ _ _ _ _ hu, hset]

theorem renumber_records_ids (sp : sen_parent) (delta : Int) :
    ∀ (l after : List sentence), renumber_records sp delta l = some after →
      after.map (fun s => s.id) = l.map (fun s => s.id) := by
  intro l
  induction l with
  | nil =>
    intro after h
    simp only [renumber_records, Option.some.injEq] at h
    rw [← h]
  | cons s rest ih =>
    intro after h
    unfold renumber_records at h
    simp only [] at h
    split at h
    · exact absurd h (by simp)
    · rename_i s2 hs2
      cases hr : renumber_records sp delta rest with
      | none => simp [hr] at h
      | some l1 =>
        simp only [hr, Option.map_some', Option.some.injEq] at h
        rw [← h, List.map_cons, List.map_cons, ih l1 hr]
        congr 1
        split at hs2
        · cases hu : sentence_update_line_no sp s (s.sd.line_num + delta) with
          | none => simp [hu] at hs2
          | some r =>
            simp only [hu, Option.map_some', Option.some.injEq] at hs2
            rw [← hs2]
            exact sentence_update_line_no_id sp s _ r hu
        · simp only [Option.some.injEq] at hs2
          rw [hs2]

/-- C8. Reinsertion by `undo_op_add` resolves the insertion point of each
snapshot, in batch order, against the document as it is then. With `k` the
position of the first live record whose line number is at least the snapshot's
(the length of the document when there is none): the records before `k` have
smaller line numbers, the focus is set to the record just before `k` (no record
when `k` is the head, the tail when there is no match), the create path is
called with the snapshot on that focus, and when it succeeds the record built
by `sentence_init` from the snapshot stands at position `k`, right before the
records that were at `k` and after, which keep their order. -/
theorem undo_op_add_lands (sp : sen_parent) (sd : sen_data) :
    first_at_least sd.line_num sp.everything ≤ sp.everything.length ∧
    (∀ (i : Nat) (s : sentence), i < first_at_least sd.line_num sp.everything →
        sp.everything[i]? = some s → s.sd.line_num < sd.line_num) ∧
    (∀ s : sentence, sp.everything[first_at_least sd.line_num sp.everything]? = some s →
        s.sd.line_num ≥ sd.line_num) ∧
    undo_op_add_one sp sd
      = aris_proof_create_sentence
          { sp with focused := focus_before (first_at_least sd.line_num sp.everything) } sd 0 ∧
    (∀ sp1 : sen_parent, undo_op_add_one sp sd = some sp1 →
        ∃ sen after,
          sentence_init sd
            { sp with focused := focus_before (first_at_least sd.line_num sp.everything) }
            (match focus_before (first_at_least sd.line_num sp.everything) with
              | none => none
              | some j => sp.everything[j]?)
            (fresh_addr sp.everything) = some sen ∧
          sp1.everything
            = sp.everything.take (first_at_least sd.line_num sp.everything) ++ sen :: after ∧
          after.map (fun s => s.id)
            = (sp.everything.drop (first_at_least sd.line_num sp.everything)).map
                (fun s => s.id)) ∧
    (∀ (type : Int) (rest : List sen_data),
        undo_op_add sp { type := type, ls := sd :: rest }
          = (undo_op_add_one sp sd).bind
              (fun sp1 => undo_op_add sp1 { type := type, ls := rest })) := by
  have hfocus : undo_op_add_one sp sd
      = aris_proof_create_sentence
          { sp with focused := focus_before (first_at_least sd.line_num sp.everything) }
          sd 0 := by
    unfold undo_op_add_one focus_before
    simp only [undo_op_add_focus_eq]
  refine ⟨first_at_least_le _ _, first_at_least_before _ _, first_at_least_at _ _, hfocus,
    ?_, ?_⟩
  · intro sp1 h
    rw [hfocus] at h
    unfold aris_proof_create_sentence at h
    simp only [] at h
    have hpos : (match focus_before (first_at_least sd.line_num sp.everything) with
        | none => 0
        | some j => j + 1) = first_at_least sd.line_num sp.everything := by
      unfold focus_before
      by_cases h0 : first_at_least sd.line_num sp.everything = 0
      · simp only [h0, if_true]
      · simp only [h0, if_false]
        exact Nat.sub_add_cancel (Nat.pos_of_ne_zero h0)
    rw [hpos] at h
    split at h
    · exact absurd h (by simp)
    · rename_i sen hsen
      split at h
      · exact absurd h (by simp)
      · rename_i after hafter
        simp only [Option.some.injEq] at h
        refine ⟨sen, after, hsen, ?_, renumber_records_ids _ _ _ _ hafter⟩
        rw [← h]
  · intro type rest
    unfold undo_op_add
    simp only []
    conv => lhs; unfold undo_op_add_loop
    cases undo_op_add_one sp sd with
    | none => rfl
    | some sp1 => rfl

/-- C8 on the document with lines 1 and 3 and a snapshot of line 2: the record
is put back at position 1, before the record that was at line 3. -/
theorem undo_op_add_lands_witness :
    ∃ sp1 sen after, undo_op_add_one c9_sp { c7_line2.sd with text := some "R" } = some sp1 ∧
      sp1.everything = [c2_prev] ++ sen :: after ∧ after.map (fun s => s.id) = [2] := by
  have h0 : ∃ sp1, undo_op_add_one c9_sp { c7_line2.sd with text := some "R" } = some sp1 :=
    ⟨_, rfl⟩
  obtain ⟨sp1, h1⟩ := h0
  obtain ⟨sen, after, _, h2, h3⟩ :=
    (undo_op_add_lands c9_sp { c7_line2.sd with text := some "R" }).2.2.2.2.1 sp1 h1
  exact ⟨sp1, sen, after, h1, h2, h3⟩

theorem set_reference_run_map {β : Type} (g : sentence → β) (bg : BG_COLOR) (depth : Nat)
    (hg : ∀ s, g (sentence_set_bg s bg) = g s) :
    ∀ l : List sentence, (set_reference_run bg depth l).map g = l.map g := by
  intro l
  induction l with
  | nil => rfl
  | cons x rest ih =>
    unfold set_reference_run
    split
    · rfl
    · simp only [List.map_cons, ih, hg]

/-- The run of `sentence_set_reference` is the colouring of the longest initial
segment of sentences that are at least as deep as the opener. -/
theorem set_reference_run_eq (bg : BG_COLOR) (depth : Nat) :
    ∀ l : List sentence, set_reference_run bg depth l
      = (l.takeWhile (fun s => decide (depth ≤ s.sd.depth))).map (fun s => sentence_set_bg s bg)
        ++ l.dropWhile (fun s => decide (depth ≤ s.sd.depth)) := by
  intro l
  induction l with
  | nil => rfl
  | cons x rest ih =>
    unfold set_reference_run
    by_cases hx : SEN_DEPTH x < depth
    · have hx2 : ¬ depth ≤ x.sd.depth := by unfold SEN_DEPTH at hx; omega
      simp [hx, List.takeWhile_cons, List.dropWhile_cons, hx2]
    · have hx2 : depth ≤ x.sd.depth := by unfold SEN_DEPTH at hx; omega
      simp only [hx, if_false, ih, List.takeWhile_cons, List.dropWhile_cons, hx2, decide_True,
        if_true, List.map_cons, List.cons_append]

theorem sentence_set_reference_eq (ev : List sentence) (pos : Nat) (sen : sentence)
    (reference entire : Int) (hget : ev[pos]? = some sen) :
    sentence_set_reference ev pos reference entire
      = some (ev.take pos ++ mark_reference sen reference ::
          (if SEN_SUB sen ∧ entire ≠ 0 then
            set_reference_run (if reference ≠ 0 then BG_COLOR.REF else BG_COLOR.DEFAULT)
              (SEN_DEPTH sen) (ev.drop (pos + 1))
          else ev.drop (pos + 1))) := by
  unfold sentence_set_reference
  rw [hget]
  rfl

theorem split_at_position (ev : List sentence) (pos : Nat) (sen : sentence)
    (hget : ev[pos]? = some sen) : ev = ev.take pos ++ sen :: ev.drop (pos + 1) := by
  have hlt : pos < ev.length := by
    rcases List.getElem?_eq_some.mp hget with ⟨h, _⟩; exact h
  have hs : ev[pos] = sen := by
    rcases List.getElem?_eq_some.mp hget with ⟨_, h⟩; exact h
  conv => lhs; rw [← List.take_append_drop pos ev]
  rw [List.drop_eq_getElem_cons hlt, hs]

/-- What `sentence_set_reference` keeps: address, data and reference list of
every sentence, position by position. -/
theorem sentence_set_reference_core (ev ev1 : List sentence) (pos : Nat)
    (reference entire : Int) (h : sentence_set_reference ev pos reference entire = some ev1) :
    ev1.map core_of = ev.map core_of := by
  unfold sentence_set_reference at h
  cases hget : ev[pos]? with
  | none => simp [hget] at h
  | some sen =>
    simp only [hget, Option.some.injEq] at h
    rw [← h]
    conv => rhs; rw [split_at_position ev pos sen hget]
    simp only [List.map_append, List.map_cons]
    congr 2
    split
    · exact set_reference_run_map core_of _ _ (fun s => rfl) _
    · rfl

/-- The reference flag that `sentence_set_reference` leaves at the position it was
called on. -/
theorem sentence_set_reference_flag (ev ev1 : List sentence) (pos : Nat)
    (reference entire : Int) (h : sentence_set_reference ev pos reference entire = some ev1) :
    (ev1[pos]?).map (fun s => s.reference) = some reference := by
  unfold sentence_set_reference at h
  cases hget : ev[pos]? with
  | none => simp [hget] at h
  | some sen =>
    simp only [hget, Option.some.injEq] at h
    have hlt : pos < ev.length := by
      rcases List.getElem?_eq_some.mp hget with ⟨h, _⟩; exact h
    have hlen : (ev.take pos).length = pos := by
      rw [List.length_take]; omega
    rw [← h, List.getElem?_append_right (by omega), hlen, Nat.sub_self]
    simp

theorem serialize_refs_of_deref (ev : List sentence) :
    ∀ (l : List Nat) (rs : List sentence), l.map (deref ev) = rs.map some →
      serialize_refs ev l = some (rs.map (fun r => to_short r.sd.line_num) ++ [-1]) := by
  intro l
  induction l with
  | nil =>
    intro rs h
    cases rs with
    | nil => rfl
    | cons r rs => simp at h
  | cons p ps ih =>
    intro rs h
    cases rs with
    | nil => simp at h
    | cons r rs =>
      simp only [List.map_cons, List.cons.injEq] at h
      unfold serialize_refs
      rw [h.1]
      simp only [ih rs h.2, Option.map_some', List.map_cons, List.cons_append]

theorem deref_all_some (ev : List sentence) :
    ∀ l : List Nat, (∀ p ∈ l, deref ev p ≠ none) →
      ∃ rs : List sentence, l.map (deref ev) = rs.map some := by
  intro l
  induction l with
  | nil => intro _; exact ⟨[], rfl⟩
  | cons p ps ih =>
    intro h
    obtain ⟨rs, hrs⟩ := ih (fun q hq => h q (List.mem_cons_of_mem _ hq))
    obtain ⟨r, hr⟩ := Option.ne_none_iff_exists'.mp (h p (List.mem_cons_self _ _))
    exact ⟨r :: rs, by simp only [List.map_cons, hr, hrs]⟩

theorem sentence_set_reference_some (ev : List sentence) (pos : Nat) (reference entire : Int)
    (hlt : pos < ev.length) : ∃ ev1, sentence_set_reference ev pos reference entire = some ev1 := by
  rw [sentence_set_reference_eq ev pos ev[pos] reference entire (List.getElem?_eq_getElem hlt)]
  exact ⟨_, rfl⟩

/-- C12 fails as stated: line 2 is focused and already holds line 1 in its
references, but the reference flag of line 1 is not set (the state that
`sentence_update_refs` followed by a direct assignment of the focus leaves);
`select_reference` then adds line 1 a second time. -/
theorem select_reference_toggle_counterexample :
    c12_line2.references = [1] ∧ c2_prev.id = 1 ∧ c2_prev.reference = 0 ∧
    ∃ sp1, select_reference (fun _ ref => ref.line_num) c12_sp c2_prev = some (0, sp1) ∧
      sp1.everything.map (fun s => s.references) = [[], [1, 1]] ∧
      sp1.everything.map (fun s => s.reference) = [1, 0] := by
  refine ⟨rfl, rfl, rfl, _, rfl, ?_, ?_⟩ <;> decide

/-- C12, amended. Past its rejection checks, with the resolved record `ref_sen`
at position `r` and the references of the focused record pointing to live
sentences, `select_reference` returns 0 and decides on the reference flag of the
resolved record: when the flag is set it removes the record from the references
of the focused record and the flag ends cleared (0); when the flag is not set it
appends the record and the flag ends set (1). -/
theorem select_reference_toggles_on_flag (can_select : sen_data → sen_data → Int)
    (sp : sen_parent) (sen : sentence) (f r : Nat) (fcs_sen ref_sen : sentence)
    (hf : sp.focused = some f) (hfcs : sp.everything[f]? = some fcs_sen)
    (hprem : fcs_sen.sd.premise = false) (hlt : sen.sd.line_num < fcs_sen.sd.line_num)
    (hres : ls_nth sp.everything (resolved_line (can_select fcs_sen.sd sen.sd) - 1) = some r)
    (href : sp.everything[r]? = some ref_sen)
    (hlive : ∀ p ∈ fcs_sen.references ++ [ref_sen.id], deref sp.everything p ≠ none) :
    ∃ sp1, select_reference can_select sp sen = some (0, sp1) ∧
      (sp1.everything[f]?).map (fun s => s.references)
        = some (if ref_sen.reference ≠ 0 then ls_rem_obj_value fcs_sen.references ref_sen.id
                else fcs_sen.references ++ [ref_sen.id]) ∧
      (sp1.everything[r]?).map (fun s => s.reference)
        = some (if ref_sen.reference ≠ 0 then 0 else 1) := by
  have hflt : f < sp.everything.length := by
    rcases List.getElem?_eq_some.mp hfcs with ⟨h, _⟩; exact h
  have hrlt : r < sp.everything.length := by
    rcases List.getElem?_eq_some.mp href with ⟨h, _⟩; exact h
  have hguard : ¬ sentence_get_line_no sen ≥ sentence_get_line_no fcs_sen := by
    unfold sentence_get_line_no; omega
  have hres2 : ls_nth sp.everything
      ((if can_select fcs_sen.sd sen.sd < 0 then can_select fcs_sen.sd sen.sd * -1
        else can_select fcs_sen.sd sen.sd) - 1) = some r := hres
  -- the two outcomes of the serialisation
  have hfinish : ∀ (refs : List Nat) (v : Int), (∀ p ∈ refs, deref sp.everything p ≠ none) →
      ∀ out, serialize_refs sp.everything refs = some out →
      ∃ sp1, (sentence_set_reference
            (sp.everything.set f
              { fcs_sen with references := refs, sd := { fcs_sen.sd with refs := some out } })
            r v (if can_select fcs_sen.sd sen.sd < 0 then 1 else 0)).map
              (fun ev => ((0 : Int), { sp with everything := ev })) = some (0, sp1) ∧
        (sp1.everything[f]?).map (fun s => s.references) = some refs ∧
        (sp1.everything[r]?).map (fun s => s.reference) = some v := by
    intro refs v _ out _
    obtain ⟨ev1, hev1⟩ := sentence_set_reference_some
      (sp.everything.set f
        { fcs_sen with references := refs, sd := { fcs_sen.sd with refs := some out } })
      r v (if can_select fcs_sen.sd sen.sd < 0 then 1 else 0) (by simpa using hrlt)
    refine ⟨{ sp with everything := ev1 }, by rw [hev1]; rfl, ?_, ?_⟩
    · have hcore := sentence_set_reference_core _ _ _ _ _ hev1
      have hget := congrArg (fun l => l[f]?) hcore
      simp only [List.getElem?_map, List.getElem?_set_self hflt, Option.map_some'] at hget
      cases hx : ev1[f]? with
      | none => simp [hx] at hget
      | some x =>
        simp only [hx, Option.map_some', Option.some.injEq, core_of, Prod.mk.injEq] at hget
        simp only [Option.map_some', hget.2.2]
    · exact sentence_set_reference_flag _ _ _ _ _ hev1
  unfold select_reference
  rw [hf]
  simp only [hfcs, SEN_PREM, hprem, hguard, if_false, Bool.false_eq_true, hres2, href]
  by_cases hflag : ref_sen.reference ≠ 0
  · have hsub : ∀ p ∈ ls_rem_obj_value fcs_sen.references ref_sen.id,
        deref sp.everything p ≠ none := fun p hp =>
      hlive p (List.mem_append_left _ (List.mem_of_mem_erase hp))
    obtain ⟨rs, hrs⟩ := deref_all_some sp.everything _ hsub
    have hser := serialize_refs_of_deref sp.everything _ rs hrs
    obtain ⟨sp1, h1, h2, h3⟩ := hfinish _ 0 hsub _ hser
    rw [hf] at h1
    refine ⟨sp1, ?_, ?_, ?_⟩
    · simp only [hflag, if_true, ne_eq, not_false_eq_true, sentence_rem_ref, hser,
        Option.map_some']
      exact h1
    · rw [if_pos hflag]; exact h2
    · rw [if_pos hflag]; exact h3
  · obtain ⟨rs, hrs⟩ := deref_all_some sp.everything _ hlive
    have hser := serialize_refs_of_deref sp.everything _ rs hrs
    obtain ⟨sp1, h1, h2, h3⟩ := hfinish _ 1 hlive _ hser
    rw [hf] at h1
    refine ⟨sp1, ?_, ?_, ?_⟩
    · simp only [hflag, if_false, sentence_add_ref, hser, Option.map_some']
      exact h1
    · rw [if_neg hflag]; exact h2
    · rw [if_neg hflag]; exact h3

/-- C12, amended, on the proof with lines 1 and 2, line 2 focused without
references and line 1 not flagged: line 1 is added and its flag ends set. -/
theorem select_reference_toggles_on_flag_witness :
    ∃ sp1, select_reference (fun _ ref => ref.line_num) c7_sp c2_prev = some (0, sp1) ∧
      (sp1.everything[1]?).map (fun s => s.references) = some [1] ∧
      (sp1.everything[0]?).map (fun s => s.reference) = some 1 :=
  select_reference_toggles_on_flag (fun _ ref => ref.line_num) c7_sp c2_prev 1 0 c7_line2
    c2_prev rfl rfl rfl (by decide) (by decide) rfl (by decide)

/-- C13. On the sentence `sen` at position `pos`, `sentence_set_reference` with
`entire_subproof = 1` on a subproof opener colours (reference colour for a
non-zero `reference`, default colour for 0) the opener and exactly the longest
run of the records that follow it with depth at least the opener's, stopping at
the first record of smaller depth; the records before the opener and from that
first record on are kept as they are. With `entire_subproof = 0`, or on a record
that opens no subproof, only the record at `pos` changes. In both cases the
reference flag of that record becomes `reference`. -/
theorem sentence_set_reference_propagates (ev : List sentence) (pos : Nat) (sen : sentence)
    (reference : Int) (hget : ev[pos]? = some sen) :
    (sen.sd.subproof = true →
      sentence_set_reference ev pos reference 1
        = some (ev.take pos ++ mark_reference sen reference ::
            (((ev.drop (pos + 1)).takeWhile (fun s => decide (sen.sd.depth ≤ s.sd.depth))).map
                (fun s => sentence_set_bg s
                  (if reference ≠ 0 then BG_COLOR.REF else BG_COLOR.DEFAULT))
              ++ (ev.drop (pos + 1)).dropWhile
                  (fun s => decide (sen.sd.depth ≤ s.sd.depth))))) ∧
    (∀ entire : Int, sen.sd.subproof = false ∨ entire = 0 →
      sentence_set_reference ev pos reference entire
        = some (ev.set pos (mark_reference sen reference))) := by
  have hlt : pos < ev.length := by
    rcases List.getElem?_eq_some.mp hget with ⟨h, _⟩; exact h
  constructor
  · intro hsub
    rw [sentence_set_reference_eq ev pos sen reference 1 hget]
    simp only [SEN_SUB, hsub, SEN_DEPTH, set_reference_run_eq]
    simp
  · intro entire h
    rw [sentence_set_reference_eq ev pos sen reference entire hget,
      List.set_eq_take_append_cons_drop, if_pos hlt]
    have hno : ¬ (SEN_SUB sen = true ∧ entire ≠ 0) := by
      rintro ⟨h1, h2⟩
      rcases h with h | h
      · unfold SEN_SUB at h1; rw [h] at h1; exact absurd h1 (by decide)
      · exact h2 h
    rw [if_neg hno]

/-- C13 on the four-line example: a reference to the opener at line 2 colours
lines 2 and 3 and leaves lines 1 and 4; without the entire-subproof flag only
line 2 is coloured. -/
theorem sentence_set_reference_propagates_witness :
    (sentence_set_reference ex4_sp.everything 1 1 1).map
        (fun ev => ev.map (fun s => s.bg_color))
      = some [BG_COLOR.DEFAULT, BG_COLOR.REF, BG_COLOR.REF, BG_COLOR.DEFAULT] ∧
    (sentence_set_reference ex4_sp.everything 1 1 0).map
        (fun ev => ev.map (fun s => s.bg_color))
      = some [BG_COLOR.DEFAULT, BG_COLOR.REF, BG_COLOR.DEFAULT, BG_COLOR.DEFAULT] := by
  have h := sentence_set_reference_propagates ex4_sp.everything 1
    (ex4_line 2 1 [2, -1] false true []) 1 rfl
  rw [h.1 rfl, h.2 0 (Or.inr rfl)]
  decide

theorem check_entire_loop_spec (sen ref : sentence) (k : Nat) :
    ∀ i : Nat, i + k ≤ ref.sd.indices.length → i + k ≤ sen.sd.indices.length →
      ∃ j, check_entire_loop sen ref k i = some j ∧ i ≤ j ∧ j ≤ i + k ∧
        (∀ m, i ≤ m → m < j → ref.sd.indices[m]? = sen.sd.indices[m]?) ∧
        (j < i + k → ref.sd.indices[j]? ≠ sen.sd.indices[j]?) := by
  induction k with
  | zero =>
    intro i _ _
    exact ⟨i, rfl, Nat.le_refl _, Nat.le_refl _, fun m h1 h2 => by omega, fun h => by omega⟩
  | succ k ih =>
    intro i hr hs
    have hri : i < ref.sd.indices.length := by omega
    have hsi : i < sen.sd.indices.length := by omega
    unfold check_entire_loop
    simp only [SEN_IND, List.getElem?_eq_getElem hri, List.getElem?_eq_getElem hsi]
    by_cases hne : ref.sd.indices[i] ≠ sen.sd.indices[i]
    · refine ⟨i, by simp [hne], Nat.le_refl _, by omega, fun m h1 h2 => by omega, fun _ => ?_⟩
      rw [List.getElem?_eq_getElem hri, List.getElem?_eq_getElem hsi]
      intro h
      exact hne (Option.some.inj h)
    · obtain ⟨j, hj, h1, h2, h3, h4⟩ := ih (i + 1) (by omega) (by omega)
      refine ⟨j, by simp only [hne, if_false]; exact hj, by omega, by omega, ?_, ?_⟩
      · intro m hm1 hm2
        by_cases hmi : m = i
        · subst hmi
          have : ref.sd.indices[m] = sen.sd.indices[m] := by
            simpa using hne
          simp [List.getElem?_eq_getElem hri, List.getElem?_eq_getElem hsi, this]
        · exact h3 m (by omega) hm2
      · intro hlt
        exact h4 (by omega)

/-- C14. For records with well-formed index paths, `sentence_check_entire (sen,
ref)` returns 0 when `ref` opens no subproof or when `sen` lies inside the
subproof opened by `ref` (`ref.depth <= sen.depth` and the first `ref.depth`
slots of the two paths agree), and returns 1 in every other case; in particular
it returns 1 for an opener that is deeper than the citing line. In the
four-line example, `sentence_in` on line 4, which cites the opener at line 2,
gives the reference colour to lines 2 and 3 together (line 1 keeps the default
colour and line 4 gets the colour of the focused line). -/
theorem sentence_check_entire_spec (sen ref : sentence) (hsen : wf_path sen)
    (href : wf_path ref) :
    ((ref.sd.subproof = false ∨ (ref.sd.depth ≤ sen.sd.depth ∧
          ∀ i, i < ref.sd.depth → ref.sd.indices[i]? = sen.sd.indices[i]?)) →
        sentence_check_entire sen ref = some 0) ∧
    (¬ (ref.sd.subproof = false ∨ (ref.sd.depth ≤ sen.sd.depth ∧
          ∀ i, i < ref.sd.depth → ref.sd.indices[i]? = sen.sd.indices[i]?)) →
        sentence_check_entire sen ref = some 1) ∧
    (ref.sd.subproof = true → sen.sd.depth < ref.sd.depth →
        sentence_check_entire sen ref = some 1) ∧
    (sentence_in ex4_sp 3).map (fun r => (r.1, r.2.everything.map (fun s => s.bg_color)))
      = some (0, [BG_COLOR.DEFAULT, BG_COLOR.REF, BG_COLOR.REF, BG_COLOR.CONC]) := by
  obtain ⟨hslen, _, _⟩ := hsen
  obtain ⟨hrlen, hrsent, hrpos⟩ := href
  -- inside the subproof or not, once `ref` is an opener that is not deeper
  have hmain : ref.sd.subproof = true → ref.sd.depth ≤ sen.sd.depth →
      sentence_check_entire sen ref
        = some (if ∀ i, i < ref.sd.depth → ref.sd.indices[i]? = sen.sd.indices[i]? then 0
                else 1) := by
    intro hsub hle
    obtain ⟨j, hj, _, hjle, heq, hneq⟩ := check_entire_loop_spec sen ref ref.sd.depth 0
      (by omega) (by omega)
    simp only [Nat.zero_add] at hjle hneq
    unfold sentence_check_entire
    simp only [SEN_SUB, hsub, SEN_DEPTH, Bool.not_true, Bool.false_eq_true, if_false,
      show ¬ ref.sd.depth > sen.sd.depth from by omega, hj, SEN_IND]
    by_cases hall : ∀ i, i < ref.sd.depth → ref.sd.indices[i]? = sen.sd.indices[i]?
    · have hjd : j = ref.sd.depth := by
        by_contra hne
        exact hneq (by omega) (hall j (by omega))
      rw [hjd, hrsent, if_pos hall]
      rfl
    · have hjd : j < ref.sd.depth := by
        by_contra hne
        have : j = ref.sd.depth := by omega
        exact hall (fun i hi => heq i (Nat.zero_le _) (by omega))
      have hjlen : j < ref.sd.indices.length := by omega
      have hmem : ref.sd.indices[j] ∈ ref.sd.indices.take ref.sd.depth := by
        apply List.getElem?_mem (n := j)
        rw [List.getElem?_take_of_lt hjd, List.getElem?_eq_getElem hjlen]
      have hge := hrpos _ hmem
      rw [List.getElem?_eq_getElem hjlen, if_neg hall]
      simp only []
      rw [if_neg (by omega)]
  have hdeep : ref.sd.subproof = true → sen.sd.depth < ref.sd.depth →
      sentence_check_entire sen ref = some 1 := by
    intro hsub hlt
    unfold sentence_check_entire
    simp [SEN_SUB, hsub, SEN_DEPTH, hlt]
  refine ⟨?_, ?_, hdeep, by decide⟩
  · rintro (h | ⟨hle, hall⟩)
    · unfold sentence_check_entire
      simp [SEN_SUB, h]
    · cases hsub : ref.sd.subproof with
      | false => unfold sentence_check_entire; simp [SEN_SUB, hsub]
      | true => rw [hmain hsub hle, if_pos hall]
  · intro hnot
    have hsub : ref.sd.subproof = true := by
      cases h : ref.sd.subproof with
      | false => exact absurd (Or.inl h) hnot
      | true => rfl
    by_cases hle : ref.sd.depth ≤ sen.sd.depth
    · rw [hmain hsub hle, if_neg (fun hall => hnot (Or.inr ⟨hle, hall⟩))]
    · exact hdeep hsub (by omega)

/-- C14 on the four-line example: line 3 lies inside the subproof opened at
line 2 (0: only the opener), line 4 does not (1: the entire subproof). -/
theorem sentence_check_entire_spec_witness :
    sentence_check_entire (ex4_line 3 1 [2, -1] false false [])
        (ex4_line 2 1 [2, -1] false true []) = some 0 ∧
    sentence_check_entire (ex4_line 4 0 [-1] false false [2])
        (ex4_line 2 1 [2, -1] false true []) = some 1 :=
  ⟨(sentence_check_entire_spec (ex4_line 3 1 [2, -1] false false [])
      (ex4_line 2 1 [2, -1] false true []) (by decide) (by decide)).1
      (Or.inr ⟨by decide, by decide⟩),
   (sentence_check_entire_spec (ex4_line 4 0 [-1] false false [2])
      (ex4_line 2 1 [2, -1] false true []) (by decide) (by decide)).2.2.1 rfl (by decide)⟩

theorem to_short_of_range (n : Int) (h1 : -32768 ≤ n) (h2 : n ≤ 32767) : to_short n = n := by
  unfold to_short
  omega

theorem map_to_short_of_range (rs : List sentence)
    (h : ∀ r ∈ rs, -32768 ≤ r.sd.line_num ∧ r.sd.line_num ≤ 32767) :
    rs.map (fun r => to_short r.sd.line_num) = rs.map (fun r => r.sd.line_num) :=
  List.map_congr_left (fun r hr => to_short_of_range _ (h r hr).1 (h r hr).2)

/-- C15 fails as stated: citing line 40000 writes the `short` value -25536, not
the line number 40000, into the persisted list. -/
theorem sentence_add_ref_short_counterexample :
    ∃ cited citing, c15_sp.everything = [cited, citing] ∧ cited.sd.line_num = 40000 ∧
      (sentence_add_ref c15_sp.everything citing cited).map
          (fun r => (r.2.references, r.2.sd.refs))
        = some ([1], some [-25536, -1]) := by
  refine ⟨_, _, rfl, rfl, ?_⟩
  decide

/-- C15, amended. With the references of the citing record (and the cited
record) pointing to the live sentences `rs_add`, respectively `rs_rem` once the
cited record is unlinked: `sentence_add_ref` returns 0 and the references are
the previous sequence with the cited record appended last; `sentence_rem_ref`
returns 0 and the references are the previous sequence with the cited record
unlinked; in both cases the persisted list becomes the line number of each
reference, converted to a 16 bit `short`, in citation order, followed by the
single terminator `-1`; these are exactly the line numbers when they lie between
-32768 and 32767. -/
theorem sentence_add_rem_ref_serialise (ev : List sentence) (sen ref : sentence)
    (rs_add rs_rem : List sentence)
    (hadd : (sen.references ++ [ref.id]).map (deref ev) = rs_add.map some)
    (hrem : (ls_rem_obj_value sen.references ref.id).map (deref ev) = rs_rem.map some) :
    sentence_add_ref ev sen ref
      = some (0, { sen with
          references := sen.references ++ [ref.id],
          sd := { sen.sd with
            refs := some (rs_add.map (fun r => to_short r.sd.line_num) ++ [-1]) } }) ∧
    sentence_rem_ref ev sen ref
      = some (0, { sen with
          references := sen.references.erase ref.id,
          sd := { sen.sd with
            refs := some (rs_rem.map (fun r => to_short r.sd.line_num) ++ [-1]) } }) ∧
    ((∀ r ∈ rs_add, -32768 ≤ r.sd.line_num ∧ r.sd.line_num ≤ 32767) →
      rs_add.map (fun r => to_short r.sd.line_num) ++ [-1]
        = rs_add.map (fun r => r.sd.line_num) ++ [-1]) ∧
    ((∀ r ∈ rs_rem, -32768 ≤ r.sd.line_num ∧ r.sd.line_num ≤ 32767) →
      rs_rem.map (fun r => to_short r.sd.line_num) ++ [-1]
        = rs_rem.map (fun r => r.sd.line_num) ++ [-1]) := by
  refine ⟨?_, ?_, fun h => by rw [map_to_short_of_range rs_add h],
    fun h => by rw [map_to_short_of_range rs_rem h]⟩
  · unfold sentence_add_ref
    simp only [serialize_refs_of_deref ev _ rs_add hadd, Option.map_some']
  · unfold sentence_rem_ref
    simp only [serialize_refs_of_deref ev _ rs_rem hrem, Option.map_some']
    rfl

/-- C15, amended, on the proof with lines 1 and 2: line 2 cites line 1, then
drops it again. -/
theorem sentence_add_rem_ref_serialise_witness :
    (sentence_add_ref c7_sp.everything c7_line2 c2_prev).map
        (fun r => (r.2.references, r.2.sd.refs)) = some ([1], some [1, -1]) ∧
    (sentence_rem_ref c7_sp.everything c12_line2 c2_prev).map
        (fun r => (r.2.references, r.2.sd.refs)) = some ([], some [-1]) := by
  have h1 := (sentence_add_rem_ref_serialise c7_sp.everything c7_line2 c2_prev
    [c2_prev] [] rfl rfl).1
  have h2 := (sentence_add_rem_ref_serialise c7_sp.everything c12_line2 c2_prev
    [c2_prev, c2_prev] [] rfl rfl).2.1
  rw [h1, h2]
  decide

theorem update_refs_loop_eq (ln : Int) (everything : List sentence) :
    ∀ (refs : List Int) (acc : List Nat), (-1 : Int) ∈ refs →
      update_refs_loop ln everything refs acc
        = some (acc ++ (persisted_entries refs).filterMap (attached_for ln everything)) := by
  intro refs
  induction refs with
  | nil => intro acc h; simp at h
  | cons c rest ih =>
    intro acc h
    unfold update_refs_loop persisted_entries
    by_cases hc : c = -1
    · simp [hc]
    · have hr : (-1 : Int) ∈ rest := by
        rcases List.mem_cons.mp h with h1 | h1
        · exact absurd h1.symm hc
        · exact h1
      have hih : ∀ acc1, update_refs_loop ln everything rest acc1
          = some (acc1 ++ (rest.takeWhile (fun c => c ≠ -1)).filterMap
              (attached_for ln everything)) := fun acc1 => ih acc1 hr
      simp only [hc, if_false, List.takeWhile_cons, ne_eq, not_false_eq_true, decide_True,
        if_true, List.filterMap_cons]
      by_cases hg : c > ln
      · simp only [hg, if_true, attached_for, hih]
      · simp only [hg, if_false, attached_for]
        cases hfind : everything.find? (fun r => sentence_get_line_no r == c) with
        | none => simp only [Option.map_none', hih]
        | some r => simp only [Option.map_some', hih, List.append_assoc, List.singleton_append]

theorem filterMap_congr_mem {α β : Type} (f g : α → Option β) :
    ∀ l : List α, (∀ a ∈ l, f a = g a) → l.filterMap f = l.filterMap g := by
  intro l
  induction l with
  | nil => intro _; rfl
  | cons a l ih =>
    intro h
    rw [List.filterMap_cons, List.filterMap_cons, h a (List.mem_cons_self _ _),
      ih (fun b hb => h b (List.mem_cons_of_mem _ hb))]

/-- C16 fails as stated: line 2 already holds line 1 in its references; the call
appends the record named by the persisted list `[1, -1]` to them, so line 1 is
held twice; and on a record without references a second call gives `[1, 1]`
where the first gave `[1]`. -/
theorem sentence_update_refs_counterexample :
    c12_line2.references = [1] ∧ c12_line2.sd.refs = some [1, -1] ∧
    (sentence_update_refs c12_sp c12_line2).map (fun r => r.2.references) = some [1, 1] ∧
    (sentence_update_refs c12_sp { c12_line2 with references := [] }).map
        (fun r => r.2.references) = some [1] ∧
    ((sentence_update_refs c12_sp { c12_line2 with references := [] }).bind
        (fun r => sentence_update_refs c12_sp r.2)).map (fun r => r.2.references)
      = some [1, 1] := by
  decide

/-- C16, amended. `sentence_update_refs` appends to the references that the
record holds: for a terminated persisted list none of whose entries is the line
number of the record itself, the call returns 0 and the references are the
previous ones followed by one entry for each persisted line number (before the
terminator) that is smaller than the line number of the record and is the line
number of a live record (the first such record), in persisted order; entries
greater than the line number of the record are skipped. A second call appends
the same entries once more. -/
theorem sentence_update_refs_appends (sp : sen_parent) (sen : sentence) (refs : List Int)
    (hrefs : sen.sd.refs = some refs) (hterm : (-1 : Int) ∈ refs)
    (hown : ∀ c ∈ persisted_entries refs, c ≠ sen.sd.line_num) :
    sentence_update_refs sp sen
      = some (0, { sen with references := (sen.references
          ++ (persisted_entries refs).filterMap
              (attached_below sen.sd.line_num sp.everything)) }) ∧
    sentence_update_refs sp { sen with references := (sen.references
          ++ (persisted_entries refs).filterMap
              (attached_below sen.sd.line_num sp.everything)) }
      = some (0, { sen with references := (sen.references
          ++ (persisted_entries refs).filterMap
              (attached_below sen.sd.line_num sp.everything)
          ++ (persisted_entries refs).filterMap
              (attached_below sen.sd.line_num sp.everything)) }) := by
  have hatt : (persisted_entries refs).filterMap (attached_for sen.sd.line_num sp.everything)
      = (persisted_entries refs).filterMap (attached_below sen.sd.line_num sp.everything) := by
    apply filterMap_congr_mem
    intro c hc
    have hne := hown c hc
    unfold attached_for attached_below sentence_get_line_no
    by_cases hg : c > sen.sd.line_num
    · rw [if_pos hg, if_neg (by omega)]
    · rw [if_neg hg, if_pos (by omega)]
  constructor
  · unfold sentence_update_refs
    simp only [hrefs, sentence_get_line_no, update_refs_loop_eq _ _ refs _ hterm, hatt,
      Option.map_some']
  · unfold sentence_update_refs
    simp only [hrefs, sentence_get_line_no, update_refs_loop_eq _ _ refs _ hterm, hatt,
      Option.map_some']

/-- C16, amended, on the proof with lines 1 and 2: line 2, with the persisted
list `[1, -1]` and no references yet, gets line 1 attached. -/
theorem sentence_update_refs_appends_witness :
    sentence_update_refs c12_sp { c12_line2 with references := [] }
      = some (0, c12_line2) := by
  have h := (sentence_update_refs_appends c12_sp { c12_line2 with references := [] } [1, -1]
    rfl (by decide) (by decide)).1
  rw [h]
  decide

/-- C17, the code at the failing input. A record at line 2 whose persisted list
is `[2, -1]`: `sentence_update_refs` attaches the live record of line 2, whose
line number is not smaller than the line number of the citing record, because
its guard skips an entry only when it is greater than that line number. The
same happens inside `sentence_init` when a snapshot with that persisted list is
put back after line 1: the new record gets line 2 and cites the record that is
still at line 2. -/
theorem sentence_update_refs_attaches_own_line :
    (sentence_update_refs c7_sp { c7_line2 with sd := c17_sd }).map
        (fun r => (r.2.sd.line_num, r.2.references.map (deref c7_sp.everything)))
      = some (2, [some c7_line2]) ∧
    c7_line2.sd.line_num = 2 ∧
    (sentence_init c17_sd c7_sp (some c2_prev) 3).map
        (fun s => (s.sd.line_num, s.references.map (deref c7_sp.everything)))
      = some (2, [some c7_line2]) := by
  decide

theorem deref_some (ev : List sentence) (p : Nat) (r : sentence) (h : deref ev p = some r) :
    r ∈ ev ∧ r.id = p := by
  unfold deref at h
  exact ⟨List.mem_of_find?_eq_some h, by simpa using List.find?_some h⟩

theorem ids_of_deref (ev : List sentence) :
    ∀ (l : List Nat) (rs : List sentence), l.map (deref ev) = rs.map some →
      rs.map (fun r => r.id) = l ∧ ∀ r ∈ rs, r ∈ ev := by
  intro l
  induction l with
  | nil =>
    intro rs h
    cases rs with
    | nil => exact ⟨rfl, fun r hr => by simp at hr⟩
    | cons r rs => simp at h
  | cons p ps ih =>
    intro rs h
    cases rs with
    | nil => simp at h
    | cons r rs =>
      simp only [List.map_cons, List.cons.injEq] at h
      obtain ⟨h1, h2⟩ := ih rs h.2
      obtain ⟨hm, hid⟩ := deref_some ev p r h.1
      refine ⟨by rw [List.map_cons, h1, hid], ?_⟩
      intro x hx
      rcases List.mem_cons.mp hx with hx | hx
      · rw [hx]; exact hm
      · exact h2 x hx

/-- The loop of `sentence_update_refs` on the line numbers of live records of a
document with strictly increasing line numbers: it attaches those records. -/
theorem update_refs_loop_lines (ln : Int) (ev : List sentence)
    (hsorted : ev.Pairwise (fun a b => a.sd.line_num < b.sd.line_num)) :
    ∀ (rs : List sentence) (acc : List Nat),
      (∀ r ∈ rs, r ∈ ev ∧ r.sd.line_num ≠ -1 ∧ r.sd.line_num ≤ ln) →
      update_refs_loop ln ev (rs.map (fun r => r.sd.line_num) ++ [-1]) acc
        = some (acc ++ rs.map (fun r => r.id)) := by
  intro rs
  induction rs with
  | nil => intro acc _; simp [update_refs_loop]
  | cons r rs ih =>
    intro acc h
    obtain ⟨hmem, hne, hle⟩ := h r (List.mem_cons_self _ _)
    have hfind : ev.find? (fun x => sentence_get_line_no x == r.sd.line_num) = some r :=
      find_line_of_mem ev hsorted r hmem
    rw [List.map_cons, List.cons_append]
    unfold update_refs_loop
    rw [if_neg hne, if_neg (by omega), hfind]
    simp only []
    rw [ih _ (fun x hx => h x (List.mem_cons_of_mem _ hx))]
    simp

/-- C18 fails as stated: in a document with strictly increasing line numbers,
line 40001 cites the smaller line 40000; `sentence_add_ref` persists the `short`
value -25536, and `sentence_update_refs` on the record with empty references
finds no record with that line number and reattaches nothing. -/
theorem serialise_resync_counterexample :
    c15_sp.everything.Pairwise (fun a b => a.sd.line_num < b.sd.line_num) ∧
    ∃ cited citing, c15_sp.everything = [cited, citing] ∧
      cited.sd.line_num < citing.sd.line_num ∧ citing.references = [] ∧
      (sentence_add_ref c15_sp.everything citing cited).map (fun r => r.2.references)
        = some [cited.id] ∧
      ((sentence_add_ref c15_sp.everything citing cited).bind
          (fun r => sentence_update_refs c15_sp { r.2 with references := [] })).map
        (fun r => r.2.references) = some [] := by
  refine ⟨by decide, _, _, rfl, ?_, ?_, ?_, ?_⟩ <;> decide

/-- C18, amended. Serialise and resync round trip: in a document with strictly
increasing line numbers, for a citing record whose references, after
`sentence_add_ref` (respectively `sentence_rem_ref`), are the live records `rs`,
with line numbers between 1 and 32767 that are smaller than the line number of
the citing record, the call returns 0 and a record `sen1`, and
`sentence_update_refs` on `sen1` with its references emptied returns `sen1`:
the same records in the same citation order. -/
theorem serialise_resync_roundtrip (sp : sen_parent) (sen ref : sentence)
    (hsorted : sp.everything.Pairwise (fun a b => a.sd.line_num < b.sd.line_num)) :
    (∀ rs : List sentence,
      (sen.references ++ [ref.id]).map (deref sp.everything) = rs.map some →
      (∀ r ∈ rs, 1 ≤ r.sd.line_num ∧ r.sd.line_num ≤ 32767 ∧
        r.sd.line_num < sen.sd.line_num) →
      ∃ sen1, sentence_add_ref sp.everything sen ref = some (0, sen1) ∧
        sen1.references = sen.references ++ [ref.id] ∧
        sentence_update_refs sp { sen1 with references := [] } = some (0, sen1)) ∧
    (∀ rs : List sentence,
      (ls_rem_obj_value sen.references ref.id).map (deref sp.everything) = rs.map some →
      (∀ r ∈ rs, 1 ≤ r.sd.line_num ∧ r.sd.line_num ≤ 32767 ∧
        r.sd.line_num < sen.sd.line_num) →
      ∃ sen1, sentence_rem_ref sp.everything sen ref = some (0, sen1) ∧
        sen1.references = ls_rem_obj_value sen.references ref.id ∧
        sentence_update_refs sp { sen1 with references := [] } = some (0, sen1)) := by
  have hkey : ∀ (l : List Nat) (rs : List sentence),
      l.map (deref sp.everything) = rs.map some →
      (∀ r ∈ rs, 1 ≤ r.sd.line_num ∧ r.sd.line_num ≤ 32767 ∧
        r.sd.line_num < sen.sd.line_num) →
      serialize_refs sp.everything l = some (rs.map (fun r => r.sd.line_num) ++ [-1]) ∧
      update_refs_loop sen.sd.line_num sp.everything
          (rs.map (fun r => r.sd.line_num) ++ [-1]) [] = some l := by
    intro l rs hl hr
    obtain ⟨hids, hmem⟩ := ids_of_deref sp.everything l rs hl
    constructor
    · rw [serialize_refs_of_deref sp.everything l rs hl,
        map_to_short_of_range rs (fun r h => ⟨by have := hr r h; omega, (hr r h).2.1⟩)]
    · rw [update_refs_loop_lines sen.sd.line_num sp.everything hsorted rs []
        (fun r h => ⟨hmem r h, by have := hr r h; omega, by have := hr r h; omega⟩)]
      simp [hids]
  constructor
  · intro rs hl hr
    obtain ⟨h1, h2⟩ := hkey _ rs hl hr
    refine ⟨{ sen with
        references := sen.references ++ [ref.id],
        sd := { sen.sd with refs := some (rs.map (fun r => r.sd.line_num) ++ [-1]) } },
      ?_, rfl, ?_⟩
    · unfold sentence_add_ref
      simp only [h1, Option.map_some']
    · unfold sentence_update_refs
      simp only [sentence_get_line_no, h2, Option.map_some']
  · intro rs hl hr
    obtain ⟨h1, h2⟩ := hkey _ rs hl hr
    refine ⟨{ sen with
        references := ls_rem_obj_value sen.references ref.id,
        sd := { sen.sd with refs := some (rs.map (fun r => r.sd.line_num) ++ [-1]) } },
      ?_, rfl, ?_⟩
    · unfold sentence_rem_ref
      simp only [h1, Option.map_some']
    · unfold sentence_update_refs
      simp only [sentence_get_line_no, h2, Option.map_some']

/-- C18, amended, on the proof with lines 1 and 2: line 2 cites line 1, and the
resync of the persisted list `[1, -1]` reattaches line 1. -/
theorem serialise_resync_roundtrip_witness :
    ∃ sen1, sentence_add_ref c7_sp.everything c7_line2 c2_prev = some (0, sen1) ∧
      sen1.references = [1] ∧
      sentence_update_refs c7_sp { sen1 with references := [] } = some (0, sen1) :=
  (serialise_resync_roundtrip c7_sp c7_line2 c2_prev (by decide)).1 [c2_prev] rfl
    (by decide)

theorem blank_goal_line_total (goal : sen_parent) (ln : Int)
    (hgoal : goal.type = SEN_PARENT_TYPE.GOAL) :
    ∀ l : List sentence, ∃ goals, blank_goal_line goal ln l = some goals := by
  intro l
  induction l with
  | nil => exact ⟨[], rfl⟩
  | cons g rest ih =>
    unfold blank_goal_line
    split
    · have : ∃ r, sentence_update_line_no goal g (-1) = some r := by
        unfold sentence_update_line_no
        simp only [hgoal, if_true]
        split
        · exact ⟨_, rfl⟩
        · split <;> exact ⟨_, rfl⟩
      obtain ⟨r, hr⟩ := this
      rw [hr]
      exact ⟨_, rfl⟩
    · obtain ⟨goals, hg⟩ := ih
      rw [hg]
      exact ⟨_, rfl⟩

theorem blank_citing_at (p : Nat) (ev : List sentence) (pos : Nat) (s : sentence)
    (h : ev[pos]? = some s) :
    ∃ s1, (blank_citing p ev)[pos]? = some s1 ∧ s1.sd = s.sd := by
  unfold blank_citing
  rw [List.getElem?_map, h]
  simp only [Option.map_some']
  split
  · exact ⟨_, rfl, rfl⟩
  · exact ⟨_, rfl, rfl⟩

/-- C19. Modify snapshot capture: for a record with a stored text,
`undo_info_init_one (sen, kind)` returns a batch of kind `kind` with exactly one
snapshot, whose line number, depth, index path, rule and persisted references
are those of the record and whose text is the stored text of the record at the
time of the call. `sentence_text_changed`, outside undo replay and font
resizing, hands to the undo journal the batch of kind Modify whose single
snapshot is the record data with the text stored before the edit, and only then
stores the new text read from the text view. -/
theorem undo_info_init_one_snapshot (sen : sentence) (kind : Int) (t : String)
    (ht : sen.sd.text = some t) :
    (∃ snap, undo_info_init_one sen kind = some { type := kind, ls := [snap] } ∧
      snap.line_num = sen.sd.line_num ∧ snap.depth = sen.sd.depth ∧
      snap.indices = sen.sd.indices ∧ snap.rule = sen.sd.rule ∧
      snap.refs = sen.sd.refs ∧ snap.text = some t) ∧
    (∀ (ap : aris_proof) (pos : Nat) (buffer : String),
      ap.sp.type = SEN_PARENT_TYPE.PROOF → ap.goal.type = SEN_PARENT_TYPE.GOAL →
      ap.sp.everything[pos]? = some sen → sen.font_resizing = 0 → ap.sp.undo = 0 →
      ∃ ap1 snap, sentence_text_changed ap false pos buffer
          = some (0, ap1, some { type := UIT_MOD_TEXT, ls := [snap] }) ∧
        snap = sen.sd ∧ snap.text = some t ∧
        (ap1.sp.everything[pos]?).map (fun s => s.sd.text)
          = some (some (sentence_copy_text buffer))) := by
  constructor
  · refine ⟨sen.sd, ?_, rfl, rfl, rfl, rfl, rfl, ht⟩
    unfold undo_info_init_one
    simp only [sentence_get_text, ht, sentence_copy_to_data, sen_data_copy, undo_info_init]
    congr 3
    cases hsd : sen.sd
    simp only [hsd] at ht
    simp [ht]
  · intro ap pos buffer hproof hgoal hget hfont hundo
    have hlt : pos < ap.sp.everything.length := by
      rcases List.getElem?_eq_some.mp hget with ⟨h, _⟩; exact h
    obtain ⟨s1, hs1, hsd1⟩ := blank_citing_at sen.id
      (ap.sp.everything.set pos (sentence_set_value sen VALUE_TYPE_BLANK)) pos
      (sentence_set_value sen VALUE_TYPE_BLANK) (List.getElem?_set_self hlt)
    have hsd1' : s1.sd = sen.sd := hsd1
    have hui : undo_info_init_one s1 UIT_MOD_TEXT
        = some { type := UIT_MOD_TEXT, ls := [sen.sd] } := by
      unfold undo_info_init_one
      simp only [sentence_get_text, hsd1', ht, sentence_copy_to_data, sen_data_copy,
        undo_info_init]
      congr 3
      cases hsd : sen.sd
      simp only [hsd] at ht
      simp [ht]
    obtain ⟨goals, hgoals⟩ := blank_goal_line_total ap.goal (sentence_get_line_no sen) hgoal
      ap.goal.everything
    have hlt1 : pos < (blank_citing sen.id
        (ap.sp.everything.set pos (sentence_set_value sen VALUE_TYPE_BLANK))).length := by
      rcases List.getElem?_eq_some.mp hs1 with ⟨h, _⟩; exact h
    refine ⟨{ ap with
        sp := { ap.sp with
          everything := (blank_citing sen.id
              (ap.sp.everything.set pos (sentence_set_value sen VALUE_TYPE_BLANK))).set pos
            { s1 with sd := { s1.sd with text := some (sentence_copy_text buffer) } } },
        goal := { ap.goal with everything := goals } }, sen.sd, ?_, rfl, ht, ?_⟩
    · unfold sentence_text_changed
      simp only [Bool.false_eq_true, if_false, hget, hfont, hundo, ne_eq, not_true_eq_false,
        or_self, hs1, hui, hproof, if_true, hgoals, sentence_set_text]
    · simp only [List.getElem?_set_self hlt1, Option.map_some']

/-- C19 on the proof with lines 1 and 2: the text "Q" of line 2 is edited to
"R"; the batch holds the snapshot with "Q" and the record then holds "R". -/
theorem undo_info_init_one_snapshot_witness :
    ∃ ap1 snap, sentence_text_changed c19_ap false 1 "R"
        = some (0, ap1, some { type := UIT_MOD_TEXT, ls := [snap] }) ∧
      snap = c7_line2.sd ∧ snap.text = some "Q" ∧
      (ap1.sp.everything[1]?).map (fun s => s.sd.text) = some (some "R") := by
  obtain ⟨ap1, snap, h1, h2, h3, h4⟩ := (undo_info_init_one_snapshot c7_line2 UIT_MOD_TEXT "Q"
    rfl).2 c19_ap 1 "R" rfl rfl rfl rfl rfl
  refine ⟨ap1, snap, h1, h2, h3, ?_⟩
  rw [h4]
  decide

theorem sentence_set_line_no_keeps (sen : sentence) (new : Int) :
    (sentence_set_line_no sen new).2.id = sen.id ∧
    (sentence_set_line_no sen new).2.sd.depth = sen.sd.depth ∧
    (sentence_set_line_no sen new).2.sd.indices = sen.sd.indices := by
  unfold sentence_set_line_no
  simp only []
  split
  · split <;> exact ⟨rfl, rfl, rfl⟩
  · exact ⟨rfl, rfl, rfl⟩

theorem renumber_records_total (sp : sen_parent) (delta : Int) :
    ∀ l : List sentence, buffers_cover l →
      ∃ after, renumber_records sp delta l = some after ∧
        after.map (fun s => s.id) = l.map (fun s => s.id) ∧ buffers_cover after := by
  intro l
  induction l with
  | nil => intro _; exact ⟨[], rfl, rfl, fun s hs => by simp at hs⟩
  | cons s rest ih =>
    intro h
    obtain ⟨after, hafter, hids, hcov⟩ := ih (fun x hx => h x (List.mem_cons_of_mem _ hx))
    have hs := h s (List.mem_cons_self _ _)
    unfold renumber_records
    simp only [hafter, Option.map_some']
    by_cases hc : sp.type = SEN_PARENT_TYPE.PROOF ∧ 1 ≤ s.sd.line_num
    · rw [if_pos hc, sentence_update_line_no_proof sp s _ hc.1 (by omega) hs]
      simp only [Option.map_some']
      obtain ⟨k1, k2, k3⟩ := sentence_set_line_no_keeps s (s.sd.line_num + delta)
      refine ⟨_, rfl, ?_, ?_⟩
      · simp only [List.map_cons, hids, set_indices, k1]
      · intro x hx
        rcases List.mem_cons.mp hx with hx | hx
        · rw [hx]
          simp only [set_indices, shift_first_length, k2]
          exact hs
        · exact hcov x hx
    · rw [if_neg hc]
      refine ⟨_, rfl, by simp only [List.map_cons, hids], ?_⟩
      intro x hx
      rcases List.mem_cons.mp hx with hx | hx
      · rw [hx]; exact hs
      · exact hcov x hx

theorem ls_find_split :
    ∀ (ev : List sentence) (p : Nat), p ∈ ev.map (fun s => s.id) →
      ∃ pre s suf, ev = pre ++ s :: suf ∧ s.id = p ∧ (∀ x ∈ pre, x.id ≠ p) ∧
        ls_find ev p = some pre.length := by
  intro ev
  induction ev with
  | nil => intro p h; simp at h
  | cons x rest ih =>
    intro p h
    by_cases hx : x.id = p
    · refine ⟨[], x, rest, rfl, hx, fun y hy => by simp at hy, ?_⟩
      unfold ls_find
      simp [List.findIdx?_cons, hx]
    · have hrest : p ∈ rest.map (fun s => s.id) := by
        rcases List.mem_cons.mp h with h1 | h1
        · exact absurd h1.symm hx
        · exact h1
      obtain ⟨pre, s, suf, hev, hs, hpre, hfind⟩ := ih p hrest
      refine ⟨x :: pre, s, suf, by rw [hev]; rfl, hs, ?_, ?_⟩
      · intro y hy
        rcases List.mem_cons.mp hy with hy | hy
        · rw [hy]; exact hx
        · exact hpre y hy
      · unfold ls_find at hfind ⊢
        rw [List.findIdx?_cons]
        simp only [beq_iff_eq, hx, if_false, Nat.zero_add]
        rw [List.findIdx?_succ, hfind]
        rfl

theorem aris_proof_remove_sentence_ids (sp : sen_parent) (p : Nat)
    (hcov : buffers_cover sp.everything) (hp : p ∈ sp.everything.map (fun s => s.id)) :
    ∃ sp1, aris_proof_remove_sentence sp p = some sp1 ∧
      sp1.everything.map (fun s => s.id) = (sp.everything.map (fun s => s.id)).erase p ∧
      buffers_cover sp1.everything := by
  obtain ⟨pre, s, suf, hev, hs, hpre, hfind⟩ := ls_find_split sp.everything p hp
  have hcov_suf : buffers_cover suf := fun x hx =>
    hcov x (by rw [hev]; exact List.mem_append_right _ (List.mem_cons_of_mem _ hx))
  obtain ⟨after, hafter, hids, hcov_after⟩ := renumber_records_total sp (-1) suf hcov_suf
  have hdrop : sp.everything.drop (pre.length + 1) = suf := by
    rw [hev, List.drop_append 1]
    rfl
  have htake : sp.everything.take pre.length = pre := by
    rw [hev]; simp
  refine ⟨{ sp with everything := pre ++ after }, ?_, ?_, ?_⟩
  · unfold aris_proof_remove_sentence
    simp only [hfind, hdrop, hafter, htake]
  · have hnot : p ∉ pre.map (fun s => s.id) := by
      intro h
      obtain ⟨x, hx, hxp⟩ := List.mem_map.mp h
      exact hpre x hx hxp
    rw [hev]
    simp only [List.map_append, List.map_cons, hids, hs]
    rw [List.erase_append_right _ hnot, List.erase_cons_head]
  · intro x hx
    rcases List.mem_append.mp hx with hx | hx
    · exact hcov x (by rw [hev]; exact List.mem_append_left _ hx)
    · exact hcov_after x hx

theorem undo_op_remove_loop_ids :
    ∀ (ts : List Nat) (sp : sen_parent), ts.Nodup →
      (∀ p ∈ ts, p ∈ sp.everything.map (fun s => s.id)) →
      (sp.everything.map (fun s => s.id)).Nodup → buffers_cover sp.everything →
      ∃ sp1, undo_op_remove_loop sp ts = some sp1 ∧
        sp1.everything.map (fun s => s.id)
          = (sp.everything.map (fun s => s.id)).filter (fun q => decide (q ∉ ts)) := by
  intro ts
  induction ts with
  | nil =>
    intro sp _ _ _ _
    refine ⟨sp, rfl, ?_⟩
    simp
  | cons p rest ih =>
    intro sp hnd hmem hids hcov
    obtain ⟨hp_rest, hnd_rest⟩ := List.nodup_cons.mp hnd
    obtain ⟨sp1, h1, hids1, hcov1⟩ := aris_proof_remove_sentence_ids sp p hcov
      (hmem p (List.mem_cons_self _ _))
    have hmem1 : ∀ q ∈ rest, q ∈ sp1.everything.map (fun s => s.id) := by
      intro q hq
      rw [hids1, hids.mem_erase_iff]
      exact ⟨fun e => hp_rest (e ▸ hq), hmem q (List.mem_cons_of_mem _ hq)⟩
    obtain ⟨sp2, h2, hids2⟩ := ih sp1 hnd_rest hmem1 (by rw [hids1]; exact hids.erase p) hcov1
    refine ⟨sp2, ?_, ?_⟩
    · unfold undo_op_remove_loop
      simp only [h1, h2]
    · rw [hids2, hids1, hids.erase_eq_filter, List.filter_filter]
      apply List.filter_congr
      intro q _
      by_cases hqp : q = p
      · simp [hqp]
      · by_cases hqr : q ∈ rest
        · simp [hqr, hqp]
        · simp [hqr, hqp]

theorem mem_undo_op_remove_collect (ev : List sentence) (p : Nat) :
    ∀ batch : List sen_data, p ∈ undo_op_remove_collect ev batch ↔
      ∃ sd ∈ batch, ∃ s ∈ ev, s.sd.line_num = sd.line_num ∧ s.id = p := by
  intro batch
  induction batch with
  | nil => simp [undo_op_remove_collect]
  | cons sd rest ih =>
    unfold undo_op_remove_collect
    rw [List.mem_append, ih]
    constructor
    · rintro (h | ⟨sd1, h1, h2⟩)
      · obtain ⟨s, hs, hid⟩ := List.mem_map.mp h
        rw [List.mem_filter] at hs
        exact ⟨sd, List.mem_cons_self _ _, s, hs.1,
          by simpa [sentence_get_line_no] using hs.2, hid⟩
      · exact ⟨sd1, List.mem_cons_of_mem _ h1, h2⟩
    · rintro ⟨sd1, h1, s, hs, hl, hid⟩
      rcases List.mem_cons.mp h1 with h1 | h1
      · left
        subst h1
        exact List.mem_map.mpr ⟨s, List.mem_filter.mpr
          ⟨hs, by simpa [sentence_get_line_no] using hl⟩, hid⟩
      · right
        exact ⟨sd1, h1, s, hs, hl, hid⟩

theorem nodup_undo_op_remove_collect (ev : List sentence)
    (hids : (ev.map (fun s => s.id)).Nodup) :
    ∀ batch : List sen_data, batch.Pairwise (fun a b => a.line_num ≠ b.line_num) →
      (undo_op_remove_collect ev batch).Nodup := by
  intro batch
  induction batch with
  | nil => intro _; simp [undo_op_remove_collect]
  | cons sd rest ih =>
    intro hp
    obtain ⟨hhead, hrest⟩ := List.pairwise_cons.mp hp
    unfold undo_op_remove_collect
    rw [List.nodup_append]
    refine ⟨((List.filter_sublist ev).map _).nodup hids, ih hrest, ?_⟩
    intro p hp1 hp2
    obtain ⟨s, hs, hid⟩ := List.mem_map.mp hp1
    rw [List.mem_filter] at hs
    have hsl : s.sd.line_num = sd.line_num := by
      simpa [sentence_get_line_no] using hs.2
    obtain ⟨sd1, hsd1, s1, hs1, hl1, hid1⟩ :=
      (mem_undo_op_remove_collect ev p rest).mp hp2
    have hsame : s = s1 := List.inj_on_of_nodup_map hids hs.1 hs1 (by rw [hid, hid1])
    exact hhead sd1 hsd1 (by rw [← hsl, hsame, hl1])

/-- C20. With distinct addresses of the live records, index buffers that cover
the depth, and pairwise different line numbers in the batch: the list of
sentences that `undo_op_remove` collects holds each sentence at most once, a
live record is on it exactly when its line number, in the document as it is
before the first removal, is the line number of a snapshot of the batch, and
the operation returns 0 with exactly those records removed and the others kept
in their order. -/
theorem undo_op_remove_removes (sp : sen_parent) (ui : undo_info)
    (hids : (sp.everything.map (fun s => s.id)).Nodup) (hcov : buffers_cover sp.everything)
    (hbatch : ui.ls.Pairwise (fun a b => a.line_num ≠ b.line_num)) :
    (undo_op_remove_collect sp.everything ui.ls).Nodup ∧
    (∀ s ∈ sp.everything, (s.id ∈ undo_op_remove_collect sp.everything ui.ls ↔
        ∃ sd ∈ ui.ls, sd.line_num = s.sd.line_num)) ∧
    ∃ sp1, undo_op_remove sp ui = some (0, sp1) ∧
      sp1.everything.map (fun s => s.id)
        = (sp.everything.filter
            (fun s => decide (¬ ∃ sd ∈ ui.ls, sd.line_num = s.sd.line_num))).map
            (fun s => s.id) := by
  have hnd := nodup_undo_op_remove_collect sp.everything hids ui.ls hbatch
  have hiff : ∀ s ∈ sp.everything, (s.id ∈ undo_op_remove_collect sp.everything ui.ls ↔
      ∃ sd ∈ ui.ls, sd.line_num = s.sd.line_num) := by
    intro s hs
    rw [mem_undo_op_remove_collect]
    constructor
    · rintro ⟨sd, hsd, s1, hs1, hl, hid⟩
      have hsame : s1 = s := List.inj_on_of_nodup_map hids hs1 hs hid
      exact ⟨sd, hsd, by rw [← hl, hsame]⟩
    · rintro ⟨sd, hsd, hl⟩
      exact ⟨sd, hsd, s, hs, hl.symm, rfl⟩
  have hmem : ∀ p ∈ undo_op_remove_collect sp.everything ui.ls,
      p ∈ sp.everything.map (fun s => s.id) := by
    intro p hp
    obtain ⟨_, _, s, hs, _, hid⟩ := (mem_undo_op_remove_collect _ _ _).mp hp
    exact List.mem_map.mpr ⟨s, hs, hid⟩
  obtain ⟨sp1, h1, hids1⟩ := undo_op_remove_loop_ids _ sp hnd hmem hids hcov
  refine ⟨hnd, hiff, sp1, by unfold undo_op_remove; rw [h1]; rfl, ?_⟩
  rw [hids1, List.filter_map]
  congr 1
  apply List.filter_congr
  intro s hs
  have := hiff s hs
  simp only [Function.comp, decide_not, this]

/-- C20 on the subproof of lines 2 to 4: the batch names lines 2 and 3; the
records that were at lines 2 and 3 are removed, although the removal of line 2
renumbers the record of line 4 to line 3. -/
theorem undo_op_remove_removes_witness :
    ∃ sp1, undo_op_remove c20_sp c20_ui = some (0, sp1) ∧
      sp1.everything.map (fun s => s.id) = [1, 4, 5] := by
  obtain ⟨sp1, h1, h2⟩ := (undo_op_remove_removes c20_sp c20_ui (by decide) (by decide)
    (by decide)).2.2
  exact ⟨sp1, h1, by rw [h2]; decide⟩

theorem set_selected_run_eq (bg : BG_COLOR) (depth : Nat) :
    ∀ l : List sentence, set_selected_run bg depth l
      = (l.takeWhile (fun s => decide (depth ≤ s.sd.depth))).map (fun s => sentence_set_bg s bg)
        ++ l.dropWhile (fun s => decide (depth ≤ s.sd.depth)) := by
  intro l
  induction l with
  | nil => rfl
  | cons x rest ih =>
    unfold set_selected_run
    by_cases hx : SEN_DEPTH x < depth
    · have hx2 : ¬ depth ≤ x.sd.depth := by unfold SEN_DEPTH at hx; omega
      simp [hx, List.takeWhile_cons, List.dropWhile_cons, hx2]
    · have hx2 : depth ≤ x.sd.depth := by unfold SEN_DEPTH at hx; omega
      simp only [hx, if_false, ih, List.takeWhile_cons, List.dropWhile_cons, hx2, decide_True,
        if_true, List.map_cons, List.cons_append]

theorem select_run_eq (depth : Nat) :
    ∀ (l : List sentence) (sel : List Nat), select_run depth l sel
      = sel ++ (l.takeWhile (fun s => decide (depth ≤ s.sd.depth))).map (fun s => s.id) := by
  intro l
  induction l with
  | nil => intro sel; simp [select_run]
  | cons x rest ih =>
    intro sel
    unfold select_run
    by_cases hx : SEN_DEPTH x < depth
    · have hx2 : ¬ depth ≤ x.sd.depth := by unfold SEN_DEPTH at hx; omega
      simp [hx, List.takeWhile_cons, hx2]
    · have hx2 : depth ≤ x.sd.depth := by unfold SEN_DEPTH at hx; omega
      simp only [hx, if_false, ih, List.takeWhile_cons, hx2, decide_True, if_true,
        List.map_cons, List.append_assoc, List.singleton_append]

theorem deselect_run_eq (depth : Nat) :
    ∀ (l : List sentence) (sel : List Nat), deselect_run depth l sel
      = List.foldl List.erase sel
          ((l.takeWhile (fun s => decide (depth ≤ s.sd.depth))).map (fun s => s.id)) := by
  intro l
  induction l with
  | nil => intro sel; simp [deselect_run]
  | cons x rest ih =>
    intro sel
    unfold deselect_run
    by_cases hx : SEN_DEPTH x < depth
    · have hx2 : ¬ depth ≤ x.sd.depth := by unfold SEN_DEPTH at hx; omega
      simp [hx, List.takeWhile_cons, hx2]
    · have hx2 : depth ≤ x.sd.depth := by unfold SEN_DEPTH at hx; omega
      simp only [hx, if_false, ih, List.takeWhile_cons, hx2, decide_True, if_true,
        List.map_cons, List.foldl_cons, ls_rem_obj_value]

theorem sentence_set_selected_eq (ev : List sentence) (pos : Nat) (sen : sentence)
    (v : Int) (hget : ev[pos]? = some sen) (hsub : SEN_SUB sen = true) :
    sentence_set_selected ev pos v
      = some (paint_unit ev pos (mark_selected sen v)
          (if v ≠ 0 then BG_COLOR.SEL else BG_COLOR.DEFAULT) sen.sd.depth) := by
  unfold sentence_set_selected
  rw [hget]
  simp only [hsub, if_true, set_selected_run_eq, SEN_DEPTH]
  rfl

theorem sentence_set_reference_unit (ev : List sentence) (pos : Nat) (sen : sentence)
    (r : Int) (hget : ev[pos]? = some sen) (hsub : SEN_SUB sen = true) :
    sentence_set_reference ev pos r 1
      = some (paint_unit ev pos (mark_reference sen r)
          (if r ≠ 0 then BG_COLOR.REF else BG_COLOR.DEFAULT) sen.sd.depth) := by
  rw [sentence_set_reference_eq ev pos sen r 1 hget]
  simp only [hsub, true_and, ne_eq, one_ne_zero, not_false_eq_true, if_true,
    set_reference_run_eq, SEN_DEPTH]
  rfl

theorem select_sentence_select_eq (ap : aris_proof) (pos : Nat) (sen : sentence)
    (L : List Nat) (htype : ap.sp.type = SEN_PARENT_TYPE.PROOF)
    (hget : ap.sp.everything[pos]? = some sen) (hsub : SEN_SUB sen = true)
    (hsel : ap.selected = some L) (hflag : sen.selected = 0) :
    select_sentence ap false pos
      = some (0, { ap with
          sp := { ap.sp with
            everything := paint_unit ap.sp.everything pos (mark_selected sen 1) BG_COLOR.SEL
              sen.sd.depth },
          selected := some (L ++ (sen :: subproof_run ap.sp.everything pos sen.sd.depth).map
            (fun s => s.id)) }) := by
  have hne : ¬ ap.sp.type = SEN_PARENT_TYPE.GOAL := by rw [htype]; decide
  unfold select_sentence
  simp only [Bool.false_eq_true, if_false, hget, hne, hsel, hflag, ne_eq, not_true_eq_false,
    hsub, if_true, select_run_eq, sentence_set_selected_eq ap.sp.everything pos sen 1 hget hsub,
    one_ne_zero, not_false_eq_true, SEN_DEPTH, subproof_run, List.map_cons, List.append_assoc,
    List.singleton_append]

theorem select_sentence_deselect_eq (ap : aris_proof) (pos : Nat) (sen : sentence)
    (L : List Nat) (htype : ap.sp.type = SEN_PARENT_TYPE.PROOF)
    (hget : ap.sp.everything[pos]? = some sen) (hsub : SEN_SUB sen = true)
    (hsel : ap.selected = some L) (hflag : sen.selected ≠ 0) :
    select_sentence ap false pos
      = some (0, { ap with
          sp := { ap.sp with
            everything := paint_unit ap.sp.everything pos (mark_selected sen 0)
              BG_COLOR.DEFAULT sen.sd.depth },
          selected := some (List.foldl List.erase (L.erase sen.id)
            ((sen :: subproof_run ap.sp.everything pos sen.sd.depth).map (fun s => s.id))) }) := by
  have hne : ¬ ap.sp.type = SEN_PARENT_TYPE.GOAL := by rw [htype]; decide
  have hlt : pos < ap.sp.everything.length := by
    rcases List.getElem?_eq_some.mp hget with ⟨h, _⟩; exact h
  have hs : ap.sp.everything[pos] = sen := by
    rcases List.getElem?_eq_some.mp hget with ⟨_, h⟩; exact h
  have hdrop : ap.sp.everything.drop pos = sen :: ap.sp.everything.drop (pos + 1) := by
    rw [List.drop_eq_getElem_cons hlt, hs]
  unfold select_sentence
  simp only [Bool.false_eq_true, if_false, hget, hne, hsel, hflag, ne_eq, not_false_eq_true,
    hsub, if_true, deselect_run_eq, sentence_set_selected_eq ap.sp.everything pos sen 0 hget hsub,
    not_true_eq_false, SEN_DEPTH, subproof_run, hdrop, List.takeWhile_cons, Nat.le_refl,
    decide_True, List.map_cons, ls_rem_obj_value]

theorem foldl_erase_perm :
    ∀ (R A B : List Nat), A.Perm B → (List.foldl List.erase A R).Perm (List.foldl List.erase B R) := by
  intro R
  induction R with
  | nil => intro A B h; exact h
  | cons x R ih =>
    intro A B h
    simp only [List.foldl_cons]
    exact ih _ _ (h.erase x)

theorem foldl_erase_append_self :
    ∀ (R L : List Nat), (List.foldl List.erase (L ++ R) R).Perm L := by
  intro R
  induction R with
  | nil => intro L; simp
  | cons x R ih =>
    intro L
    simp only [List.foldl_cons]
    have h1 : ((L ++ x :: R).erase x).Perm (L ++ R) := by
      have h2 : (L ++ x :: R).Perm (x :: (L ++ R)) := List.perm_middle
      have h3 := h2.erase x
      rw [List.erase_cons_head] at h3
      exact h3
    exact (foldl_erase_perm R _ _ h1).trans (ih L)

theorem takeWhile_painted {α : Type} (p : α → Bool) (f : α → α) (hf : ∀ a, p (f a) = p a) :
    ∀ l : List α, ((l.takeWhile p).map f ++ l.dropWhile p).takeWhile p = (l.takeWhile p).map f := by
  intro l
  induction l with
  | nil => rfl
  | cons x rest ih =>
    by_cases hx : p x = true
    · simp only [List.takeWhile_cons, hx, if_true, List.dropWhile_cons, List.map_cons,
        List.cons_append, hf, ih]
    · simp only [List.takeWhile_cons, hx, if_false, List.dropWhile_cons, List.map_nil,
        List.nil_append, Bool.false_eq_true]

theorem paint_unit_get (ev : List sentence) (pos : Nat) (head : sentence) (bg : BG_COLOR)
    (depth : Nat) (hlt : pos < ev.length) :
    (paint_unit ev pos head bg depth)[pos]? = some head := by
  have hlen : (ev.take pos).length = pos := by rw [List.length_take]; omega
  unfold paint_unit
  rw [List.getElem?_append_right (by omega), hlen, Nat.sub_self]
  simp

theorem paint_unit_run (ev : List sentence) (pos : Nat) (head : sentence) (bg : BG_COLOR)
    (depth : Nat) (hlt : pos < ev.length) :
    subproof_run (paint_unit ev pos head bg depth) pos depth
      = (subproof_run ev pos depth).map (fun s => sentence_set_bg s bg) := by
  have hlen : (ev.take pos).length = pos := by rw [List.length_take]; omega
  have hdrop : (paint_unit ev pos head bg depth).drop (pos + 1)
      = (subproof_run ev pos depth).map (fun s => sentence_set_bg s bg)
          ++ subproof_rest ev pos depth := by
    unfold paint_unit
    rw [List.drop_append_eq_append_drop, hlen]
    have h0 : List.drop (pos + 1) (List.take pos ev) = [] :=
      List.drop_eq_nil_of_le (by omega)
    rw [h0, List.nil_append, Nat.add_sub_cancel_left]
    rfl
  conv => lhs; unfold subproof_run; rw [hdrop]
  unfold subproof_run subproof_rest
  exact takeWhile_painted (fun s => decide (depth ≤ s.sd.depth))
    (fun s => sentence_set_bg s bg) (fun a => rfl) _

/-- C21. Selection and reference propagation act on the same unit. For a
subproof opener at position `pos` of the proof container, with a selected list:
`sentence_set_selected` and `sentence_set_reference` with `entire_subproof = 1`
recolour the opener and the longest run of following sentences at least as deep
as the opener, and leave every sentence before and after that run as it was;
`select_sentence` on an unselected opener appends the opener and that same run,
in order, to the selected list; on a selected opener it takes the opener and
each sentence of that run off the selected list; and selecting then deselecting
an opener that was not on the list gives back the entries the list had. -/
theorem select_sentence_subproof_unit (ap : aris_proof) (pos : Nat) (sen : sentence)
    (L : List Nat) (htype : ap.sp.type = SEN_PARENT_TYPE.PROOF)
    (hget : ap.sp.everything[pos]? = some sen) (hsub : SEN_SUB sen = true)
    (hsel : ap.selected = some L) :
    (∀ v : Int, sentence_set_selected ap.sp.everything pos v
      = some (paint_unit ap.sp.everything pos (mark_selected sen v)
          (if v ≠ 0 then BG_COLOR.SEL else BG_COLOR.DEFAULT) sen.sd.depth)) ∧
    (∀ r : Int, sentence_set_reference ap.sp.everything pos r 1
      = some (paint_unit ap.sp.everything pos (mark_reference sen r)
          (if r ≠ 0 then BG_COLOR.REF else BG_COLOR.DEFAULT) sen.sd.depth)) ∧
    (sen.selected = 0 →
      select_sentence ap false pos
        = some (0, { ap with
            sp := { ap.sp with
              everything := paint_unit ap.sp.everything pos (mark_selected sen 1) BG_COLOR.SEL
                sen.sd.depth },
            selected := some (L ++ (sen :: subproof_run ap.sp.everything pos sen.sd.depth).map
              (fun s => s.id)) })) ∧
    (sen.selected ≠ 0 →
      select_sentence ap false pos
        = some (0, { ap with
            sp := { ap.sp with
              everything := paint_unit ap.sp.everything pos (mark_selected sen 0)
                BG_COLOR.DEFAULT sen.sd.depth },
            selected := some (List.foldl List.erase (L.erase sen.id)
              ((sen :: subproof_run ap.sp.everything pos sen.sd.depth).map
                (fun s => s.id))) })) ∧
    (sen.selected = 0 → (ap.sp.everything.map (fun s => s.id)).Nodup → sen.id ∉ L →
      ∃ ap1 ap2 L2, select_sentence ap false pos = some (0, ap1) ∧
        select_sentence ap1 false pos = some (0, ap2) ∧
        ap2.selected = some L2 ∧ L2.Perm L) := by
  refine ⟨fun v => sentence_set_selected_eq _ pos sen v hget hsub,
    fun r => sentence_set_reference_unit _ pos sen r hget hsub,
    fun hflag => select_sentence_select_eq ap pos sen L htype hget hsub hsel hflag,
    fun hflag => select_sentence_deselect_eq ap pos sen L htype hget hsub hsel hflag, ?_⟩
  intro hflag hnodup hnot
  have hlt : pos < ap.sp.everything.length := by
    rcases List.getElem?_eq_some.mp hget with ⟨h, _⟩; exact h
  have h1 := select_sentence_select_eq ap pos sen L htype hget hsub hsel hflag
  have h2 := select_sentence_deselect_eq _ pos (mark_selected sen 1)
    (L ++ (sen :: subproof_run ap.sp.everything pos sen.sd.depth).map (fun s => s.id))
    (show ({ ap with
          sp := { ap.sp with
            everything := paint_unit ap.sp.everything pos (mark_selected sen 1) BG_COLOR.SEL
              sen.sd.depth },
          selected := some (L ++ (sen :: subproof_run ap.sp.everything pos sen.sd.depth).map
            (fun s => s.id)) } : aris_proof).sp.type = SEN_PARENT_TYPE.PROOF from htype)
    (paint_unit_get _ pos _ _ _ hlt) hsub rfl
    (show (1 : Int) ≠ 0 by decide)
  refine ⟨_, _, _, h1, h2, rfl, ?_⟩
  have hrun : subproof_run (paint_unit ap.sp.everything pos (mark_selected sen 1) BG_COLOR.SEL
      sen.sd.depth) pos (mark_selected sen 1).sd.depth
      = (subproof_run ap.sp.everything pos sen.sd.depth).map
          (fun s => sentence_set_bg s BG_COLOR.SEL) :=
    paint_unit_run _ pos _ _ _ hlt
  simp only [hrun, List.map_cons, List.map_map]
  have hid : ((fun s : sentence => s.id) ∘ fun s => sentence_set_bg s BG_COLOR.SEL)
      = fun s => s.id := by
    funext s; rfl
  have hmid : (mark_selected sen 1).id = sen.id := rfl
  rw [hid, hmid]
  have hnr : sen.id ∉ (subproof_run ap.sp.everything pos sen.sd.depth).map (fun s => s.id) := by
    intro hmem
    have hsplit := split_at_position ap.sp.everything pos sen hget
    rw [hsplit, List.map_append, List.map_cons] at hnodup
    have hnd := (List.nodup_append.mp hnodup).2.1
    have hnd2 := (List.nodup_cons.mp hnd).1
    apply hnd2
    obtain ⟨s, hs, hsid⟩ := List.mem_map.mp hmem
    exact List.mem_map.mpr ⟨s, (List.takeWhile_sublist _).subset hs, hsid⟩
  rw [List.erase_append_right _ hnot, List.erase_cons_head, List.foldl_cons,
    List.erase_of_not_mem (by
      intro hm
      rcases List.mem_append.mp hm with hm | hm
      · exact hnot hm
      · exact hnr hm)]
  exact foldl_erase_append_self _ L

/-- C21 on the four-line example: selecting the opener at line 2 puts lines 2
and 3 on the selected list and colours both, line 4 of depth 0 is outside the
unit; selecting and deselecting leaves the list empty again. -/
theorem select_sentence_subproof_unit_witness :
    (select_sentence c21_ap false 1).map
        (fun r => (r.2.selected, r.2.sp.everything.map (fun s => s.bg_color)))
      = some (some [2, 3],
          [BG_COLOR.DEFAULT, BG_COLOR.SEL, BG_COLOR.SEL, BG_COLOR.DEFAULT]) ∧
    (∃ ap1 ap2 L2, select_sentence c21_ap false 1 = some (0, ap1) ∧
      select_sentence ap1 false 1 = some (0, ap2) ∧
      ap2.selected = some L2 ∧ L2.Perm []) := by
  have h := select_sentence_subproof_unit c21_ap 1 (ex4_line 2 1 [2, -1] false true []) []
    rfl rfl rfl rfl
  refine ⟨?_, h.2.2.2.2 rfl (by decide) (by simp)⟩
  rw [h.2.2.1 rfl]
  decide

/-- C22, the code at the failing input. A record at line 5, inside the subproof
opened at line 4, with one line before it deleted (renumbered to 4) and the
deletion undone (renumbered back to 5): the first call leaves slot 4, which is
smaller than the old line number 5; the second call compares it with the old
line number 4 and shifts it to 5. The line number is restored, the index slot
is not. -/
theorem sentence_update_line_no_delete_undo :
    wf_path c22_rec ∧ c22_rec.sd.indices = [4, -1] ∧ c22_rec.sd.line_num = 5 ∧
    sentence_update_line_no c2_sp c22_rec (5 - 1)
      = some (0, { c22_rec with sd := { c22_rec.sd with line_num := 4 } }) ∧
    sentence_update_line_no c2_sp { c22_rec with sd := { c22_rec.sd with line_num := 4 } } 5
      = some (0, { c22_rec with sd := { c22_rec.sd with indices := [5, -1] } }) := by
  decide

/-- C23, the code at the failing input. A subproof opener of depth 1 placed
after a record of depth 1: the copy loop fills slot 0, the line number goes to
slot 1, and the sentinel is written at slot 2 of a buffer of `depth + 1 = 2`
slots; the write lies outside the buffer. In general the slot of the sentinel
is at most `depth` exactly when the sentence opens no subproof or the preceding
sentence is less deep. -/
theorem sentence_init_sentinel_out_of_buffer :
    c23_sd.premise = false ∧ c23_sd.depth = 1 ∧ c23_prev.sd.depth = 1 ∧
    sentinel_slot c23_sd c23_prev = 2 ∧
    sentence_set_index (set_indices (init_blank c23_sd 7) [2, 4]) 2 (-1) = none ∧
    sentence_init_indices c23_sd (some c23_prev) 4 (init_blank c23_sd 7) = none ∧
    sentence_init c23_sd c2_sp (some c23_prev) 7 = none ∧
    (∀ (sd : sen_data) (prev : sentence),
      sentinel_slot sd prev ≤ sd.depth ↔ (sd.subproof = false ∨ prev.sd.depth < sd.depth)) := by
  refine ⟨by decide, by decide, by decide, by decide, by decide, by decide, by decide, ?_⟩
  intro sd prev
  unfold sentinel_slot index_copy_end SEN_DEPTH
  cases hs : sd.subproof
  · simp only [Bool.false_eq_true, if_false, Nat.add_zero, true_or, iff_true]
    split <;> omega
  · simp only [if_true, Bool.true_eq_false, false_or]
    split <;> omega

theorem sentence_set_line_no_value (sen : sentence) (new : Int) :
    (sentence_set_line_no sen new).2.value_type = sen.value_type := by
  unfold sentence_set_line_no
  simp only []
  split
  · split <;> rfl
  · rfl

theorem blank_citing_values (ev : List sentence) (pos : Nat) (sen r : sentence)
    (hget : ev[pos]? = some sen) (hr : r.value_type = VALUE_TYPE_BLANK) :
    ∀ (i : Nat) (e : sentence), ev[i]? = some e →
      (((blank_citing sen.id
          (ev.set pos (sentence_set_value sen VALUE_TYPE_BLANK))).set pos r)[i]?).map
          (fun s => s.value_type)
        = some (if i = pos ∨ sen.id ∈ e.references then VALUE_TYPE_BLANK
            else e.value_type) := by
  intro i e hi
  have hlt : pos < ev.length := by
    rcases List.getElem?_eq_some.mp hget with ⟨h, _⟩; exact h
  by_cases hip : i = pos
  · subst hip
    have hlt1 : i < (blank_citing sen.id
        (ev.set i (sentence_set_value sen VALUE_TYPE_BLANK))).length := by
      simp only [blank_citing, List.length_map, List.length_set]; exact hlt
    rw [List.getElem?_set_self hlt1]
    simp only [Option.map_some', hr, true_or, if_true]
  · rw [List.getElem?_set_ne (Ne.symm hip)]
    unfold blank_citing
    rw [List.getElem?_map, List.getElem?_set_ne (Ne.symm hip), hi]
    simp only [Option.map_some', hip, false_or]
    by_cases hm : sen.id ∈ e.references
    · simp only [hm, if_true]; rfl
    · simp only [hm, if_false]

theorem undo_info_init_one_some (s : sentence) (kind : Int) (t : String)
    (ht : s.sd.text = some t) : ∃ ui, undo_info_init_one s kind = some ui := by
  unfold undo_info_init_one
  simp only [sentence_get_text, ht]
  exact ⟨_, rfl⟩

theorem blank_citing_value_at (p : Nat) (ev : List sentence) (pos : Nat) (s : sentence)
    (h : ev[pos]? = some s) (hv : s.value_type = VALUE_TYPE_BLANK) :
    ∃ s1, (blank_citing p ev)[pos]? = some s1 ∧ s1.sd = s.sd ∧
      s1.value_type = VALUE_TYPE_BLANK := by
  unfold blank_citing
  rw [List.getElem?_map, h]
  simp only [Option.map_some']
  split
  · exact ⟨_, rfl, rfl, rfl⟩
  · exact ⟨_, rfl, rfl, hv⟩

/-- C24. A committed text change invalidates the dependent verdicts of the
container and nothing else in it. For the sentence at position `pos` of the
proof container or of the goal container: when its `font_resizing` flag or the
`undo` flag of its container is set, `sentence_text_changed` returns 0 with the
whole state unchanged and no undo batch handed on; otherwise, with a stored
text, it returns 0 with a batch, and in the container of the edited sentence the
value of the edited sentence and of every sentence whose references hold it is
`VALUE_TYPE_BLANK`, while every other sentence of that container keeps its
value. -/
theorem sentence_text_changed_blanks (ap : aris_proof) (in_goal : Bool) (pos : Nat)
    (buffer : String) (sen : sentence) (t : String)
    (hproof : ap.sp.type = SEN_PARENT_TYPE.PROOF) (hgoal : ap.goal.type = SEN_PARENT_TYPE.GOAL)
    (hget : (if in_goal then ap.goal else ap.sp).everything[pos]? = some sen)
    (ht : sen.sd.text = some t) :
    ((sen.font_resizing ≠ 0 ∨ (if in_goal then ap.goal else ap.sp).undo ≠ 0) →
      sentence_text_changed ap in_goal pos buffer = some (0, ap, none)) ∧
    (sen.font_resizing = 0 → (if in_goal then ap.goal else ap.sp).undo = 0 →
      ∃ ap1 ui, sentence_text_changed ap in_goal pos buffer = some (0, ap1, some ui) ∧
        ∀ (i : Nat) (e : sentence),
          (if in_goal then ap.goal else ap.sp).everything[i]? = some e →
          ((if in_goal then ap1.goal else ap1.sp).everything[i]?).map (fun s => s.value_type)
            = some (if i = pos ∨ sen.id ∈ e.references then VALUE_TYPE_BLANK
                else e.value_type)) := by
  constructor
  · intro h
    unfold sentence_text_changed
    simp only [hget, h, if_true]
  · intro hfont hundo
    have hlt : pos < (if in_goal then ap.goal else ap.sp).everything.length := by
      rcases List.getElem?_eq_some.mp hget with ⟨h, _⟩; exact h
    obtain ⟨s1, hs1, hsd1, hv1⟩ := blank_citing_value_at sen.id
      ((if in_goal then ap.goal else ap.sp).everything.set pos
        (sentence_set_value sen VALUE_TYPE_BLANK)) pos
      (sentence_set_value sen VALUE_TYPE_BLANK) (List.getElem?_set_self hlt) rfl
    have ht1 : s1.sd.text = some t := by rw [hsd1]; exact ht
    obtain ⟨ui, hui⟩ := undo_info_init_one_some s1 UIT_MOD_TEXT t ht1
    cases in_goal with
    | false =>
      simp only [Bool.false_eq_true, if_false] at hget hundo hs1 hlt ⊢
      obtain ⟨goals, hgoals⟩ := blank_goal_line_total ap.goal (sentence_get_line_no sen) hgoal
        ap.goal.everything
      refine ⟨{ ap with
          sp := { ap.sp with
            everything := (blank_citing sen.id
                (ap.sp.everything.set pos (sentence_set_value sen VALUE_TYPE_BLANK))).set pos
              { s1 with sd := { s1.sd with text := some (sentence_copy_text buffer) } } },
          goal := { ap.goal with everything := goals } }, ui, ?_, ?_⟩
      · unfold sentence_text_changed
        simp only [Bool.false_eq_true, if_false, hget, hfont, hundo, ne_eq, not_true_eq_false,
          or_self, hs1, hui, hproof, if_true, hgoals, sentence_set_text]
      · exact blank_citing_values ap.sp.everything pos sen _ hget hv1
    | true =>
      simp only [if_true] at hget hundo hs1 hlt ⊢
      have hne : ¬ ap.goal.type = SEN_PARENT_TYPE.PROOF := by rw [hgoal]; decide
      cases hnth : ls_nth ap.sp.everything (sentence_get_line_no sen) with
      | none =>
        refine ⟨{ ap with
            goal := { ap.goal with
              everything := (blank_citing sen.id
                  (ap.goal.everything.set pos (sentence_set_value sen VALUE_TYPE_BLANK))).set pos
                { s1 with sd := { s1.sd with text := some (sentence_copy_text buffer) } } } },
          ui, ?_, ?_⟩
        · unfold sentence_text_changed
          simp only [if_true, hget, hfont, hundo, ne_eq, not_true_eq_false,
            or_self, hs1, hui, hne, if_false, hnth, sentence_set_text, Bool.not_true,
            Bool.false_eq_true]
        · exact blank_citing_values ap.goal.everything pos sen _ hget hv1
      | some q =>
        refine ⟨{ ap with
            goal := { ap.goal with
              everything := (blank_citing sen.id
                  (ap.goal.everything.set pos (sentence_set_value sen VALUE_TYPE_BLANK))).set pos
                { (sentence_set_line_no s1 (-1)).2 with
                  sd := { (sentence_set_line_no s1 (-1)).2.sd with
                    text := some (sentence_copy_text buffer) } } } },
          ui, ?_, ?_⟩
        · unfold sentence_text_changed
          simp only [if_true, hget, hfont, hundo, ne_eq, not_true_eq_false,
            or_self, hs1, hui, hne, if_false, hnth, sentence_set_text, Bool.not_true,
            Bool.false_eq_true]
        · refine blank_citing_values ap.goal.everything pos sen _ hget ?_
          show (sentence_set_line_no s1 (-1)).2.value_type = VALUE_TYPE_BLANK
          rw [sentence_set_line_no_value]; exact hv1

/-- C24 on the proof `c24_ap`, where line 2 cites line 1 and line 3 does not:
with the `undo` flag of the container set an edit of line 1 changes nothing;
without it the values of lines 1 and 2 become blank and line 3 keeps its
value. -/
theorem sentence_text_changed_blanks_witness :
    sentence_text_changed { c24_ap with sp := { c24_ap.sp with undo := 1 } } false 0 "S"
      = some (0, { c24_ap with sp := { c24_ap.sp with undo := 1 } }, none) ∧
    (∃ ap1 ui, sentence_text_changed c24_ap false 0 "S" = some (0, ap1, some ui) ∧
      ∀ (i : Nat) (e : sentence), c24_ap.sp.everything[i]? = some e →
        (ap1.sp.everything[i]?).map (fun s => s.value_type)
          = some (if i = 0 ∨ c24_line1.id ∈ e.references then VALUE_TYPE_BLANK
              else e.value_type)) :=
  ⟨(sentence_text_changed_blanks { c24_ap with sp := { c24_ap.sp with undo := 1 } } false 0
      "S" c24_line1 "P" rfl rfl rfl rfl).1 (Or.inr (by decide)),
    (sentence_text_changed_blanks c24_ap false 0 "S" c24_line1 "P" rfl rfl rfl rfl).2
      rfl rfl⟩

end Aris
